import Mathlib

/-!
# sg_tst_async: the per-worker asynchronous dispatch loop

A shallow embedding of `examples/sg_tst_async.cpp` (sg3_utils).  Every
definition below is a translation of the C++ function or statement block of
the same name.  Calls that leave the program (the shared atomic counter as
seen by one worker, `posix_memalign`, `write`, `ioctl`, `poll`, `read`,
`sg_err_category3`, the random engine) take their results from an explicit
record of responses, one record per iteration of the `work_thread` loop, so
that a run of the worker is a function of the list of those records.  The
parts of `main` around the workers are embedded in the same way: the checks
of the devices named on the command line take the answers of each device
from a record, and the code after the threads are joined works on the
results of the workers.

Conventions
* C `int` values are `Int`; the two places where the source relies on
  wrap-around (the `atomic<int>` counters and the `unsigned int` EAGAIN
  tally) reduce explicitly.
* A buffer pointer is a `Nat`, `0` being `NULL`.
* `std::list<unsigned char *>` is a `List Nat` whose head is the front.
* `std::map<int, T>` is an association list with at most one entry per key;
  the source only uses `find`, `erase`, `operator[]` and `size`, never the
  iteration order.
* A `break` out of the `for` loop always leaves `err` set, so the loop is
  left exactly when `err` is set or the loop condition fails.
* A call that can block for ever (`poll` returning 0 again and again, `read`
  failing with `EAGAIN` again and again) consumes a finite list of results;
  an exhausted list means the call has not returned and the model answers
  `none`.
-/

namespace SgTstAsync

/-! ## Constants, enumerations, options -/

def MAX_Q_PER_FD : Int := 16
def MAX_CONSEC_NOMEMS : Nat := 16
def DEF_NUM_PER_THREAD : Int := 1000
def DEF_LBA : Nat := 1000
/-- Linux errno values used by the source. -/
def ENOMEM : Int := 12
def EAGAIN : Int := 11

inductive command2execute where
  | SCSI_TUR | SCSI_READ16 | SCSI_WRITE16
  deriving DecidableEq, Repr

inductive myQDiscipline where
  | MQD_LOW | MQD_MEDIUM | MQD_HIGH
  deriving DecidableEq, Repr

open command2execute myQDiscipline

/-- The fields of `struct opts_t` that the worker loop reads. -/
structure opts_t where
  maxq_per_thread : Int
  num_per_thread : Int
  lba : Nat
  hi_lba : Nat
  lb_sz : Int
  wait_ms : Int
  c2e : command2execute
  mqd : myQDiscipline
  deriving DecidableEq, Repr

/-- The process-wide `static atomic<int>` counters. -/
structure Shared where
  async_starts : Int
  async_finishes : Int
  ebusy_count : Int
  eagain_count : Int
  uniq_pack_id : Int
  deriving DecidableEq, Repr

/-- Initial values of the atomics: `async_starts(0)` ... `uniq_pack_id(1)`. -/
def Shared.init : Shared :=
  { async_starts := 0, async_finishes := 0, ebusy_count := 0,
    eagain_count := 0, uniq_pack_id := 1 }

/-- Two's complement reduction to a 32 bit `int` (arithmetic on `atomic<int>`). -/
def wrap32 (x : Int) : Int := (x + 2147483648) % 4294967296 - 2147483648

/-- Result of a system call: the return value and `errno`. -/
structure SysRes where
  ret : Int
  errno : Int
  deriving DecidableEq, Repr

/-- Modelled from the spec: the result of `sg_err_category3`, declared in
`sg_lib.h`, which is not among the sources at hand.  `finish_sg3_cmd` tells
apart a clean result, a recovered error (the "benign advisory" of the spec)
and every other category. -/
inductive sg_err_category where
  | SG_LIB_CAT_CLEAN
  | SG_LIB_CAT_RECOVERED
  | other (code : Int)
  deriving DecidableEq, Repr

/-- Outcome of one `read(sg_fd, &pt, sizeof(pt))` in `finish_sg3_cmd`. -/
inductive ReadRes where
  /-- The call returned a negative value with this `errno`. -/
  | fail (errno : Int)
  /-- The call returned a response carrying `pt.pack_id`, which
  `sg_err_category3` then puts in category `cat`. -/
  | done (pack_id : Int) (cat : sg_err_category)
  deriving DecidableEq, Repr

/-- The text `err` points to when the loop is left by `break`. -/
inductive WorkErr where
  | out_of_memory
  | start_sg3_cmd
  | ioctl_num_waiting
  | poll_wait_ms
  | finish_sg3_cmd
  | finish_sg3_cmd_lba (lba : Nat)
  | pack_id_not_found (pack_id : Int)
  deriving DecidableEq, Repr

/-- What the outside world answers during one iteration of the loop. -/
structure IterIn where
  /-- Number of `uniq_pack_id.fetch_add(1)` calls other workers made since
  this worker last touched the counter. -/
  other_fetch_adds : Nat
  /-- Block returned by `posix_memalign` in `get_aligned_heap` (0: failure). -/
  heap : Nat
  /-- Value returned by `ruip->get()`. -/
  ruip_get : Nat
  /-- Outcome of the j-th `write` of `start_sg3_cmd`. -/
  writes : Nat → SysRes
  /-- Answer of `ioctl(SG_GET_NUM_WAITING)`: `none` when it fails. -/
  num_waiting : Option Int
  /-- Successive return values of `poll`. -/
  polls : List Int
  /-- Successive `read` outcomes of the j-th `finish_sg3_cmd` call. -/
  reads : Nat → List ReadRes

/-! ## std::map<int, T> as an association list -/

def map_find {α : Type} (m : List (Int × α)) (key : Int) : Option α :=
  match m with
  | [] => none
  | (k, v) :: rest => if k = key then some v else map_find rest key

def map_erase {α : Type} (m : List (Int × α)) (key : Int) : List (Int × α) :=
  match m with
  | [] => []
  | (k, v) :: rest => if k = key then map_erase rest key else (k, v) :: map_erase rest key

/-- The assignment `m[key] = v`: replaces the entry of `key` or adds one. -/
def map_assign {α : Type} (m : List (Int × α)) (key : Int) (v : α) : List (Int × α) :=
  (key, v) :: map_erase m key

/-! ## start_sg3_cmd: the submission retry loop (lines 380-388) -/

/-- The loop `for (k = 0; write(...) < 0; ++k)`, entered with counter `k`.
Returns the value `start_sg3_cmd` returns and the number of `write` calls
made so far. -/
def start_sg3_cmd_from (w : Nat → SysRes) (k : Nat) : Int × Nat :=
  if (w k).ret < 0 then
    if (ENOMEM = (w k).errno) ∧ (k < MAX_CONSEC_NOMEMS) then
      start_sg3_cmd_from w (k + 1)
    else
      (-1, k + 1)
  else
    (0, k + 1)
termination_by MAX_CONSEC_NOMEMS - k
decreasing_by omega

/-- Returns 0 if command injected okay, else -1 (first component); the second
component counts the `write` attempts made. -/
def start_sg3_cmd (w : Nat → SysRes) : Int × Nat :=
  start_sg3_cmd_from w 0

/-! ## finish_sg3_cmd (lines 391-450) -/

/-- Reads one response.  `pack_id` and `eagains` are the reference parameters;
the result is the return value and their new values, or `none` while the
`read` loop is still spinning on `EAGAIN`. -/
def finish_sg3_cmd (rs : List ReadRes) (pack_id : Int) (eagains : Nat) :
    Option (Int × Int × Nat) :=
  match rs with
  | [] => none
  | ReadRes.fail e :: rest =>
    if EAGAIN = e then finish_sg3_cmd rest pack_id ((eagains + 1) % 4294967296)
    else some (-1, pack_id, eagains)
  | ReadRes.done pid cat :: _ =>
    match cat with
    | sg_err_category.SG_LIB_CAT_CLEAN => some (0, pid, eagains)
    | sg_err_category.SG_LIB_CAT_RECOVERED => some (0, pid, eagains)
    | sg_err_category.other _ => some (-1, pid, eagains)

/-! ## work_thread (lines 484-724) -/

/-- Local variables of `work_thread` that live across statements, together
with the shared id counter and the log of blocks obtained from the allocator. -/
structure WState where
  k : Int
  num_outstanding : Int
  do_inc : Int
  pack_id : Int
  num_to_read : Int
  thr_async_starts : Int
  thr_async_finishes : Int
  thr_eagain_count : Nat
  free_lst : List Nat
  pi_2_buff : List (Int × Nat)
  pi_2_lba : List (Int × Nat)
  err : Option WorkErr
  /-- The shared `uniq_pack_id` as last left by this worker. -/
  uniq_pack_id : Int
  /-- Blocks `get_aligned_heap` has returned to this worker, newest first. -/
  allocated : List Nat
  deriving DecidableEq, Repr

def is_rw (op : opts_t) : Bool := op.c2e ≠ SCSI_TUR

/-- Whether `ruip` is non-null: `if (is_rw && op->hi_lba)`. -/
def has_ruip (op : opts_t) : Bool := is_rw op && (op.hi_lba ≠ 0)

/-- State on entry to the `for` loop (`k = 0, num_outstanding = 0`). -/
def WState.init (uniq : Int) : WState :=
  { k := 0, num_outstanding := 0, do_inc := 0, pack_id := 0, num_to_read := 0,
    thr_async_starts := 0, thr_async_finishes := 0, thr_eagain_count := 0,
    free_lst := [], pi_2_buff := [], pi_2_lba := [], err := none,
    uniq_pack_id := uniq, allocated := [] }

/-- The loop condition `(k < num) || num_outstanding`. -/
def loop_cond (op : opts_t) (s : WState) : Bool :=
  decide (s.k < op.num_per_thread) || decide (s.num_outstanding ≠ 0)

/-- Lines 584-593: the submission itself, once `pack_id`, `lbp` and `lba` are
chosen. -/
def submit_cmd (op : opts_t) (inp : IterIn) (s : WState) (lbp lba : Nat) : WState :=
  if (start_sg3_cmd inp.writes).1 ≠ 0 then
    { s with err := some WorkErr.start_sg3_cmd }
  else
    { s with thr_async_starts := s.thr_async_starts + 1,
             num_outstanding := s.num_outstanding + 1,
             pi_2_buff := map_assign s.pi_2_buff s.pack_id lbp,
             pi_2_lba := if has_ruip op then map_assign s.pi_2_lba s.pack_id lba
                         else s.pi_2_lba }

/-- Lines 574-583: the target address of the new command. -/
def choose_lba (op : opts_t) (inp : IterIn) : Nat :=
  if is_rw op then
    if has_ruip op then inp.ruip_get else op.lba
  else 0

/-- Lines 561-573: the transfer buffer of the new command.  `none` stands for
the `NULL` that `get_aligned_heap` returns when `posix_memalign` fails;
otherwise the result is the state with the buffer taken and `lbp`. -/
def acquire_buffer (op : opts_t) (inp : IterIn) (s : WState) : Option (WState × Nat) :=
  if is_rw op then
    match s.free_lst.getLast? with
    | none =>
      -- free_lst.empty(): lbp = get_aligned_heap(op->lb_sz)
      if inp.heap = 0 then none
      else some ({ s with allocated := inp.heap :: s.allocated }, inp.heap)
    | some lbp =>
      -- lbp = free_lst.back(); free_lst.pop_back();
      some ({ s with free_lst := s.free_lst.dropLast }, lbp)
  else
    some (s, 0)

/-- Lines 559-560: `do_inc = 1; pack_id = uniq_pack_id.fetch_add(1);` where
other workers have advanced the shared counter in the meantime. -/
def with_new_id (inp : IterIn) (s : WState) : WState :=
  { s with do_inc := 1, pack_id := wrap32 (s.uniq_pack_id + inp.other_fetch_adds),
           uniq_pack_id := wrap32 (wrap32 (s.uniq_pack_id + inp.other_fetch_adds) + 1) }

/-- Lines 557-594: `do_inc = 0;` and the guarded submission. -/
def submit_phase (op : opts_t) (inp : IterIn) (s : WState) : WState :=
  let s0 := { s with do_inc := 0 }
  if (s0.num_outstanding < op.maxq_per_thread) ∧ (s0.k < op.num_per_thread) then
    let s1 := with_new_id inp s0
    match acquire_buffer op inp s1 with
    | none => { s1 with err := some WorkErr.out_of_memory }
    | some (s2, lbp) => submit_cmd op inp s2 lbp (choose_lba op inp)
  else
    s0

/-- Lines 624-629: `while (0 == (res = poll(pfd, 1, n))) { if (res < 0) ... }`.
Returns the value `err` has after the loop (given its value before), or
`none` while `poll` keeps returning 0. -/
def poll_wait (polls : List Int) (err : Option WorkErr) : Option (Option WorkErr) :=
  match polls with
  | [] => none
  | res :: rest =>
    if 0 = res then
      if res < 0 then some (some WorkErr.poll_wait_ms)
      else poll_wait rest err
    else some err

/-- Lines 595-648: `num_to_read = 0;` and the choice of how many responses to
read in this iteration. -/
def decide_phase (op : opts_t) (inp : IterIn) (s : WState) : Option WState :=
  let s0 := { s with num_to_read := 0 }
  if (s0.num_outstanding ≥ op.maxq_per_thread) ∨ (s0.k ≥ op.num_per_thread) then
    -- full queue or finished injecting
    match inp.num_waiting with
    | none => some { s0 with err := some WorkErr.ioctl_num_waiting }
    | some num_waiting_read =>
      if 1 = num_waiting_read then
        some { s0 with num_to_read := num_waiting_read }
      else if num_waiting_read > 0 then
        if s0.k ≥ op.num_per_thread then
          some { s0 with num_to_read := num_waiting_read }
        else
          match op.mqd with
          | MQD_LOW => some { s0 with num_to_read := num_waiting_read }
          | MQD_MEDIUM => some { s0 with num_to_read := Int.tdiv num_waiting_read 2 }
          | MQD_HIGH => some { s0 with num_to_read := 1 }
      else
        match poll_wait inp.polls s0.err with
        | none => none
        | some e => some { s0 with err := e }
  else
    -- not full, not finished injecting
    if MQD_HIGH = op.mqd then
      some { s0 with num_to_read := 0 }
    else
      match inp.num_waiting with
      | none => some { s0 with err := some WorkErr.ioctl_num_waiting }
      | some num_waiting_read =>
        if num_waiting_read > 0 then
          let divisor : Int := if MQD_LOW = op.mqd then 1 else 2
          some { s0 with num_to_read := Int.tdiv num_waiting_read divisor }
        else
          some { s0 with num_to_read := 0 }

/-- Lines 665-691: bookkeeping for one response that `finish_sg3_cmd` accepted
(`s.pack_id` is the id it delivered). -/
def resolve_completion (op : opts_t) (s : WState) : WState :=
  let s1 := { s with thr_async_finishes := s.thr_async_finishes + 1,
                     num_outstanding := s.num_outstanding - 1 }
  let s2 :=
    match map_find s1.pi_2_buff s1.pack_id with
    | none =>
      if s1.err.isNone then { s1 with err := some (WorkErr.pack_id_not_found s1.pack_id) }
      else s1
    | some lbp =>
      { s1 with pi_2_buff := map_erase s1.pi_2_buff s1.pack_id,
                free_lst := if lbp ≠ 0 then lbp :: s1.free_lst else s1.free_lst }
  if has_ruip op ∧ s2.pack_id > 0 then
    { s2 with pi_2_lba := map_erase s2.pi_2_lba s2.pack_id }
  else s2

/-- Lines 653-662: the error text after a failed `finish_sg3_cmd`. -/
def finish_error (op : opts_t) (s : WState) : WorkErr :=
  if has_ruip op ∧ s.pack_id > 0 then
    match map_find s.pi_2_lba s.pack_id with
    | some lba => WorkErr.finish_sg3_cmd_lba lba
    | none => WorkErr.finish_sg3_cmd
  else WorkErr.finish_sg3_cmd

/-- Lines 650-692: `while (num_to_read-- > 0)`, with `n` the number of rounds
the loop condition still lets through (`iteration` passes the value of
`num_to_read`) and `j` the number of `finish_sg3_cmd` calls already made in
this iteration.  Every evaluation of the loop condition counts `num_to_read`
down, the one that ends the loop included. -/
def drain_loop (op : opts_t) (inp : IterIn) : Nat → Nat → WState → Option WState
  | 0, _, s => some { s with num_to_read := s.num_to_read - 1 }
  | n + 1, j, s =>
    match finish_sg3_cmd (inp.reads j) s.pack_id s.thr_eagain_count with
    | none => none
    | some (ret, pid, eag) =>
      let s1 := { s with num_to_read := s.num_to_read - 1, pack_id := pid,
                         thr_eagain_count := eag }
      if ret ≠ 0 then
        some { s1 with err := some (finish_error op s1) }
      else
        let s2 := resolve_completion op s1
        if s2.err.isSome then some s2
        else drain_loop op inp n (j + 1) s2

/-- One pass through the body of the `for` loop followed, unless the body was
left by `break`, by the step `k = do_inc ? k + 1 : k`. -/
def iteration (op : opts_t) (inp : IterIn) (s : WState) : Option WState :=
  let s1 := submit_phase op inp s
  if s1.err.isSome then some s1
  else
    match decide_phase op inp s1 with
    | none => none
    | some s2 =>
      if s2.err.isSome then some s2
      else
        match drain_loop op inp s2.num_to_read.toNat 0 s2 with
        | none => none
        | some s3 =>
          if s3.err.isSome then some s3
          else some { s3 with k := if s3.do_inc ≠ 0 then s3.k + 1 else s3.k }

/-- Whether the `for` loop has been left at `s`. -/
def exited (op : opts_t) (s : WState) : Bool :=
  s.err.isSome || !loop_cond op s

/-- The `for` loop of lines 555-695 fed with the responses `ins`, one record
per iteration: the state at the head of the loop after `ins` is used up, or
the state with which the loop was left. -/
def work_loop (op : opts_t) : List IterIn → WState → Option WState
  | [], s => some s
  | inp :: rest, s =>
    if exited op s then some s
    else
      match iteration op inp s with
      | none => none
      | some s1 => work_loop op rest s1

/-- What `work_thread` leaves behind when it returns. -/
structure WorkResult where
  sh : Shared
  final : WState
  /-- Whether one of the two "FAILed" lines is printed (`err || (k < num)`). -/
  failed : Bool
  /-- The value `n = pi_2_buff.size()` reported when positive. -/
  still_in_map : Nat
  /-- Arguments of the `free` calls of lines 712-717, in call order. -/
  freed : List Nat
  deriving DecidableEq, Repr

/-- Lines 712-717: empties `free_lst` from the back, freeing non-null blocks. -/
def free_all (free_lst : List Nat) : List Nat :=
  (free_lst.reverse).filter (fun lbp => lbp ≠ 0)

/-- Lines 696-723: the code after the loop. -/
def work_thread_exit (op : opts_t) (sh : Shared) (s : WState) : WorkResult :=
  { sh :=
      { async_starts := wrap32 (sh.async_starts + s.thr_async_starts)
        async_finishes := wrap32 (sh.async_finishes + s.thr_async_finishes)
        ebusy_count := sh.ebusy_count
        eagain_count := wrap32 (sh.eagain_count + s.thr_eagain_count)
        uniq_pack_id := s.uniq_pack_id }
    final := s
    failed := s.err.isSome || decide (s.k < op.num_per_thread)
    still_in_map := s.pi_2_buff.length
    freed := free_all s.free_lst }

/-- The whole of `work_thread` once the device is open: `none` while the
worker has not returned on the responses given. -/
def work_thread (op : opts_t) (sh : Shared) (ins : List IterIn) : Option WorkResult :=
  match work_loop op ins (WState.init sh.uniq_pack_id) with
  | none => none
  | some s => if exited op s then some (work_thread_exit op sh s) else none

/-! ## Predicates on worker states used by the invariants -/

/-- Bookkeeping that holds inside an iteration as long as no error is
recorded; `do_inc` tells whether this iteration has submitted a command. -/
def counts_mid (op : opts_t) (s : WState) : Prop :=
  s.err = none →
    (s.do_inc = 0 ∨ s.do_inc = 1) ∧
    s.thr_async_starts = s.k + s.do_inc ∧
    s.num_outstanding = s.thr_async_starts - s.thr_async_finishes ∧
    (s.pi_2_buff.length : Int) + s.thr_async_finishes ≤ s.thr_async_starts ∧
    s.k + s.do_inc ≤ op.num_per_thread

/-- Bookkeeping at the head of the loop as long as no error is recorded. -/
def counts_head (op : opts_t) (s : WState) : Prop :=
  s.err = none →
    s.thr_async_starts = s.k ∧
    s.num_outstanding = s.thr_async_starts - s.thr_async_finishes ∧
    (s.pi_2_buff.length : Int) + s.thr_async_finishes ≤ s.thr_async_starts ∧
    s.k ≤ op.num_per_thread

/-- The non-null buffers attached to in-flight requests. -/
def attached (s : WState) : List Nat :=
  (s.pi_2_buff.map Prod.snd).filter (fun b => b ≠ 0)

/-- Every buffer the worker holds: the free list, then the attached ones. -/
def owned (s : WState) : List Nat := s.free_lst ++ attached s

/-- No buffer has two owners: the free list has no duplicates, no two
in-flight requests hold the same non-null buffer, and no buffer of the free
list is attached to an in-flight request. -/
def single_owner (s : WState) : Prop :=
  s.free_lst.Nodup ∧ (attached s).Nodup ∧ ∀ b ∈ s.free_lst, b ∉ attached s

instance (s : WState) : Decidable (single_owner s) := by
  unfold single_owner
  infer_instance

/-- Whether the iteration that starts in `s` calls `get_aligned_heap`: a
command is to be submitted, it transfers data and the free list is empty. -/
def calls_allocator (op : opts_t) (s : WState) : Bool :=
  decide (s.num_outstanding < op.maxq_per_thread) && decide (s.k < op.num_per_thread) &&
    is_rw op && s.free_lst.isEmpty

/-- The allocator assumption along a run: whenever an iteration calls
`get_aligned_heap`, the block returned differs from every block the worker
has obtained before (none of them has been freed, so all are live). -/
def allocator_fresh (op : opts_t) : List IterIn → WState → Bool
  | [], _ => true
  | inp :: rest, s =>
    exited op s ||
      ((!calls_allocator op s || decide (inp.heap ∉ s.allocated)) &&
        match iteration op inp s with
        | none => true
        | some s1 => allocator_fresh op rest s1)

/-- Bookkeeping of the buffer pool. -/
def pool_count (op : opts_t) (s : WState) : Prop :=
  0 ∉ s.free_lst ∧
  (is_rw op = false → s.allocated = []) ∧
  (s.err = none →
    s.num_outstanding = s.thr_async_starts - s.thr_async_finishes ∧
    (is_rw op = true →
      (∀ e ∈ s.pi_2_buff, e.2 ≠ 0) ∧
      (s.allocated.length : Int) + s.thr_async_finishes =
        s.free_lst.length + s.thr_async_starts))

/-! ## Concrete options and responses used in the examples below -/

/-- The option values `main` sets before it reads the command line
(lines 880-892): TEST UNIT READY, at most 16 queued, 1000 commands, `-Q 2`. -/
def opts_default : opts_t :=
  { maxq_per_thread := MAX_Q_PER_FD, num_per_thread := DEF_NUM_PER_THREAD,
    lba := DEF_LBA, hi_lba := 0, lb_sz := 512, wait_ms := 10,
    c2e := SCSI_TUR, mqd := MQD_HIGH }

/-- A `write` that always succeeds. -/
def write_ok : Nat → SysRes := fun _ => { ret := 88, errno := 0 }

/-- A `write` that fails with `errno` `e` on its first `n` calls, then succeeds. -/
def write_fail_then_ok (n : Nat) (e : Int) : Nat → SysRes :=
  fun j => if j < n then { ret := -1, errno := e } else { ret := 88, errno := 0 }

/-- An iteration in which every call succeeds and no response is waiting. -/
def quiet : IterIn :=
  { other_fetch_adds := 0, heap := 0, ruip_get := 0, writes := write_ok,
    num_waiting := some 0, polls := [1], reads := fun _ => [] }

/-- An iteration in which `n` responses are waiting and the j-th one read
carries `ids j` with a clean status. -/
def waiting (n : Int) (ids : Nat → Int) : IterIn :=
  { quiet with num_waiting := some n,
               reads := fun j => [ReadRes.done (ids j) sg_err_category.SG_LIB_CAT_CLEAN] }

/-- Options with a queue of two and ten commands, favouring submissions. -/
def opts_q2 : opts_t := { opts_default with maxq_per_thread := 2, num_per_thread := 10 }

/-- The state of a worker after the submission of its second iteration: two
commands in flight, `k` still 1. -/
def two_in_flight : WState :=
  { WState.init 3 with k := 1, num_outstanding := 2, do_inc := 1, pack_id := 2,
                       num_to_read := -1, thr_async_starts := 2,
                       pi_2_buff := [(2, 0), (1, 0)] }

/-- A run of a single command whose submission meets ENOMEM three times. -/
def three_nomem_run : List IterIn :=
  [ { quiet with writes := write_fail_then_ok 3 ENOMEM }, waiting 1 (fun _ => 1) ]

/-- A run of two commands in which the first response read carries an id
that was never issued. -/
def orphan_run : List IterIn :=
  [ quiet, quiet, waiting 2 (fun j => if j = 0 then 99 else 1), waiting 1 (fun _ => 2) ]

/-- The state of a worker run with `opts_q2` after two iterations: the queue is
full. -/
def queue_full_q2 : WState := { two_in_flight with k := 2 }

/-- The default options with a single command to send. -/
def opts_single : opts_t := { opts_default with num_per_thread := 1 }

/-- The state in which the run `three_nomem_run` leaves the loop. -/
def single_cmd_final : WState :=
  { WState.init 2 with k := 1, pack_id := 1, num_to_read := -1, thr_async_starts := 1,
                       thr_async_finishes := 1 }

/-- Two READ(16) commands per worker, otherwise the default options. -/
def opts_read : opts_t := { opts_default with c2e := SCSI_READ16, num_per_thread := 2 }

/-- The two submitting iterations of a READ run: the allocator hands out the
blocks 4096 and 8192. -/
def read_submits : List IterIn := [ { quiet with heap := 4096 }, { quiet with heap := 8192 } ]

/-- A READ run that ends well: both responses arrive in the third iteration. -/
def read_run : List IterIn := read_submits ++ [ waiting 2 (fun j => 1 + j) ]

/-- A READ run that fails in its third iteration: `ioctl(SG_GET_NUM_WAITING)`
returns an error while both commands are in flight. -/
def leak_run : List IterIn := read_submits ++ [ { quiet with num_waiting := none } ]

/-- The state after `read_submits`: both commands in flight. -/
def read_mid : WState :=
  { WState.init 3 with k := 2, num_outstanding := 2, do_inc := 1, pack_id := 2,
                       num_to_read := -1, thr_async_starts := 2,
                       pi_2_buff := [(2, 8192), (1, 4096)], allocated := [8192, 4096] }

/-- The state in which `read_run` leaves the loop. -/
def read_final : WState :=
  { WState.init 3 with k := 2, pack_id := 2, num_to_read := -1, thr_async_starts := 2,
                       thr_async_finishes := 2, free_lst := [8192, 4096],
                       allocated := [8192, 4096] }

/-- The state in which `leak_run` leaves the loop: both commands still in
flight. -/
def leak_final : WState :=
  { read_mid with do_inc := 0, num_to_read := 0, err := some WorkErr.ioctl_num_waiting }

/-! ## start_sg3_cmd: the command blocks (lines 319-372) -/

def turCmdBlk : List Nat := [0, 0, 0, 0, 0, 0]
def r16CmdBlk : List Nat := [0x88, 0, 0, 0, 0, 0, 0, 0, 0, 0, 0, 0, 0, 1, 0, 0]
def w16CmdBlk : List Nat := [0x8a, 0, 0, 0, 0, 0, 0, 0, 0, 0, 0, 0, 0, 1, 0, 0]

/-- Lines 338-347 and 356-365: the stores of the LBA into a 16 byte command
block `blk`; `lba` is a `uint64_t`. -/
def put_lba16 (blk : List Nat) (lba : Nat) : List Nat :=
  let b1 :=
    if lba > 0xffffffff then
      (((blk.set 2 ((lba >>> 56) &&& 0xff)).set 3 ((lba >>> 48) &&& 0xff)).set 4
        ((lba >>> 40) &&& 0xff)).set 5 ((lba >>> 32) &&& 0xff)
    else blk
  (((b1.set 6 ((lba >>> 24) &&& 0xff)).set 7 ((lba >>> 16) &&& 0xff)).set 8
    ((lba >>> 8) &&& 0xff)).set 9 (lba &&& 0xff)

/-- The bytes `pt.cmdp` points to (`pt.cmd_len` of them) when `start_sg3_cmd`
calls `write`. -/
def start_sg3_cmd_cdb (cmd2exe : command2execute) (lba : Nat) : List Nat :=
  match cmd2exe with
  | SCSI_TUR => turCmdBlk
  | SCSI_READ16 => put_lba16 r16CmdBlk lba
  | SCSI_WRITE16 => put_lba16 w16CmdBlk lba

/-- The value a sequence of bytes denotes when read big-endian. -/
def decode_be (bytes : List Nat) : Nat :=
  bytes.foldl (fun acc b => acc * 256 + b) 0

/-- The 8-byte big-endian encoding of a number below 2^64, most significant
byte first. -/
def encode_be8 (v : Nat) : List Nat :=
  [v / 2 ^ 56 % 256, v / 2 ^ 48 % 256, v / 2 ^ 40 % 256, v / 2 ^ 32 % 256,
   v / 2 ^ 24 % 256, v / 2 ^ 16 % 256, v / 2 ^ 8 % 256, v % 256]

/-! ## The shared id counter (lines 132 and 560) -/

/-- The operation `fetch_add(v)` on an `atomic<int>` holding `c`: the value
returned and the value left in the counter. -/
def fetch_add (c v : Int) : Int × Int := (c, wrap32 (c + v))

/-- The ids handed out when the workers named in `who` call
`uniq_pack_id.fetch_add(1)` one after the other (the calls are atomic, so
every interleaving of the workers is such a sequence); `c` is the counter at
the start.  Each entry is a worker and the id it obtains. -/
def issue_ids : List Nat → Int → List (Nat × Int)
  | [], _ => []
  | w :: rest, c => (w, (fetch_add c 1).1) :: issue_ids rest (fetch_add c 1).2

/-! ## The buffer pool seen as acquire and release -/

/-- Lines 677-678: `if (lbp) free_lst.push_front(lbp);`. -/
def release_buffer (s : WState) (lbp : Nat) : WState :=
  { s with free_lst := if lbp ≠ 0 then lbp :: s.free_lst else s.free_lst }

/-- Releases the buffers of `bufs` one after the other, the head first. -/
def release_all : WState → List Nat → WState
  | s, [] => s
  | s, b :: rest => release_all (release_buffer s b) rest

/-- Acquires one buffer per record of `inps`, in order; yields the final state
and the buffers obtained, or `none` if the allocator fails. -/
def acquire_n (op : opts_t) : List IterIn → WState → Option (WState × List Nat)
  | [], s => some (s, [])
  | inp :: rest, s =>
    match acquire_buffer op inp s with
    | none => none
    | some (s1, lbp) =>
      match acquire_n op rest s1 with
      | none => none
      | some (s2, bufs) => some (s2, lbp :: bufs)

/-- The number of blocks obtained from the allocator that are not in the free
list: they have been acquired and not yet released. -/
def in_use (s : WState) : Nat := s.allocated.length - s.free_lst.length

/-- The largest number of blocks in use at the points of a run observed here:
at the head of each iteration and right after its submission step. -/
def peak_in_use (op : opts_t) : List IterIn → WState → Nat
  | [], s => in_use s
  | inp :: rest, s =>
    if exited op s then in_use s
    else
      max (in_use s) (max (in_use (submit_phase op inp s))
        (match iteration op inp s with
         | none => 0
         | some s1 => peak_in_use op rest s1))

/-- Three READ(16) commands with a queue of two; with `-Q 0` every response
waiting is read once the queue is full. -/
def opts_fifo : opts_t :=
  { opts_default with c2e := SCSI_READ16, maxq_per_thread := 2, num_per_thread := 3,
                      mqd := MQD_LOW }

/-- A run for `opts_fifo`: the first two iterations submit the ids 1 and 2 with
the fresh blocks 4096 and 8192, and the second one then reads both responses,
id 1 before id 2; the third iteration submits id 3. -/
def fifo_run : List IterIn :=
  [ { quiet with heap := 4096 }, { waiting 2 (fun j => 1 + j) with heap := 8192 },
    { quiet with heap := 12288 } ]

/-! ## The ids a worker obtains and the ids whose responses it reads -/

/-- The keys of the correlation table `pi_2_buff`. -/
def table_ids (s : WState) : List Int := s.pi_2_buff.map Prod.fst

/-- The id that the iteration started in `s` obtains from the shared counter
(line 560), if the guard of line 558 lets it submit. -/
def iteration_issued (op : opts_t) (inp : IterIn) (s : WState) : List Int :=
  if (s.num_outstanding < op.maxq_per_thread) ∧ (s.k < op.num_per_thread) then
    [(with_new_id inp s).pack_id]
  else []

/-- The ids of the responses that the loop of lines 650-692 accepts
(`finish_sg3_cmd` returned 0), in the order in which they are read; the
arguments are those of `drain_loop`. -/
def drain_ids (op : opts_t) (inp : IterIn) : Nat → Nat → WState → List Int
  | 0, _, _ => []
  | n + 1, j, s =>
    match finish_sg3_cmd (inp.reads j) s.pack_id s.thr_eagain_count with
    | none => []
    | some (ret, pid, eag) =>
      if ret ≠ 0 then []
      else
        let s2 := resolve_completion op
          { s with num_to_read := s.num_to_read - 1, pack_id := pid, thr_eagain_count := eag }
        pid :: (if s2.err.isSome then [] else drain_ids op inp n (j + 1) s2)

/-- The ids of the responses accepted in the iteration started in `s`. -/
def iteration_completed (op : opts_t) (inp : IterIn) (s : WState) : List Int :=
  let s1 := submit_phase op inp s
  if s1.err.isSome then []
  else
    match decide_phase op inp s1 with
    | none => []
    | some s2 =>
      if s2.err.isSome then []
      else drain_ids op inp s2.num_to_read.toNat 0 s2

/-- The ids the worker obtains from the shared counter in the run of
`work_loop` on `ins` from `s`, oldest first. -/
def issued_ids (op : opts_t) : List IterIn → WState → List Int
  | [], _ => []
  | inp :: rest, s =>
    if exited op s then []
    else
      iteration_issued op inp s ++
        (match iteration op inp s with
         | none => []
         | some s1 => issued_ids op rest s1)

/-- The ids of the responses the worker accepts in the run of `work_loop` on
`ins` from `s`, oldest first. -/
def completed_ids (op : opts_t) : List IterIn → WState → List Int
  | [], _ => []
  | inp :: rest, s =>
    if exited op s then []
    else
      iteration_completed op inp s ++
        (match iteration op inp s with
         | none => []
         | some s1 => completed_ids op rest s1)

/-- Bookkeeping of the correlation table as long as no error is recorded,
relative to the ids obtained (`sub`) and the ids completed (`done`) so far. -/
def table_inv (sub done : List Int) (s : WState) : Prop :=
  s.err = none →
    (table_ids s).Nodup ∧
    (∀ id, id ∈ table_ids s ↔ (id ∈ sub ∧ id ∉ done)) ∧
    (∀ id ∈ done, id ∈ sub) ∧
    (s.pi_2_buff.length : Int) = s.num_outstanding ∧
    s.num_outstanding = s.thr_async_starts - s.thr_async_finishes

/-! ## main: starting and joining the workers (lines 1083-1146) -/

/-- What one worker thread meets: the value `open` returns at line 521 and
the responses of its iterations. -/
structure ThreadEnv where
  sg_fd : Int
  ins : List IterIn

/-- The number of `uniq_pack_id.fetch_add(1)` calls (line 560) the worker
makes; it returns before the loop when `open` fails. -/
def ids_taken (op : opts_t) (env : ThreadEnv) : Nat :=
  if env.sg_fd < 0 then 0
  else (issued_ids op env.ins (WState.init Shared.init.uniq_pack_id)).length

/-- The shared counters once the worker of `env` has run and has been joined,
`sh` being their values without this worker, and whether the worker printed an
error (the `open` error of line 523 or one of the "FAILed" lines).  The worker
adds its tallies at lines 721-723 and has advanced `uniq_pack_id` by one for
each id it took; `none` while the worker has not returned. -/
def join_worker (op : opts_t) (sh : Shared) (env : ThreadEnv) : Option (Shared × Bool) :=
  if env.sg_fd < 0 then some (sh, true)
  else
    match work_thread op Shared.init env.ins with
    | none => none
    | some r =>
      some ({ async_starts := wrap32 (sh.async_starts + r.final.thr_async_starts)
              async_finishes := wrap32 (sh.async_finishes + r.final.thr_async_finishes)
              ebusy_count := sh.ebusy_count
              eagain_count := wrap32 (sh.eagain_count + r.final.thr_eagain_count)
              uniq_pack_id := wrap32 (sh.uniq_pack_id + ids_taken op env) }, r.failed)

/-- Lines 1091-1098: the threads are started and joined; the result is the
shared counters after the last join and, per worker, whether it printed an
error. -/
def join_all (op : opts_t) : List ThreadEnv → Shared → Option (Shared × List Bool)
  | [], sh => some (sh, [])
  | env :: rest, sh =>
    match join_worker op sh env with
    | none => none
    | some (sh1, f) =>
      match join_all op rest sh1 with
      | none => none
      | some (sh2, fs) => some (sh2, f :: fs)

/-- What `main` does after the workers are joined. -/
structure MainReport where
  /-- The value `main` returns. -/
  exit_status : Int
  /-- The number printed in "Time to complete %d commands was ..." and divided
  by the elapsed time for the IOPS figure, when that line is printed. -/
  time_line : Option Int
  /-- The value of `n`, printed with `-v` as "Last pack_id". -/
  n : Int
  /-- The counters printed with `-v`. -/
  sh : Shared
  /-- Per worker, whether it printed an error. -/
  failed : List Bool
  deriving DecidableEq, Repr

/-- Lines 1083-1146 when no exception is thrown, with one worker per element
of `envs`.  `clock_ok` tells whether the second `clock_gettime` returns 0 and
`elapsed_us` is the elapsed time in microseconds (`a > 0.000001` holds when
it exceeds 1); `none` while some worker has not returned. -/
def main_run (op : opts_t) (envs : List ThreadEnv) (clock_ok : Bool) (elapsed_us : Int) :
    Option MainReport :=
  match join_all op envs Shared.init with
  | none => none
  | some (sh, failed) =>
    some { exit_status := 0
           time_line :=
             if wrap32 (sh.uniq_pack_id - 1) > 0 ∧ clock_ok = true ∧ elapsed_us > 1 then
               some (wrap32 (sh.uniq_pack_id - 1))
             else none
           n := wrap32 (sh.uniq_pack_id - 1)
           sh := sh
           failed := failed }

/-- Two workers that fail: the first cannot open its device, the second runs
`leak_run`. -/
def failing_workers : List ThreadEnv :=
  [ { sg_fd := -1, ins := [] }, { sg_fd := 3, ins := leak_run } ]

/-- A single worker that runs `read_run`. -/
def one_good_worker : List ThreadEnv := [ { sg_fd := 3, ins := read_run } ]

/-- What `main` reports for `failing_workers`. -/
def failing_report : MainReport :=
  { exit_status := 0, time_line := some 2, n := 2,
    sh := { async_starts := 2, async_finishes := 0, ebusy_count := 0, eagain_count := 0,
            uniq_pack_id := 3 },
    failed := [true, true] }

/-- What `main` reports for `one_good_worker`. -/
def good_report : MainReport :=
  { exit_status := 0, time_line := some 2, n := 2,
    sh := { async_starts := 2, async_finishes := 2, ebusy_count := 0, eagain_count := 0,
            uniq_pack_id := 3 },
    failed := [false] }

/-! ## main: the checks made before the workers are started (lines 1018-1081) -/

def UINT_MAX : Nat := 4294967295

/-- The category `SG_LIB_CAT_UNIT_ATTENTION` as a value of `sg_err_category`
(in `sg_lib.h` it is the number 6); what matters below is only that it is
neither `SG_LIB_CAT_CLEAN` nor `SG_LIB_CAT_RECOVERED`. -/
def SG_LIB_CAT_UNIT_ATTENTION : sg_err_category := sg_err_category.other 6

/-- The ten bytes of the string literal "scsi_debug" (the ASCII codes of
s, c, s, i, _, d, e, b, u, g). -/
def scsi_debug_str : List Nat := [115, 99, 115, 105, 95, 100, 101, 98, 117, 103]

/-- The call `memcmp(a, b, n)`: 0 when the first `n` bytes agree, otherwise the
sign of the first difference.  A buffer holding fewer than `n` bytes counts
as different (the source never compares beyond a buffer). -/
def memcmp : List Nat → List Nat → Nat → Int
  | _, _, 0 => 0
  | x :: xs, y :: ys, n + 1 =>
    if x = y then memcmp xs ys n else if x < y then -1 else 1
  | _, _, _ + 1 => 1

/-- What the system answers when `do_inquiry_prod_id` or `do_read_capacity`
sends its command to a device. -/
structure ProbeRes where
  /-- Value returned by `open`. -/
  open_ret : Int
  /-- Value returned by `ioctl(sg_fd, SG_IO, ...)`. -/
  ioctl_ret : Int
  /-- Result of `sg_err_category3`. -/
  cat : sg_err_category
  /-- Bytes of the data-in buffer (`inqBuff`, `rcBuff`) after the call. -/
  buff : Nat → Nat

/-- The PRODUCT IDENTIFICATION field of an INQUIRY response: the 16 bytes at
`inqBuff + 16`. -/
def product_id (p : ProbeRes) : List Nat := (List.range 16).map (fun (i : Nat) => p.buff (16 + i))

/-- The function `do_inquiry_prod_id` (lines 732-804) called with
`b_mlen = sizeof(b) = 128`: the value returned and the content of `b`
afterwards (16 bytes of product id and a NUL are stored on success). -/
def do_inquiry_prod_id (p : ProbeRes) (b : List Nat) : Int × List Nat :=
  if p.open_ret < 0 then (-1, b)
  else if p.ioctl_ret < 0 then (-1, b)
  else
    match p.cat with
    | sg_err_category.SG_LIB_CAT_CLEAN => (0, product_id p ++ 0 :: b.drop 17)
    | sg_err_category.SG_LIB_CAT_RECOVERED => (0, product_id p ++ 0 :: b.drop 17)
    | sg_err_category.other _ => (-1, b)

/-- The value `(buff[i] << 24) | (buff[i+1] << 16) | (buff[i+2] << 8) | buff[i+3]`
stored in an `unsigned int`. -/
def get_be32 (buff : Nat → Nat) (i : Nat) : Nat :=
  ((buff i <<< 24) ||| (buff (i + 1) <<< 16) ||| (buff (i + 2) <<< 8) ||| buff (i + 3))
    % 4294967296

/-- The function `do_read_capacity` (lines 808-863): the value returned (0
success, -1 failure, 2 try again) and, on success, `*last_lba` and `*blk_sz`. -/
def do_read_capacity (p : ProbeRes) : Int × Option (Nat × Nat) :=
  if p.open_ret < 0 then (-1, none)
  else if p.ioctl_ret < 0 then (-1, none)
  else if SG_LIB_CAT_UNIT_ATTENTION = p.cat then (2, none)
  else if sg_err_category.SG_LIB_CAT_CLEAN ≠ p.cat then (-1, none)
  else (0, some (get_be32 p.buff 0, get_be32 p.buff 4))

/-- What one device named on the command line answers to the probes of
`main`. -/
structure DevEnv where
  /-- Value returned by `stat`. -/
  stat_ret : Int
  /-- The test `S_ISCHR(a_stat.st_mode)`. -/
  is_chr : Bool
  /-- Answer to the INQUIRY. -/
  inq : ProbeRes
  /-- Answer to the first READ CAPACITY(10). -/
  rcap : ProbeRes
  /-- Answer to the second READ CAPACITY(10), sent when the first call
  returns 2. -/
  rcap_again : ProbeRes

/-- The variables of `main` that the device loop changes. -/
structure CheckState where
  b : List Nat
  hi_lbas : List Nat
  deriving DecidableEq, Repr

/-- Lines 1046-1060: the safety check of one device; `Except.error r` stands
for `return r`. -/
def check_product_id (force : Int) (d : DevEnv) (st : CheckState) : Except Int CheckState :=
  if force = 0 then
    if (do_inquiry_prod_id d.inq st.b).1 ≠ 0 then Except.error 1
    else if 0 ≠ memcmp scsi_debug_str (do_inquiry_prod_id d.inq st.b).2 10 then Except.error 2
    else Except.ok { st with b := (do_inquiry_prod_id d.inq st.b).2 }
  else Except.ok st

/-- Lines 1061-1080: the capacity of one device is asked for when `hi_lba`
is -1. -/
def check_capacity (op : opts_t) (d : DevEnv) (st : CheckState) : Except Int CheckState :=
  if UINT_MAX = op.hi_lba then
    match (if 2 = (do_read_capacity d.rcap).1 then do_read_capacity d.rcap_again
           else do_read_capacity d.rcap) with
    | (0, some (last_lba, _)) => Except.ok { st with hi_lbas := st.hi_lbas ++ [last_lba] }
    | _ => Except.error 1
  else Except.ok st

/-- The body of the device loop (lines 1031-1080). -/
def check_device (op : opts_t) (force : Int) (d : DevEnv) (st : CheckState) :
    Except Int CheckState :=
  if d.stat_ret < 0 then Except.error 1
  else if !d.is_chr then Except.error 1
  else
    match check_product_id force d st with
    | Except.error r => Except.error r
    | Except.ok st1 => check_capacity op d st1

/-- The device loop (lines 1030-1081). -/
def check_devices (op : opts_t) (force : Int) : List DevEnv → CheckState → Except Int CheckState
  | [], st => Except.ok st
  | d :: rest, st =>
    match check_device op force d st with
    | Except.error r => Except.error r
    | Except.ok st1 => check_devices op force rest st1

/-- Lines 1018-1081: `Except.error r` when `main` returns `r` before any
worker is started, otherwise the state with which the workers are started.
`b0` is the content of the uninitialised array `b`. -/
def main_checks (op : opts_t) (force : Int) (devs : List DevEnv) (b0 : List Nat) :
    Except Int CheckState :=
  if 0 = devs.length then Except.error 1
  else if op.hi_lba ≠ 0 ∧ op.lba > op.hi_lba then Except.error 1
  else check_devices op force devs { b := b0, hi_lbas := [] }

/-- Lines 529-538: the arguments `lo` and `hi` with which worker `id`
constructs its `Rand_uint`, if it constructs one; `n` is the number of
device names. -/
def ruip_bounds (op : opts_t) (hi_lbas : List Nat) (id n : Nat) : Option (Nat × Nat) :=
  if has_ruip op then
    if UINT_MAX = op.hi_lba then
      hi_lbas[id % n]?.map (fun hi => (op.lba % 4294967296, hi))
    else some (op.lba % 4294967296, op.hi_lba)
  else none

/-- A buffer holding the given bytes, followed by zeros. -/
def bytes (l : List Nat) : Nat → Nat := fun i => l.getD i 0

/-- An INQUIRY response whose product id is "scsi_debug" padded with
blanks. -/
def inq_scsi_debug : ProbeRes :=
  { open_ret := 3, ioctl_ret := 0, cat := sg_err_category.SG_LIB_CAT_CLEAN,
    buff := bytes (List.replicate 16 0 ++ scsi_debug_str ++ List.replicate 6 32) }

/-- An INQUIRY response whose product id is "ST1000" padded with blanks. -/
def inq_other_disk : ProbeRes :=
  { open_ret := 3, ioctl_ret := 0, cat := sg_err_category.SG_LIB_CAT_CLEAN,
    buff := bytes (List.replicate 16 0 ++ [83, 84, 49, 48, 48, 48] ++ List.replicate 10 32) }

/-- A READ CAPACITY(10) response: last LBA 16383 (0x3fff), 512 byte blocks. -/
def rcap_8mib : ProbeRes :=
  { open_ret := 3, ioctl_ret := 0, cat := sg_err_category.SG_LIB_CAT_CLEAN,
    buff := bytes [0, 0, 0x3f, 0xff, 0, 0, 2, 0] }

/-- A scsi_debug disk of 8 MiB. -/
def dev_scsi_debug : DevEnv :=
  { stat_ret := 0, is_chr := true, inq := inq_scsi_debug, rcap := rcap_8mib,
    rcap_again := rcap_8mib }

/-- A disk of another make. -/
def dev_other_disk : DevEnv := { dev_scsi_debug with inq := inq_other_disk }

/-- The content of `b` after a successful INQUIRY of `dev_scsi_debug`. -/
def b_scsi_debug : List Nat := scsi_debug_str ++ List.replicate 6 32 ++ [0]

/-- The options of `sg_tst_async -R -l 20000,-1`. -/
def opts_range : opts_t :=
  { opts_default with c2e := SCSI_READ16, lba := 20000, hi_lba := UINT_MAX }

/-- The devices to which the device loop sends an INQUIRY (the calls of
`do_inquiry_prod_id` at line 1047), in the order of the calls; the arguments
are those of `check_devices`. -/
def inquired (op : opts_t) (force : Int) : List DevEnv → CheckState → List DevEnv
  | [], _ => []
  | d :: rest, st =>
    if d.stat_ret < 0 then []
    else if !d.is_chr then []
    else
      (if force = 0 then [d] else []) ++
        (match check_device op force d st with
         | Except.error _ => []
         | Except.ok st1 => inquired op force rest st1)

/-- The devices to which `main` sends an INQUIRY before it returns or starts
the workers; the arguments are those of `main_checks`. -/
def main_inquired (op : opts_t) (force : Int) (devs : List DevEnv) (b0 : List Nat) :
    List DevEnv :=
  if 0 = devs.length then []
  else if op.hi_lba ≠ 0 ∧ op.lba > op.hi_lba then []
  else inquired op force devs { b := b0, hi_lbas := [] }

/-! ## Theorems -/

/-! ### What each phase does to the state -/

theorem submit_cmd_cases (op : opts_t) (inp : IterIn) (s : WState) (lbp lba : Nat) :
    submit_cmd op inp s lbp lba = { s with err := some WorkErr.start_sg3_cmd } ∨
    submit_cmd op inp s lbp lba =
      { s with thr_async_starts := s.thr_async_starts + 1,
               num_outstanding := s.num_outstanding + 1,
               pi_2_buff := map_assign s.pi_2_buff s.pack_id lbp,
               pi_2_lba := if has_ruip op then map_assign s.pi_2_lba s.pack_id lba
                           else s.pi_2_lba } := by
  unfold submit_cmd
  split
  · exact Or.inl rfl
  · exact Or.inr rfl

theorem acquire_buffer_cases (op : opts_t) (inp : IterIn) (s s2 : WState) (lbp : Nat)
    (h : acquire_buffer op inp s = some (s2, lbp)) :
    (is_rw op = false ∧ s2 = s ∧ lbp = 0) ∨
    (is_rw op = true ∧ s.free_lst = [] ∧ inp.heap ≠ 0 ∧ lbp = inp.heap ∧
      s2 = { s with allocated := inp.heap :: s.allocated }) ∨
    (is_rw op = true ∧ s.free_lst = s.free_lst.dropLast ++ [lbp] ∧
      s2 = { s with free_lst := s.free_lst.dropLast }) := by
  unfold acquire_buffer at h
  split at h
  · rename_i hrw
    split at h
    · rename_i hnone
      split at h
      · exact absurd h (by simp)
      · rename_i hheap
        simp only [Option.some.injEq, Prod.mk.injEq] at h
        refine Or.inr (Or.inl ⟨hrw, ?_, hheap, h.2.symm, h.1.symm⟩)
        exact List.getLast?_eq_none_iff.mp hnone
    · rename_i b hsome
      simp only [Option.some.injEq, Prod.mk.injEq] at h
      refine Or.inr (Or.inr ⟨hrw, ?_, h.1.symm⟩)
      rw [← h.2]
      exact (List.dropLast_append_getLast? b hsome).symm
  · rename_i hrw
    simp only [Option.some.injEq, Prod.mk.injEq] at h
    exact Or.inl ⟨by simpa using hrw, h.1.symm, h.2.symm⟩

theorem with_new_id_reset (inp : IterIn) (s : WState) :
    with_new_id inp { s with do_inc := 0 } = with_new_id inp s := rfl

theorem submit_phase_cases (op : opts_t) (inp : IterIn) (s : WState) :
    (¬ (s.num_outstanding < op.maxq_per_thread ∧ s.k < op.num_per_thread) ∧
      submit_phase op inp s = { s with do_inc := 0 }) ∨
    ((s.num_outstanding < op.maxq_per_thread ∧ s.k < op.num_per_thread) ∧
      ((acquire_buffer op inp (with_new_id inp s) = none ∧
        submit_phase op inp s =
          { with_new_id inp s with err := some WorkErr.out_of_memory }) ∨
       (∃ s2 lbp, acquire_buffer op inp (with_new_id inp s) = some (s2, lbp) ∧
          submit_phase op inp s = submit_cmd op inp s2 lbp (choose_lba op inp)))) := by
  by_cases hc : s.num_outstanding < op.maxq_per_thread ∧ s.k < op.num_per_thread
  · right
    refine ⟨hc, ?_⟩
    cases ha : acquire_buffer op inp (with_new_id inp s) with
    | none =>
      left
      refine ⟨rfl, ?_⟩
      simp only [submit_phase, hc, and_self, if_true, with_new_id_reset, ha]
    | some r =>
      right
      obtain ⟨s2, lbp⟩ := r
      refine ⟨s2, lbp, rfl, ?_⟩
      simp only [submit_phase, hc, and_self, if_true, with_new_id_reset, ha]
  · left
    refine ⟨hc, ?_⟩
    simp only [submit_phase, hc, if_false]

theorem decide_phase_keeps (op : opts_t) (inp : IterIn) (s s1 : WState)
    (h : decide_phase op inp s = some s1) :
    ∃ n e, s1 = { s with num_to_read := n, err := e } := by
  unfold decide_phase at h
  simp only at h
  split at h
  · split at h
    · simp only [Option.some.injEq] at h; exact ⟨_, _, h.symm⟩
    · split at h
      · simp only [Option.some.injEq] at h; exact ⟨_, _, h.symm⟩
      · split at h
        · split at h
          · simp only [Option.some.injEq] at h; exact ⟨_, _, h.symm⟩
          · split at h <;> (simp only [Option.some.injEq] at h; exact ⟨_, _, h.symm⟩)
        · split at h
          · exact absurd h (by simp)
          · simp only [Option.some.injEq] at h; exact ⟨_, _, h.symm⟩
  · split at h
    · simp only [Option.some.injEq] at h; exact ⟨_, _, h.symm⟩
    · split at h
      · simp only [Option.some.injEq] at h; exact ⟨_, _, h.symm⟩
      · split at h <;> (simp only [Option.some.injEq] at h; exact ⟨_, _, h.symm⟩)

theorem resolve_completion_cases (op : opts_t) (s : WState) :
    ∃ lbas,
      (map_find s.pi_2_buff s.pack_id = none ∧
        resolve_completion op s =
          { s with thr_async_finishes := s.thr_async_finishes + 1,
                   num_outstanding := s.num_outstanding - 1,
                   err := if s.err.isNone then some (WorkErr.pack_id_not_found s.pack_id)
                          else s.err,
                   pi_2_lba := lbas }) ∨
      (∃ lbp, map_find s.pi_2_buff s.pack_id = some lbp ∧
        resolve_completion op s =
          { s with thr_async_finishes := s.thr_async_finishes + 1,
                   num_outstanding := s.num_outstanding - 1,
                   pi_2_buff := map_erase s.pi_2_buff s.pack_id,
                   free_lst := if lbp ≠ 0 then lbp :: s.free_lst else s.free_lst,
                   pi_2_lba := lbas }) := by
  have hcase : map_find s.pi_2_buff s.pack_id = none ∨
      ∃ lbp, map_find s.pi_2_buff s.pack_id = some lbp := by
    cases map_find s.pi_2_buff s.pack_id with
    | none => exact Or.inl rfl
    | some v => exact Or.inr ⟨v, rfl⟩
  by_cases hr : has_ruip op = true ∧ s.pack_id > 0
  · refine ⟨map_erase s.pi_2_lba s.pack_id, ?_⟩
    rcases hcase with hf | ⟨lbp, hf⟩
    · left
      refine ⟨hf, ?_⟩
      cases he : s.err <;> simp [resolve_completion, hf, he, hr]
    · right
      exact ⟨lbp, hf, by simp [resolve_completion, hf, hr]⟩
  · refine ⟨s.pi_2_lba, ?_⟩
    rcases hcase with hf | ⟨lbp, hf⟩
    · left
      refine ⟨hf, ?_⟩
      cases he : s.err <;> simp [resolve_completion, hf, he, hr]
    · right
      exact ⟨lbp, hf, by simp [resolve_completion, hf, hr]⟩

/-! ### How an invariant travels through the loop -/

theorem drain_loop_inv (op : opts_t) (inp : IterIn) (P : WState → Prop)
    (hdec : ∀ s v, P s → P { s with num_to_read := v })
    (hfail : ∀ s pid eag e, P s →
      P { s with pack_id := pid, thr_eagain_count := eag, err := some e })
    (hres : ∀ s pid eag, P s →
      P (resolve_completion op { s with pack_id := pid, thr_eagain_count := eag })) :
    ∀ n j s s1, P s → drain_loop op inp n j s = some s1 → P s1 := by
  intro n
  induction n with
  | zero =>
    intro j s s1 hP h
    simp only [drain_loop, Option.some.injEq] at h
    exact h ▸ hdec s _ hP
  | succ n ih =>
    intro j s s1 hP h
    simp only [drain_loop] at h
    have hP1 := hdec s (s.num_to_read - 1) hP
    split at h
    · exact absurd h (by simp)
    · rename_i ret pid eag hfin
      split at h
      · simp only [Option.some.injEq] at h
        exact h ▸ hfail _ pid eag _ hP1
      · split at h
        · simp only [Option.some.injEq] at h
          exact h ▸ hres _ pid eag hP1
        · exact ih _ _ _ (hres _ pid eag hP1) h

theorem iteration_inv (op : opts_t) (inp : IterIn) (Ppre Pm Ppost : WState → Prop)
    (h1 : ∀ s, Ppre s → Pm (submit_phase op inp s))
    (h2 : ∀ s s1, Pm s → decide_phase op inp s = some s1 → Pm s1)
    (h3 : ∀ n j s s1, Pm s → drain_loop op inp n j s = some s1 → Pm s1)
    (h4 : ∀ s, Pm s → s.err.isSome = true → Ppost s)
    (h5 : ∀ s, Pm s → s.err = none →
      Ppost { s with k := if s.do_inc ≠ 0 then s.k + 1 else s.k }) :
    ∀ s s1, Ppre s → iteration op inp s = some s1 → Ppost s1 := by
  intro s s1 hP h
  simp only [iteration] at h
  have hm1 := h1 s hP
  split at h
  · rename_i he
    simp only [Option.some.injEq] at h
    exact h ▸ h4 _ hm1 he
  · split at h
    · exact absurd h (by simp)
    · rename_i s2 hd
      have hm2 := h2 _ _ hm1 hd
      split at h
      · rename_i he
        simp only [Option.some.injEq] at h
        exact h ▸ h4 _ hm2 he
      · split at h
        · exact absurd h (by simp)
        · rename_i s3 hdr
          have hm3 := h3 _ _ _ _ hm2 hdr
          split at h
          · rename_i he
            simp only [Option.some.injEq] at h
            exact h ▸ h4 _ hm3 he
          · rename_i he
            simp only [Option.some.injEq] at h
            have hnone : s3.err = none := by
              cases hs : s3.err with
              | none => rfl
              | some e => simp [hs] at he
            exact h ▸ h5 _ hm3 hnone

theorem work_loop_inv (op : opts_t) (Ph : WState → Prop)
    (hit : ∀ inp s s1, Ph s → s.err = none → iteration op inp s = some s1 → Ph s1) :
    ∀ ins s s1, Ph s → work_loop op ins s = some s1 → Ph s1 := by
  intro ins
  induction ins with
  | nil =>
    intro s s1 hP h
    simp only [work_loop, Option.some.injEq] at h
    exact h ▸ hP
  | cons inp rest ih =>
    intro s s1 hP h
    simp only [work_loop] at h
    split at h
    · simp only [Option.some.injEq] at h
      exact h ▸ hP
    · rename_i hex
      split at h
      · exact absurd h (by simp)
      · rename_i s2 hi
        have hnone : s.err = none := by
          cases hs : s.err with
          | none => rfl
          | some e => simp [exited, hs] at hex
        exact ih _ _ (hit inp s s2 hP hnone hi) h

theorem acquire_buffer_fields (op : opts_t) (inp : IterIn) (s s2 : WState) (lbp : Nat)
    (h : acquire_buffer op inp s = some (s2, lbp)) :
    s2.k = s.k ∧ s2.num_outstanding = s.num_outstanding ∧ s2.do_inc = s.do_inc ∧
    s2.pack_id = s.pack_id ∧ s2.thr_async_starts = s.thr_async_starts ∧
    s2.thr_async_finishes = s.thr_async_finishes ∧ s2.pi_2_buff = s.pi_2_buff ∧
    s2.err = s.err := by
  rcases acquire_buffer_cases op inp s s2 lbp h with ⟨_, h2, _⟩ | ⟨_, _, _, _, h2⟩ | ⟨_, _, h2⟩ <;>
    subst h2 <;> simp

/-! ### Invariant: the queue bound -/

theorem submit_phase_outstanding_le (op : opts_t) (inp : IterIn) (s : WState)
    (h : s.num_outstanding ≤ op.maxq_per_thread) :
    (submit_phase op inp s).num_outstanding ≤ op.maxq_per_thread := by
  rcases submit_phase_cases op inp s with ⟨_, he⟩ | ⟨hc, ⟨_, he⟩ | ⟨s2, lbp, ha, he⟩⟩
  · rw [he]; exact h
  · rw [he]; exact h
  · have hf := (acquire_buffer_fields op inp _ s2 lbp ha).2.1
    simp only [with_new_id] at hf
    rw [he]
    rcases submit_cmd_cases op inp s2 lbp (choose_lba op inp) with h2 | h2 <;> rw [h2] <;>
      simp only <;> omega

theorem drain_loop_outstanding_le (op : opts_t) (inp : IterIn) (q : Int) (n j : Nat)
    (s s1 : WState) (h : s.num_outstanding ≤ q) (hd : drain_loop op inp n j s = some s1) :
    s1.num_outstanding ≤ q := by
  refine drain_loop_inv op inp (fun s => s.num_outstanding ≤ q) (fun _ _ h => h) ?_ ?_
    n j s s1 h hd
  · intro s pid eag e hs
    exact hs
  · intro s pid eag hs
    rcases resolve_completion_cases op { s with pack_id := pid, thr_eagain_count := eag }
      with ⟨lbas, ⟨_, he⟩ | ⟨lbp, _, he⟩⟩ <;> rw [he] <;> simp only <;> omega

theorem iteration_outstanding_le (op : opts_t) (inp : IterIn) (s s1 : WState)
    (h : s.num_outstanding ≤ op.maxq_per_thread) (hi : iteration op inp s = some s1) :
    s1.num_outstanding ≤ op.maxq_per_thread := by
  refine iteration_inv op inp (fun s => s.num_outstanding ≤ op.maxq_per_thread)
    (fun s => s.num_outstanding ≤ op.maxq_per_thread)
    (fun s => s.num_outstanding ≤ op.maxq_per_thread) ?_ ?_ ?_ ?_ ?_ s s1 h hi
  · exact fun s hs => submit_phase_outstanding_le op inp s hs
  · intro s s1 hs hd
    obtain ⟨n, e, rfl⟩ := decide_phase_keeps op inp s s1 hd
    exact hs
  · exact fun n j s s1 hs hd => drain_loop_outstanding_le op inp _ n j s s1 hs hd
  · exact fun s hs _ => hs
  · exact fun s hs _ => hs

/-! ### Facts about the association list -/

theorem map_erase_length_le {α : Type} (m : List (Int × α)) (key : Int) :
    (map_erase m key).length ≤ m.length := by
  induction m with
  | nil => simp [map_erase]
  | cons a rest ih =>
    obtain ⟨k, v⟩ := a
    simp only [map_erase]
    split
    · simp only [List.length_cons]; omega
    · simp only [List.length_cons]; omega

theorem map_assign_length_le {α : Type} (m : List (Int × α)) (key : Int) (v : α) :
    (map_assign m key v).length ≤ m.length + 1 := by
  simp only [map_assign, List.length_cons]
  have := map_erase_length_le m key
  omega

theorem map_erase_length_lt {α : Type} (m : List (Int × α)) (key : Int) (v : α)
    (h : map_find m key = some v) : (map_erase m key).length < m.length := by
  induction m with
  | nil => simp [map_find] at h
  | cons a rest ih =>
    obtain ⟨k, w⟩ := a
    simp only [map_find] at h
    simp only [map_erase]
    split
    · have := map_erase_length_le rest key
      simp only [List.length_cons]; omega
    · rename_i hk
      simp only [hk, if_false] at h
      have := ih h
      simp only [List.length_cons]; omega

theorem poll_wait_err (polls : List Int) (err : Option WorkErr) (e : Option WorkErr)
    (h : poll_wait polls err = some e) : e = err := by
  induction polls with
  | nil => simp [poll_wait] at h
  | cons res rest ih =>
    simp only [poll_wait] at h
    split at h
    · rename_i h0
      split at h
      · omega
      · exact ih h
    · simp only [Option.some.injEq] at h
      exact h.symm

theorem decide_phase_err (op : opts_t) (inp : IterIn) (s s1 : WState)
    (h : decide_phase op inp s = some s1) :
    s1.err = s.err ∨ s1.err = some WorkErr.ioctl_num_waiting := by
  unfold decide_phase at h
  simp only at h
  split at h
  · split at h
    · simp only [Option.some.injEq] at h; subst h; exact Or.inr rfl
    · split at h
      · simp only [Option.some.injEq] at h; subst h; exact Or.inl rfl
      · split at h
        · split at h
          · simp only [Option.some.injEq] at h; subst h; exact Or.inl rfl
          · split at h <;> (simp only [Option.some.injEq] at h; subst h; exact Or.inl rfl)
        · split at h
          · exact absurd h (by simp)
          · rename_i e hp
            simp only [Option.some.injEq] at h; subst h
            exact Or.inl (poll_wait_err _ _ _ hp)
  · split at h
    · simp only [Option.some.injEq] at h; subst h; exact Or.inl rfl
    · split at h
      · simp only [Option.some.injEq] at h; subst h; exact Or.inr rfl
      · split at h <;> (simp only [Option.some.injEq] at h; subst h; exact Or.inl rfl)

/-! ### Invariant: the counters of a run without error -/

theorem submit_phase_counts (op : opts_t) (inp : IterIn) (s : WState)
    (h : counts_head op s) : counts_mid op (submit_phase op inp s) := by
  rcases submit_phase_cases op inp s with ⟨_, he⟩ | ⟨hc, ⟨_, he⟩ | ⟨s2, lbp, ha, he⟩⟩
  · rw [he]
    intro hn
    obtain ⟨h1, h2, h3, h4⟩ := h hn
    exact ⟨Or.inl rfl, by simp only; omega, h2, h3, by simp only; omega⟩
  · rw [he]
    intro hn
    simp at hn
  · obtain ⟨f1, f2, f3, f4, f5, f6, f7, f8⟩ := acquire_buffer_fields op inp _ s2 lbp ha
    simp only [with_new_id] at f1 f2 f3 f4 f5 f6 f7 f8
    rw [he]
    rcases submit_cmd_cases op inp s2 lbp (choose_lba op inp) with h2 | h2 <;> rw [h2]
    · intro hn
      simp at hn
    · intro hn
      simp only at hn
      obtain ⟨h1, h2, h3, h4⟩ := h (f8 ▸ hn)
      have hl := map_assign_length_le s2.pi_2_buff s2.pack_id lbp
      simp only
      rw [f7] at hl ⊢
      refine ⟨Or.inr f3, by omega, by omega, by omega, by omega⟩

theorem decide_phase_counts (op : opts_t) (inp : IterIn) (s s1 : WState)
    (h : counts_mid op s) (hd : decide_phase op inp s = some s1) : counts_mid op s1 := by
  have herr := decide_phase_err op inp s s1 hd
  obtain ⟨n, e, rfl⟩ := decide_phase_keeps op inp s s1 hd
  intro hn
  simp only at hn herr
  rcases herr with h1 | h1
  · exact h (h1 ▸ hn)
  · rw [h1] at hn; simp at hn

theorem drain_loop_counts (op : opts_t) (inp : IterIn) (n j : Nat) (s s1 : WState)
    (h : counts_mid op s) (hd : drain_loop op inp n j s = some s1) : counts_mid op s1 := by
  refine drain_loop_inv op inp (counts_mid op) (fun _ _ h => h) ?_ ?_ n j s s1 h hd
  · intro s pid eag e _ hn
    simp at hn
  · intro s pid eag hs
    rcases resolve_completion_cases op { s with pack_id := pid, thr_eagain_count := eag }
      with ⟨lbas, ⟨_, he⟩ | ⟨lbp, hf, he⟩⟩ <;> rw [he]
    · intro hn
      simp only at hn
      cases hs2 : s.err <;> simp [hs2] at hn
    · intro hn
      simp only at hn
      obtain ⟨h1, h2, h3, h4, h5⟩ := hs hn
      have hl := map_erase_length_lt _ _ _ hf
      simp only at hl ⊢
      refine ⟨h1, h2, by omega, by omega, h5⟩

theorem iteration_counts (op : opts_t) (inp : IterIn) (s s1 : WState)
    (h : counts_head op s) (hi : iteration op inp s = some s1) : counts_head op s1 := by
  refine iteration_inv op inp (counts_head op) (counts_mid op) (counts_head op) ?_ ?_ ?_ ?_ ?_ s s1 h hi
  · exact fun s hs => submit_phase_counts op inp s hs
  · exact fun s s1 hs hd => decide_phase_counts op inp s s1 hs hd
  · exact fun n j s s1 hs hd => drain_loop_counts op inp n j s s1 hs hd
  · intro s _ he hn
    rw [hn] at he
    simp at he
  · intro s hs hn hn2
    obtain ⟨h1, h2, h3, h4, h5⟩ := hs hn
    simp only
    rcases h1 with h1 | h1 <;> simp only [h1] at h2 h5 ⊢ <;> simp <;> omega

theorem work_loop_counts (op : opts_t) (hn : 0 ≤ op.num_per_thread) (uniq : Int)
    (ins : List IterIn) (s : WState) (hs : work_loop op ins (WState.init uniq) = some s) :
    counts_head op s := by
  refine work_loop_inv op (counts_head op) ?_ ins _ s ?_ hs
  · exact fun inp s s1 h _ hi => iteration_counts op inp s s1 h hi
  · intro _
    exact ⟨rfl, rfl, by simp [WState.init], hn⟩

theorem work_thread_final (op : opts_t) (sh : Shared) (ins : List IterIn) (r : WorkResult)
    (hr : work_thread op sh ins = some r) :
    ∃ s, work_loop op ins (WState.init sh.uniq_pack_id) = some s ∧ exited op s = true ∧
      r = work_thread_exit op sh s := by
  unfold work_thread at hr
  split at hr
  · exact absurd hr (by simp)
  · rename_i s hs
    split at hr
    · rename_i hex
      simp only [Option.some.injEq] at hr
      exact ⟨s, hs, hex, hr.symm⟩
    · exact absurd hr (by simp)

theorem work_loop_exited (op : opts_t) (s : WState) (h : exited op s = true)
    (rest : List IterIn) : work_loop op rest s = some s := by
  cases rest with
  | nil => rfl
  | cons inp rest => simp [work_loop, h]

/-! ### Facts about lists of buffers -/

theorem map_erase_sublist {α : Type} (m : List (Int × α)) (key : Int) :
    List.Sublist (map_erase m key) m := by
  induction m with
  | nil => simp [map_erase]
  | cons a rest ih =>
    obtain ⟨k, v⟩ := a
    simp only [map_erase]
    split
    · exact List.Sublist.cons _ ih
    · exact List.Sublist.cons₂ _ ih

theorem map_find_mem {α : Type} (m : List (Int × α)) (key : Int) (v : α)
    (h : map_find m key = some v) : (key, v) ∈ m := by
  induction m with
  | nil => simp [map_find] at h
  | cons a rest ih =>
    obtain ⟨k, w⟩ := a
    simp only [map_find] at h
    split at h
    · rename_i hk
      simp only [Option.some.injEq] at h
      subst hk; subst h
      exact List.mem_cons_self _ _
    · exact List.mem_cons_of_mem _ (ih h)

theorem map_find_erase_subperm (m : List (Int × Nat)) (key : Int) (v : Nat)
    (h : map_find m key = some v) :
    List.Subperm (v :: (map_erase m key).map Prod.snd) (m.map Prod.snd) := by
  induction m with
  | nil => simp [map_find] at h
  | cons a rest ih =>
    obtain ⟨k, w⟩ := a
    simp only [map_find] at h
    simp only [map_erase]
    split at h
    · rename_i hk
      simp only [Option.some.injEq] at h
      subst h
      simp only [hk, if_true, List.map_cons]
      exact (List.Sublist.cons₂ _ ((map_erase_sublist rest key).map Prod.snd)).subperm
    · rename_i hk
      simp only [hk, if_false, List.map_cons]
      have h1 := ih h
      have h2 : List.Subperm (w :: v :: (map_erase rest key).map Prod.snd)
          (w :: rest.map Prod.snd) := (List.subperm_cons w).mpr h1
      exact (List.Perm.swap w v _).subperm.trans h2

theorem subperm_nodup {l1 l2 : List Nat} (h : List.Subperm l1 l2) (hn : l2.Nodup) :
    l1.Nodup := by
  obtain ⟨l, hp, hs⟩ := h
  exact hp.nodup_iff.mp (hn.sublist hs)

/-! ### Invariant: every buffer held was allocated, no more often than that -/

theorem attached_erase_sublist (m : List (Int × Nat)) (key : Int) :
    List.Sublist (((map_erase m key).map Prod.snd).filter (fun b => b ≠ 0))
      ((m.map Prod.snd).filter (fun b => b ≠ 0)) :=
  ((map_erase_sublist m key).map Prod.snd).filter _

theorem acquire_buffer_owned (op : opts_t) (inp : IterIn) (s s2 : WState) (lbp : Nat)
    (ha : acquire_buffer op inp s = some (s2, lbp))
    (h : List.Subperm (owned s) s.allocated) :
    List.Subperm (s2.free_lst ++ ([lbp].filter (fun b => b ≠ 0) ++ attached s2))
      s2.allocated := by
  rcases acquire_buffer_cases op inp s s2 lbp ha with
    ⟨_, h2, h3⟩ | ⟨_, hfree, hne, h3, h2⟩ | ⟨_, hfree, h2⟩
  · subst h2; subst h3
    simpa [owned] using h
  · subst h2; subst h3
    simp only [owned, hfree, List.nil_append] at h
    simp only [hfree, List.nil_append, List.filter_cons, hne, ne_eq, not_false_eq_true,
      decide_True, if_true, List.filter_nil, List.cons_append]
    exact (List.subperm_cons inp.heap).mpr h
  · subst h2
    refine List.Subperm.trans (List.Sublist.subperm ?_) h
    have hsplit : owned s = s.free_lst.dropLast ++ ([lbp] ++ attached s) := by
      simp only [owned]
      conv_lhs => rw [hfree]
      simp
    rw [hsplit]
    refine List.Sublist.append (List.Sublist.refl _) ?_
    refine List.Sublist.append ?_ (List.Sublist.refl _)
    exact List.filter_sublist _

theorem submit_phase_owned (op : opts_t) (inp : IterIn) (s : WState)
    (h : List.Subperm (owned s) s.allocated) :
    List.Subperm (owned (submit_phase op inp s)) (submit_phase op inp s).allocated := by
  rcases submit_phase_cases op inp s with ⟨_, he⟩ | ⟨hc, ⟨_, he⟩ | ⟨s2, lbp, ha, he⟩⟩
  · rw [he]; exact h
  · rw [he]; exact h
  · rw [he]
    have key := acquire_buffer_owned op inp (with_new_id inp s) s2 lbp ha h
    rcases submit_cmd_cases op inp s2 lbp (choose_lba op inp) with h2 | h2 <;> rw [h2]
    · refine List.Subperm.trans (List.Sublist.subperm ?_) key
      simp only [owned, attached]
      refine List.Sublist.append (List.Sublist.refl _) ?_
      exact List.sublist_append_right _ _
    · refine List.Subperm.trans (List.Sublist.subperm ?_) key
      simp only [owned, attached, map_assign, List.map_cons]
      refine List.Sublist.append (List.Sublist.refl _) ?_
      rw [show (lbp :: List.map Prod.snd (map_erase s2.pi_2_buff s2.pack_id)) =
        [lbp] ++ List.map Prod.snd (map_erase s2.pi_2_buff s2.pack_id) from rfl,
        List.filter_append]
      exact List.Sublist.append (List.Sublist.refl _) (attached_erase_sublist _ _)

theorem resolve_completion_owned (op : opts_t) (s : WState)
    (h : List.Subperm (owned s) s.allocated) :
    List.Subperm (owned (resolve_completion op s)) (resolve_completion op s).allocated := by
  rcases resolve_completion_cases op s with ⟨lbas, ⟨_, he⟩ | ⟨lbp, hf, he⟩⟩ <;> rw [he]
  · exact h
  · refine List.Subperm.trans ?_ h
    simp only [owned, attached]
    have h1 := (map_find_erase_subperm _ _ _ hf).filter (fun b => decide (b ≠ 0))
    by_cases hz : lbp = 0
    · simp only [hz, ne_eq, not_true_eq_false, if_false]
      exact (List.Sublist.append (List.Sublist.refl _) (attached_erase_sublist _ _)).subperm
    · simp only [ne_eq, hz, not_false_eq_true, if_true, List.cons_append]
      simp only [List.filter_cons, ne_eq, hz, not_false_eq_true, decide_True, if_true] at h1
      have h2 := (List.subperm_append_left s.free_lst).mpr h1
      refine List.Subperm.trans (List.Perm.subperm ?_) h2
      exact (List.perm_middle).symm

theorem drain_loop_owned (op : opts_t) (inp : IterIn) (n j : Nat) (s s1 : WState)
    (h : List.Subperm (owned s) s.allocated) (hd : drain_loop op inp n j s = some s1) :
    List.Subperm (owned s1) s1.allocated := by
  refine drain_loop_inv op inp (fun s => List.Subperm (owned s) s.allocated)
    (fun _ _ h => h) ?_ ?_ n j s s1 h hd
  · intro s pid eag e hs
    exact hs
  · intro s pid eag hs
    exact resolve_completion_owned op _ hs

theorem iteration_owned (op : opts_t) (inp : IterIn) (s s1 : WState)
    (h : List.Subperm (owned s) s.allocated) (hi : iteration op inp s = some s1) :
    List.Subperm (owned s1) s1.allocated := by
  refine iteration_inv op inp (fun s => List.Subperm (owned s) s.allocated)
    (fun s => List.Subperm (owned s) s.allocated)
    (fun s => List.Subperm (owned s) s.allocated) ?_ ?_ ?_ ?_ ?_ s s1 h hi
  · exact fun s hs => submit_phase_owned op inp s hs
  · intro s s1 hs hd
    obtain ⟨n, e, rfl⟩ := decide_phase_keeps op inp s s1 hd
    exact hs
  · exact fun n j s s1 hs hd => drain_loop_owned op inp n j s s1 hs hd
  · exact fun s hs _ => hs
  · exact fun s hs _ => hs

theorem work_loop_owned (op : opts_t) (ins : List IterIn) (s s1 : WState)
    (h : List.Subperm (owned s) s.allocated) (hs : work_loop op ins s = some s1) :
    List.Subperm (owned s1) s1.allocated :=
  work_loop_inv op (fun s => List.Subperm (owned s) s.allocated)
    (fun inp s s1 h _ hi => iteration_owned op inp s s1 h hi) ins s s1 h hs

/-! ### Invariant: the size of the buffer pool -/

theorem mem_dropLast_of_mem {l : List Nat} {a : Nat} (h : a ∈ l.dropLast) : a ∈ l :=
  (List.dropLast_sublist l).subset h

theorem submit_phase_pool (op : opts_t) (inp : IterIn) (s : WState)
    (h : pool_count op s) : pool_count op (submit_phase op inp s) := by
  obtain ⟨hz, hnrw, hcnt⟩ := h
  rcases submit_phase_cases op inp s with ⟨_, he⟩ | ⟨hc, ⟨_, he⟩ | ⟨s2, lbp, ha, he⟩⟩
  · rw [he]; exact ⟨hz, hnrw, hcnt⟩
  · rw [he]
    refine ⟨hz, hnrw, ?_⟩
    intro hn
    simp at hn
  · obtain ⟨f1, f2, f3, f4, f5, f6, f7, f8⟩ := acquire_buffer_fields op inp _ s2 lbp ha
    simp only [with_new_id] at f1 f2 f3 f4 f5 f6 f7 f8
    have hacq : 0 ∉ s2.free_lst ∧ (is_rw op = false → s2.allocated = []) ∧
        (is_rw op = true → lbp ≠ 0 ∧
          (s2.allocated.length : Int) + s.free_lst.length =
            s.allocated.length + s2.free_lst.length + 1) := by
      rcases acquire_buffer_cases op inp _ s2 lbp ha with
        ⟨hrw, h2, h3⟩ | ⟨hrw, hfree, hne, h3, h2⟩ | ⟨hrw, hfree, h2⟩
      · subst h2
        refine ⟨hz, hnrw, ?_⟩
        intro h; rw [hrw] at h; simp at h
      · subst h2; subst h3
        have hfree2 : s.free_lst = [] := hfree
        refine ⟨hz, ?_, ?_⟩
        · intro h; rw [hrw] at h; simp at h
        · intro _
          refine ⟨hne, ?_⟩
          simp [with_new_id, hfree2]
      · subst h2
        have hfree2 : s.free_lst = s.free_lst.dropLast ++ [lbp] := hfree
        have hlen : s.free_lst.length = s.free_lst.dropLast.length + 1 := by
          conv_lhs => rw [hfree2]
          simp
        refine ⟨fun h0 => hz (mem_dropLast_of_mem h0), ?_, ?_⟩
        · intro h; rw [hrw] at h; simp at h
        · intro _
          refine ⟨?_, ?_⟩
          · intro h0
            apply hz
            rw [hfree2, h0]
            simp
          · show (s.allocated.length : Int) + s.free_lst.length =
              s.allocated.length + s.free_lst.dropLast.length + 1
            rw [hlen]
            push_cast
            omega
    rw [he]
    rcases submit_cmd_cases op inp s2 lbp (choose_lba op inp) with h2 | h2 <;> rw [h2]
    · refine ⟨hacq.1, hacq.2.1, ?_⟩
      intro hn
      simp at hn
    · refine ⟨hacq.1, hacq.2.1, ?_⟩
      intro hn
      simp only at hn
      obtain ⟨h3, h4⟩ := hcnt (f8 ▸ hn)
      simp only
      refine ⟨by omega, ?_⟩
      intro hrw
      obtain ⟨h5, h6⟩ := h4 hrw
      obtain ⟨h7, h8⟩ := hacq.2.2 hrw
      refine ⟨?_, by omega⟩
      intro e he2
      simp only [map_assign, List.mem_cons] at he2
      rcases he2 with he2 | he2
      · rw [he2]; exact h7
      · rw [f7] at he2
        exact h5 e ((map_erase_sublist _ _).subset he2)

theorem resolve_completion_pool (op : opts_t) (s : WState)
    (h : pool_count op s) : pool_count op (resolve_completion op s) := by
  obtain ⟨hz, hnrw, hcnt⟩ := h
  rcases resolve_completion_cases op s with ⟨lbas, ⟨_, he⟩ | ⟨lbp, hf, he⟩⟩ <;> rw [he]
  · refine ⟨hz, hnrw, ?_⟩
    intro hn
    simp only at hn
    cases hs2 : s.err <;> simp [hs2] at hn
  · refine ⟨?_, hnrw, ?_⟩
    · simp only
      split
      · rename_i hne
        intro h0
        simp only [List.mem_cons] at h0
        rcases h0 with h0 | h0
        · exact hne h0.symm
        · exact hz h0
      · exact hz
    · intro hn
      simp only at hn
      obtain ⟨h3, h4⟩ := hcnt hn
      simp only
      refine ⟨by omega, ?_⟩
      intro hrw
      obtain ⟨h5, h6⟩ := h4 hrw
      have hne : lbp ≠ 0 := h5 _ (map_find_mem _ _ _ hf)
      simp only [hne, ne_eq, not_false_eq_true, if_true, List.length_cons]
      refine ⟨fun e he2 => h5 e ((map_erase_sublist _ _).subset he2), ?_⟩
      push_cast
      omega

theorem iteration_pool (op : opts_t) (inp : IterIn) (s s1 : WState)
    (h : pool_count op s) (hi : iteration op inp s = some s1) : pool_count op s1 := by
  refine iteration_inv op inp (pool_count op) (pool_count op) (pool_count op)
    ?_ ?_ ?_ ?_ ?_ s s1 h hi
  · exact fun s hs => submit_phase_pool op inp s hs
  · intro s s1 hs hd
    have herr := decide_phase_err op inp s s1 hd
    obtain ⟨n, e, rfl⟩ := decide_phase_keeps op inp s s1 hd
    refine ⟨hs.1, hs.2.1, ?_⟩
    intro hn
    simp only at hn herr
    rcases herr with h1 | h1
    · exact hs.2.2 (h1 ▸ hn)
    · rw [h1] at hn; simp at hn
  · intro n j s s1 hs hd
    refine drain_loop_inv op inp (pool_count op) (fun _ _ h => h) ?_ ?_ n j s s1 hs hd
    · intro s pid eag e hs
      refine ⟨hs.1, hs.2.1, ?_⟩
      intro hn
      simp at hn
    · intro s pid eag hs
      exact resolve_completion_pool op _ hs
  · exact fun s hs _ => hs
  · exact fun s hs _ => hs

theorem work_loop_pool (op : opts_t) (ins : List IterIn) (uniq : Int) (s : WState)
    (hs : work_loop op ins (WState.init uniq) = some s) : pool_count op s := by
  refine work_loop_inv op (pool_count op)
    (fun inp s s1 h _ hi => iteration_pool op inp s s1 h hi) ins _ s ?_ hs
  refine ⟨by simp [WState.init], fun _ => rfl, fun _ => ⟨rfl, fun _ => ?_⟩⟩
  simp [WState.init]

/-! ### The log of allocated blocks -/

theorem submit_phase_allocated (op : opts_t) (inp : IterIn) (s : WState) :
    (submit_phase op inp s).allocated = s.allocated ∨
    (calls_allocator op s = true ∧ inp.heap ≠ 0 ∧
      (submit_phase op inp s).allocated = inp.heap :: s.allocated) := by
  rcases submit_phase_cases op inp s with ⟨_, he⟩ | ⟨hc, ⟨_, he⟩ | ⟨s2, lbp, ha, he⟩⟩
  · rw [he]; exact Or.inl rfl
  · rw [he]; exact Or.inl rfl
  · rw [he]
    have h2 : (submit_cmd op inp s2 lbp (choose_lba op inp)).allocated = s2.allocated := by
      rcases submit_cmd_cases op inp s2 lbp (choose_lba op inp) with h2 | h2 <;> rw [h2]
    rw [h2]
    rcases acquire_buffer_cases op inp _ s2 lbp ha with
      ⟨_, h3, _⟩ | ⟨hrw, hfree, hne, _, h3⟩ | ⟨_, _, h3⟩
    · subst h3; exact Or.inl rfl
    · subst h3
      have hfree2 : s.free_lst = [] := hfree
      refine Or.inr ⟨?_, hne, rfl⟩
      simp [calls_allocator, hc.1, hc.2, hrw, hfree2]
    · subst h3; exact Or.inl rfl

theorem drain_loop_allocated (op : opts_t) (inp : IterIn) (n j : Nat) (s s1 : WState)
    (hd : drain_loop op inp n j s = some s1) : s1.allocated = s.allocated := by
  refine drain_loop_inv op inp (fun t => t.allocated = s.allocated) (fun _ _ h => h) ?_ ?_
    n j s s1 rfl hd
  · intro t pid eag e ht
    exact ht
  · intro t pid eag ht
    rcases resolve_completion_cases op { t with pack_id := pid, thr_eagain_count := eag }
      with ⟨lbas, ⟨_, he⟩ | ⟨lbp, _, he⟩⟩ <;> rw [he] <;> exact ht

theorem iteration_allocated (op : opts_t) (inp : IterIn) (s s1 : WState)
    (hi : iteration op inp s = some s1) :
    s1.allocated = s.allocated ∨
    (calls_allocator op s = true ∧ inp.heap ≠ 0 ∧ s1.allocated = inp.heap :: s.allocated) := by
  refine iteration_inv op inp (fun t => t = s)
    (fun t => t.allocated = s.allocated ∨
      (calls_allocator op s = true ∧ inp.heap ≠ 0 ∧ t.allocated = inp.heap :: s.allocated))
    (fun t => t.allocated = s.allocated ∨
      (calls_allocator op s = true ∧ inp.heap ≠ 0 ∧ t.allocated = inp.heap :: s.allocated))
    ?_ ?_ ?_ ?_ ?_ s s1 rfl hi
  · intro t ht
    subst ht
    exact submit_phase_allocated op inp t
  · intro t t1 ht hd
    obtain ⟨n, e, rfl⟩ := decide_phase_keeps op inp t t1 hd
    exact ht
  · intro n j t t1 ht hd
    rw [drain_loop_allocated op inp n j t t1 hd]
    exact ht
  · exact fun t ht _ => ht
  · exact fun t ht _ => ht

theorem work_loop_allocated_nodup (op : opts_t) (ins : List IterIn) :
    ∀ s s1, s.allocated.Nodup → allocator_fresh op ins s = true →
      work_loop op ins s = some s1 → s1.allocated.Nodup := by
  induction ins with
  | nil =>
    intro s s1 hnd _ h
    simp only [work_loop, Option.some.injEq] at h
    exact h ▸ hnd
  | cons inp rest ih =>
    intro s s1 hnd hfresh h
    simp only [work_loop] at h
    split at h
    · simp only [Option.some.injEq] at h
      exact h ▸ hnd
    · rename_i hex
      split at h
      · exact absurd h (by simp)
      · rename_i s2 hi
        simp only [allocator_fresh, hex, hi, Bool.false_or, Bool.and_eq_true,
          Bool.or_eq_true, Bool.not_eq_true', decide_eq_true_eq] at hfresh
        refine ih s2 s1 ?_ hfresh.2 h
        rcases iteration_allocated op inp s s2 hi with h3 | ⟨hcall, _, h3⟩
        · rw [h3]; exact hnd
        · rw [h3]
          refine List.nodup_cons.mpr ⟨?_, hnd⟩
          rcases hfresh.1 with h4 | h4
          · rw [hcall] at h4; exact absurd h4 (by simp)
          · exact h4

theorem single_owner_of_nodup (s : WState) (h : (owned s).Nodup) : single_owner s := by
  simp only [owned, List.nodup_append] at h
  exact ⟨h.1, h.2.1, fun b hb hb2 => h.2.2 hb hb2⟩

/-! ### Invariant: a READ or WRITE request always holds a buffer -/

theorem submit_phase_nonnull (op : opts_t) (hrw : is_rw op = true) (inp : IterIn) (s : WState)
    (h : 0 ∉ s.free_lst ∧ ∀ e ∈ s.pi_2_buff, e.2 ≠ 0) :
    0 ∉ (submit_phase op inp s).free_lst ∧ ∀ e ∈ (submit_phase op inp s).pi_2_buff, e.2 ≠ 0 := by
  obtain ⟨hz, hnn⟩ := h
  rcases submit_phase_cases op inp s with ⟨_, he⟩ | ⟨hc, ⟨_, he⟩ | ⟨s2, lbp, ha, he⟩⟩
  · rw [he]; exact ⟨hz, hnn⟩
  · rw [he]; exact ⟨hz, hnn⟩
  · obtain ⟨f1, f2, f3, f4, f5, f6, f7, f8⟩ := acquire_buffer_fields op inp _ s2 lbp ha
    simp only [with_new_id] at f1 f2 f3 f4 f5 f6 f7 f8
    have hacq : 0 ∉ s2.free_lst ∧ lbp ≠ 0 := by
      rcases acquire_buffer_cases op inp _ s2 lbp ha with
        ⟨h1, _, _⟩ | ⟨_, _, hne, h3, h2⟩ | ⟨_, hfree, h2⟩
      · rw [hrw] at h1; exact absurd h1 (by simp)
      · subst h2; subst h3; exact ⟨hz, hne⟩
      · subst h2
        have hfree2 : s.free_lst = s.free_lst.dropLast ++ [lbp] := hfree
        refine ⟨fun h0 => hz (mem_dropLast_of_mem h0), ?_⟩
        intro h0
        apply hz
        rw [hfree2, h0]
        simp
    rw [he]
    rcases submit_cmd_cases op inp s2 lbp (choose_lba op inp) with h2 | h2 <;> rw [h2]
    · exact ⟨hacq.1, fun e he2 => hnn e (f7 ▸ he2)⟩
    · refine ⟨hacq.1, ?_⟩
      intro e he2
      simp only [map_assign, List.mem_cons] at he2
      rcases he2 with he2 | he2
      · rw [he2]; exact hacq.2
      · rw [f7] at he2
        exact hnn e ((map_erase_sublist _ _).subset he2)

theorem resolve_completion_nonnull (op : opts_t) (s : WState)
    (h : 0 ∉ s.free_lst ∧ ∀ e ∈ s.pi_2_buff, e.2 ≠ 0) :
    0 ∉ (resolve_completion op s).free_lst ∧
      ∀ e ∈ (resolve_completion op s).pi_2_buff, e.2 ≠ 0 := by
  obtain ⟨hz, hnn⟩ := h
  rcases resolve_completion_cases op s with ⟨lbas, ⟨_, he⟩ | ⟨lbp, hf, he⟩⟩ <;> rw [he]
  · exact ⟨hz, hnn⟩
  · refine ⟨?_, fun e he2 => hnn e ((map_erase_sublist _ _).subset he2)⟩
    simp only
    split
    · rename_i hne
      intro h0
      simp only [List.mem_cons] at h0
      rcases h0 with h0 | h0
      · exact hne h0.symm
      · exact hz h0
    · exact hz

theorem work_loop_nonnull (op : opts_t) (hrw : is_rw op = true) (ins : List IterIn)
    (uniq : Int) (s : WState) (hs : work_loop op ins (WState.init uniq) = some s) :
    0 ∉ s.free_lst ∧ ∀ e ∈ s.pi_2_buff, e.2 ≠ 0 := by
  refine work_loop_inv op (fun t => 0 ∉ t.free_lst ∧ ∀ e ∈ t.pi_2_buff, e.2 ≠ 0) ?_
    ins _ s (by simp [WState.init]) hs
  intro inp t t1 ht _ hi
  refine iteration_inv op inp (fun t => 0 ∉ t.free_lst ∧ ∀ e ∈ t.pi_2_buff, e.2 ≠ 0)
    (fun t => 0 ∉ t.free_lst ∧ ∀ e ∈ t.pi_2_buff, e.2 ≠ 0)
    (fun t => 0 ∉ t.free_lst ∧ ∀ e ∈ t.pi_2_buff, e.2 ≠ 0) ?_ ?_ ?_ ?_ ?_ t t1 ht hi
  · exact fun u hu => submit_phase_nonnull op hrw inp u hu
  · intro u u1 hu hd
    obtain ⟨n, e, rfl⟩ := decide_phase_keeps op inp u u1 hd
    exact hu
  · intro n j u u1 hu hd
    refine drain_loop_inv op inp (fun t => 0 ∉ t.free_lst ∧ ∀ e ∈ t.pi_2_buff, e.2 ≠ 0)
      (fun _ _ h => h) ?_ ?_ n j u u1 hu hd
    · exact fun v pid eag e hv => hv
    · exact fun v pid eag hv => resolve_completion_nonnull op _ hv
  · exact fun u hu _ => hu
  · exact fun u hu _ => hu

theorem attached_length_of_nonnull (s : WState) (h : ∀ e ∈ s.pi_2_buff, e.2 ≠ 0) :
    (attached s).length = s.pi_2_buff.length := by
  simp only [attached]
  rw [List.filter_eq_self.mpr, List.length_map]
  intro b hb
  obtain ⟨e, he, rfl⟩ := List.mem_map.mp hb
  simpa using h e he

/-! ### Evaluation of the example runs -/

theorem work_loop_read_mid :
    work_loop opts_read read_submits (WState.init 1) = some read_mid := by
  simp [work_loop, iteration, submit_phase, with_new_id, acquire_buffer,
    decide_phase, drain_loop, exited, loop_cond, submit_cmd, start_sg3_cmd, start_sg3_cmd_from,
    read_submits, quiet, write_ok, opts_read, opts_default, WState.init, wrap32, is_rw,
    map_assign, map_erase, choose_lba, has_ruip, poll_wait, MAX_Q_PER_FD,
    DEF_NUM_PER_THREAD, read_mid]

theorem allocator_fresh_read :
    allocator_fresh opts_read read_submits (WState.init 1) = true := by
  simp [allocator_fresh, calls_allocator, iteration, submit_phase, with_new_id,
    acquire_buffer, decide_phase, drain_loop, exited, loop_cond, submit_cmd, start_sg3_cmd,
    start_sg3_cmd_from, read_submits, quiet, write_ok, opts_read, opts_default, WState.init,
    wrap32, is_rw, map_assign, map_erase, choose_lba, has_ruip, poll_wait, MAX_Q_PER_FD,
    DEF_NUM_PER_THREAD]

theorem work_thread_read_run :
    work_thread opts_read Shared.init read_run =
      some (work_thread_exit opts_read Shared.init read_final) := by
  simp [work_thread, work_loop, iteration, submit_phase, with_new_id, acquire_buffer,
    decide_phase, drain_loop, exited, loop_cond, submit_cmd, start_sg3_cmd, start_sg3_cmd_from,
    read_run, read_submits, quiet, waiting, write_ok, opts_read, opts_default,
    WState.init, Shared.init, wrap32, is_rw, map_assign, map_erase, map_find, choose_lba,
    has_ruip, finish_sg3_cmd, resolve_completion, work_thread_exit, free_all,
    MAX_Q_PER_FD, DEF_NUM_PER_THREAD, read_final]

theorem work_thread_leak_run :
    work_thread opts_read Shared.init leak_run =
      some (work_thread_exit opts_read Shared.init leak_final) := by
  simp [work_thread, work_loop, iteration, submit_phase, with_new_id, acquire_buffer,
    decide_phase, drain_loop, exited, loop_cond, submit_cmd, start_sg3_cmd, start_sg3_cmd_from,
    leak_run, read_submits, quiet, write_ok, opts_read, opts_default,
    WState.init, Shared.init, wrap32, is_rw, map_assign, map_erase, map_find, choose_lba,
    has_ruip, work_thread_exit, free_all, MAX_Q_PER_FD, DEF_NUM_PER_THREAD, leak_final,
    read_mid]

theorem work_loop_q2_full :
    work_loop opts_q2 [quiet, quiet] (WState.init 1) = some queue_full_q2 := by
  simp [work_loop, iteration, submit_phase, with_new_id, acquire_buffer,
    decide_phase, drain_loop, exited, loop_cond, submit_cmd, start_sg3_cmd, start_sg3_cmd_from,
    quiet, write_ok, opts_q2, opts_default, WState.init, wrap32, is_rw,
    map_assign, map_erase, choose_lba, has_ruip, poll_wait, MAX_Q_PER_FD,
    DEF_NUM_PER_THREAD, queue_full_q2, two_in_flight]

theorem work_thread_single :
    work_thread opts_single Shared.init three_nomem_run =
      some (work_thread_exit opts_single Shared.init single_cmd_final) := by
  simp [work_thread, work_loop, iteration, submit_phase, with_new_id, acquire_buffer,
    decide_phase, drain_loop, exited, loop_cond, submit_cmd, start_sg3_cmd, start_sg3_cmd_from,
    three_nomem_run, quiet, waiting, write_fail_then_ok, opts_single, opts_default,
    WState.init, Shared.init, wrap32, is_rw, map_assign, map_erase, map_find, choose_lba,
    has_ruip, finish_sg3_cmd, resolve_completion, work_thread_exit, free_all, ENOMEM,
    MAX_CONSEC_NOMEMS, MAX_Q_PER_FD, DEF_NUM_PER_THREAD, single_cmd_final]

/-! ### The dispatch loop -/

/-- Claim C1: with a queue bound Q >= 1, whatever the device answers, every
state `s` at the head of the `work_thread` loop (or with which the loop is
left) has `num_outstanding <= Q`, and so has every state inside the next
iteration: after the submission step, after the choice of the drain count and
after any number of responses read.  If the iteration starts with
`num_outstanding == Q` the submission step only resets `do_inc`: the shared
id counter, the start count and the correlation table are untouched. -/
theorem in_flight_bounded (op : opts_t) (hq : 1 ≤ op.maxq_per_thread) (uniq : Int)
    (ins : List IterIn) (s : WState)
    (hs : work_loop op ins (WState.init uniq) = some s) (inp : IterIn) :
    s.num_outstanding ≤ op.maxq_per_thread ∧
    (submit_phase op inp s).num_outstanding ≤ op.maxq_per_thread ∧
    (∀ s2, decide_phase op inp (submit_phase op inp s) = some s2 →
      s2.num_outstanding ≤ op.maxq_per_thread ∧
      ∀ n j s3, drain_loop op inp n j s2 = some s3 →
        s3.num_outstanding ≤ op.maxq_per_thread) ∧
    (s.num_outstanding = op.maxq_per_thread →
      submit_phase op inp s = { s with do_inc := 0 }) := by
  have h0 : s.num_outstanding ≤ op.maxq_per_thread := by
    refine work_loop_inv op (fun s => s.num_outstanding ≤ op.maxq_per_thread) ?_ ins _ s ?_ hs
    · exact fun inp s s1 h _ hi => iteration_outstanding_le op inp s s1 h hi
    · simp only [WState.init]; omega
  have h1 := submit_phase_outstanding_le op inp s h0
  refine ⟨h0, h1, ?_, ?_⟩
  · intro s2 hd
    obtain ⟨n, e, rfl⟩ := decide_phase_keeps op inp _ s2 hd
    refine ⟨h1, ?_⟩
    intro n j s3 hdr
    refine drain_loop_outstanding_le op inp _ n j _ s3 ?_ hdr
    exact h1
  · intro hfull
    rcases submit_phase_cases op inp s with ⟨_, he⟩ | ⟨hc, _⟩
    · exact he
    · omega

theorem in_flight_bounded_witness :
    queue_full_q2.num_outstanding ≤ opts_q2.maxq_per_thread ∧
    (submit_phase opts_q2 quiet queue_full_q2).num_outstanding ≤ opts_q2.maxq_per_thread ∧
    (queue_full_q2.num_outstanding = opts_q2.maxq_per_thread →
      submit_phase opts_q2 quiet queue_full_q2 = { queue_full_q2 with do_inc := 0 }) :=
  have h := in_flight_bounded opts_q2 (by decide) 1 [quiet, quiet] queue_full_q2
    work_loop_q2_full quiet
  ⟨h.1, h.2.1, h.2.2.2⟩

/-- Claim C2: for every run of a worker with N >= 0 commands that ends without
a recorded error and with k >= N (no "FAILed" line), the start count and the
finish count both equal N, `k` equals N, no command is in flight and the
correlation table `pi_2_buff` is empty, so no leftover entry is reported. -/
theorem successful_run_counts (op : opts_t) (hn : 0 ≤ op.num_per_thread) (sh : Shared)
    (ins : List IterIn) (r : WorkResult) (hr : work_thread op sh ins = some r)
    (hok : r.failed = false) :
    r.final.thr_async_starts = op.num_per_thread ∧
    r.final.thr_async_finishes = op.num_per_thread ∧
    r.final.k = op.num_per_thread ∧
    r.final.num_outstanding = 0 ∧
    r.final.pi_2_buff = [] ∧
    r.still_in_map = 0 := by
  obtain ⟨s, hs, hex, rfl⟩ := work_thread_final op sh ins r hr
  have hc := work_loop_counts op hn _ ins s hs
  simp only [work_thread_exit, Bool.or_eq_false_iff, decide_eq_false_iff_not] at hok ⊢
  have herr : s.err = none := by
    cases he : s.err with
    | none => rfl
    | some e => simp [he] at hok
  obtain ⟨h1, h2, h3, h4⟩ := hc herr
  have hk := hok.2
  simp only [exited, herr, Option.isSome_none, Bool.false_or, Bool.not_eq_true', loop_cond,
    Bool.or_eq_false_iff, decide_eq_false_iff_not, ne_eq, not_not] at hex
  have hlen : s.pi_2_buff.length = 0 := by omega
  refine ⟨by omega, by omega, by omega, hex.2, List.length_eq_zero.mp hlen, hlen⟩

theorem successful_run_counts_witness :
    (work_thread_exit opts_single Shared.init single_cmd_final).final.thr_async_starts =
      opts_single.num_per_thread ∧
    (work_thread_exit opts_single Shared.init single_cmd_final).final.thr_async_finishes =
      opts_single.num_per_thread ∧
    (work_thread_exit opts_single Shared.init single_cmd_final).final.pi_2_buff = [] :=
  have h := successful_run_counts opts_single (by decide) Shared.init three_nomem_run
    (work_thread_exit opts_single Shared.init single_cmd_final) work_thread_single rfl
  ⟨h.1, h.2.1, h.2.2.2.2.1⟩

/-- Claim C3, refuted as stated: a worker has sent its two commands (ids 1 and
2); two responses are waiting, so two are to be read; the first one read
carries id 99, which is not in the table.  The worker reads no second
response (one finish only, `num_to_read` is left at 1), leaves the loop with
the "not found" text as its error and reports failure, with two entries left
in the table. -/
theorem orphan_counterexample :
    (work_thread { opts_default with num_per_thread := 2 } Shared.init orphan_run).map
        (fun r => (r.failed, r.final.err, r.final.num_to_read, r.final.thr_async_finishes,
                   r.final.num_outstanding, r.still_in_map))
      = some (true, some (WorkErr.pack_id_not_found 99), 1, 1, 1, 2) := by
  simp [work_thread, work_loop, iteration, submit_phase, with_new_id, acquire_buffer, decide_phase,
    drain_loop, exited, loop_cond, submit_cmd, start_sg3_cmd, start_sg3_cmd_from, orphan_run,
    quiet, waiting, write_ok, opts_default, WState.init, Shared.init, wrap32, is_rw, map_assign,
    map_erase, map_find, choose_lba, has_ruip, finish_sg3_cmd, resolve_completion,
    work_thread_exit, free_all, poll_wait, MAX_Q_PER_FD, DEF_NUM_PER_THREAD]

/-- Claim C3, amended: when a response is read whose pack_id is not in
`pi_2_buff`, the worker counts it as finished and decrements
`num_outstanding`, records the "pack_id not found" text as its error, reads
no further response in that iteration however many were decided, leaves the
dispatch loop (no later responses are consumed) and reports failure. -/
theorem orphan_completion_ends_worker (op : opts_t) (inp : IterIn) (s : WState) (n j : Nat)
    (pid : Int) (eag : Nat) (hs : s.err = none)
    (hfin : finish_sg3_cmd (inp.reads j) s.pack_id s.thr_eagain_count = some (0, pid, eag))
    (horphan : map_find s.pi_2_buff pid = none) :
    ∃ s1, drain_loop op inp (n + 1) j s = some s1 ∧
      s1.err = some (WorkErr.pack_id_not_found pid) ∧
      s1.thr_async_finishes = s.thr_async_finishes + 1 ∧
      s1.num_outstanding = s.num_outstanding - 1 ∧
      s1.pi_2_buff = s.pi_2_buff ∧ s1.free_lst = s.free_lst ∧
      exited op s1 = true ∧
      (∀ rest, work_loop op rest s1 = some s1) ∧
      (∀ sh, (work_thread_exit op sh s1).failed = true) := by
  rcases resolve_completion_cases op
    { s with num_to_read := s.num_to_read - 1, pack_id := pid, thr_eagain_count := eag }
    with ⟨lbas, ⟨_, he⟩ | ⟨lbp, hf, _⟩⟩
  · simp only [hs, Option.isNone_none, if_true] at he
    have herr : (resolve_completion op
        { s with num_to_read := s.num_to_read - 1, pack_id := pid,
                 thr_eagain_count := eag }).err =
        some (WorkErr.pack_id_not_found pid) := by rw [hs, he]
    have hex : exited op (resolve_completion op
        { s with num_to_read := s.num_to_read - 1, pack_id := pid,
                 thr_eagain_count := eag }) = true := by
      simp [exited, herr]
    refine ⟨resolve_completion op
        { s with num_to_read := s.num_to_read - 1, pack_id := pid, thr_eagain_count := eag },
      ?_, herr, ?_, ?_, ?_, ?_, hex, fun rest => work_loop_exited op _ hex rest, ?_⟩
    · simp only [drain_loop, hfin, ne_eq, not_true_eq_false, if_false, herr,
        Option.isSome_some, if_true]
    · rw [hs, he]
    · rw [hs, he]
    · rw [hs, he]
    · rw [hs, he]
    · intro sh
      simp [work_thread_exit, herr]
  · simp only at hf
    rw [horphan] at hf
    exact absurd hf (by simp)

theorem orphan_completion_ends_worker_witness :
    ∃ s1, drain_loop opts_q2 (waiting 2 (fun j => if j = 0 then 99 else 1)) (1 + 1) 0
        queue_full_q2 = some s1 ∧
      s1.err = some (WorkErr.pack_id_not_found 99) ∧
      s1.thr_async_finishes = queue_full_q2.thr_async_finishes + 1 :=
  let ⟨s1, h1, h2, h3, _⟩ := orphan_completion_ends_worker opts_q2
    (waiting 2 (fun j => if j = 0 then 99 else 1)) queue_full_q2 1 0 99 0 rfl
    (by decide) (by decide)
  ⟨s1, h1, h2, h3⟩

/-! ### The buffer pool -/

/-- Claim C9, refuted as stated: a worker sends two READ(16) commands, for which
it allocates the blocks 4096 and 8192; then `ioctl(SG_GET_NUM_WAITING)` fails.
The worker returns (reporting failure and two entries left in the map) having
freed nothing: both blocks stay attached to the unresolved requests. -/
theorem leak_counterexample :
    (work_thread opts_read Shared.init leak_run).map
        (fun r => (r.failed, r.final.allocated, r.freed, r.still_in_map,
                   r.final.pi_2_buff))
      = some (true, [8192, 4096], [], 2, [(2, 8192), (1, 4096)]) := by
  simp [work_thread, work_loop, iteration, submit_phase, with_new_id, acquire_buffer,
    decide_phase, drain_loop, exited, loop_cond, submit_cmd, start_sg3_cmd, start_sg3_cmd_from,
    leak_run, read_submits, quiet, write_ok, opts_read, opts_default,
    WState.init, Shared.init, wrap32, is_rw, map_assign, map_erase, map_find, choose_lba,
    has_ruip, work_thread_exit, free_all, MAX_Q_PER_FD, DEF_NUM_PER_THREAD]

/-- Claim C9, amended: when a worker returns, the blocks it has passed to
`free` are exactly the blocks of its free list, taken from the back.  These
and the buffers still attached to unresolved requests in `pi_2_buff` are
separate blocks obtained from the allocator: none is freed more often than it
was obtained, and (the allocator handing out distinct blocks) no block is
freed twice and no attached buffer is freed.  With READ or WRITE every entry
left in `pi_2_buff` holds such a buffer, so that the number reported as
"Still n elements in pi_2_buff map on exit" is a number of blocks that are
never freed.  If the run ended successfully, every block the worker obtained
has been freed exactly once. -/
theorem buffers_freed (op : opts_t) (sh : Shared) (ins : List IterIn) (r : WorkResult)
    (hr : work_thread op sh ins = some r) :
    r.freed = r.final.free_lst.reverse ∧
    List.Subperm (r.freed ++ attached r.final) r.final.allocated ∧
    (allocator_fresh op ins (WState.init sh.uniq_pack_id) = true →
      r.freed.Nodup ∧ ∀ b ∈ attached r.final, b ∉ r.freed) ∧
    (is_rw op = true →
      (attached r.final).length = r.still_in_map ∧
      r.freed.length + r.still_in_map ≤ r.final.allocated.length) ∧
    (r.failed = false → List.Perm r.freed r.final.allocated) := by
  obtain ⟨s, hs, hex, rfl⟩ := work_thread_final op sh ins r hr
  have hown : List.Subperm (owned s) s.allocated :=
    work_loop_owned op ins _ s (by simp [owned, attached, WState.init]) hs
  obtain ⟨hz, hnrw, hcnt⟩ := work_loop_pool op ins _ s hs
  have hfreed : free_all s.free_lst = s.free_lst.reverse := by
    simp only [free_all]
    apply List.filter_eq_self.mpr
    intro a ha
    have : a ≠ 0 := fun h0 => hz (h0 ▸ List.mem_reverse.mp ha)
    simpa using this
  have hperm : List.Perm (free_all s.free_lst ++ attached s) (owned s) := by
    rw [hfreed]
    exact List.Perm.append_right _ (List.reverse_perm _)
  have hsub2 : List.Subperm (free_all s.free_lst ++ attached s) s.allocated :=
    hperm.subperm.trans hown
  have hsub : List.Subperm (free_all s.free_lst) s.allocated :=
    (List.sublist_append_left _ _).subperm.trans hsub2
  refine ⟨hfreed, hsub2, ?_, ?_, ?_⟩
  · intro hfresh
    have hnd : s.allocated.Nodup :=
      work_loop_allocated_nodup op ins _ s (by simp [WState.init]) hfresh hs
    have hnd2 : (free_all s.free_lst ++ attached s).Nodup := subperm_nodup hsub2 hnd
    refine ⟨(List.nodup_append.mp hnd2).1, ?_⟩
    intro b hb hf
    exact (List.nodup_append.mp hnd2).2.2 hf hb
  · intro hrw
    have hnn := (work_loop_nonnull op hrw ins _ s hs).2
    have hl := attached_length_of_nonnull s hnn
    refine ⟨hl, ?_⟩
    have h2 := hsub2.length_le
    simp only [List.length_append, hl] at h2
    exact h2
  · intro hok
    simp only [work_thread_exit, Bool.or_eq_false_iff, decide_eq_false_iff_not] at hok ⊢
    have herr : s.err = none := by
      cases he : s.err with
      | none => rfl
      | some e => simp [he] at hok
    simp only [exited, herr, Option.isSome_none, Bool.false_or, Bool.not_eq_true', loop_cond,
      Bool.or_eq_false_iff, decide_eq_false_iff_not, ne_eq, not_not] at hex
    obtain ⟨h1, h2⟩ := hcnt herr
    refine hsub.perm_of_length_le ?_
    cases hrw : is_rw op with
    | false => rw [hnrw hrw]; simp
    | true =>
      obtain ⟨_, h3⟩ := h2 hrw
      have h4 : (free_all s.free_lst).length = s.free_lst.length := by
        rw [hfreed, List.length_reverse]
      have h5 : s.thr_async_starts = s.thr_async_finishes := by omega
      omega

theorem buffers_freed_witness :
    (work_thread_exit opts_read Shared.init leak_final).freed = leak_final.free_lst.reverse ∧
    (attached leak_final).length =
      (work_thread_exit opts_read Shared.init leak_final).still_in_map ∧
    ∀ b ∈ attached leak_final, b ∉ (work_thread_exit opts_read Shared.init leak_final).freed :=
  have h := buffers_freed opts_read Shared.init leak_run
    (work_thread_exit opts_read Shared.init leak_final) work_thread_leak_run
  ⟨h.1, (h.2.2.2.1 rfl).1, (h.2.2.1 (by
    simp [allocator_fresh, calls_allocator, iteration, submit_phase, with_new_id,
      acquire_buffer, decide_phase, drain_loop, exited, loop_cond, submit_cmd, start_sg3_cmd,
      start_sg3_cmd_from, leak_run, read_submits, quiet, write_ok, opts_read, opts_default,
      WState.init, Shared.init, wrap32, is_rw, map_assign, map_erase, choose_lba, has_ruip,
      poll_wait, MAX_Q_PER_FD, DEF_NUM_PER_THREAD])).2⟩

/-- Claim C10: assume that, in the run so far and in the next iteration, every
call of the allocator returns a block distinct from all blocks the worker
obtained before.  Then at the head of the loop (and when the loop is left),
after the submission step of the next iteration, after its choice of the
drain count and after any number of responses read, the free list contains
no duplicates, no two in-flight entries of `pi_2_buff` hold the same non-null
buffer, and no buffer is both in the free list and attached to an in-flight
request. -/
theorem buffers_single_owner (op : opts_t) (uniq : Int) (ins : List IterIn) (inp : IterIn)
    (s : WState) (hfresh : allocator_fresh op ins (WState.init uniq) = true)
    (hs : work_loop op ins (WState.init uniq) = some s)
    (hnext : calls_allocator op s = true → inp.heap ∉ s.allocated) :
    single_owner s ∧
    single_owner (submit_phase op inp s) ∧
    ∀ s2, decide_phase op inp (submit_phase op inp s) = some s2 →
      single_owner s2 ∧
      ∀ n j s3, drain_loop op inp n j s2 = some s3 → single_owner s3 := by
  have hown : List.Subperm (owned s) s.allocated :=
    work_loop_owned op ins _ s (by simp [owned, attached, WState.init]) hs
  have hnd : s.allocated.Nodup :=
    work_loop_allocated_nodup op ins _ s (by simp [WState.init]) hfresh hs
  have hnd1 : (submit_phase op inp s).allocated.Nodup := by
    rcases submit_phase_allocated op inp s with h | ⟨hcall, _, h⟩
    · rw [h]; exact hnd
    · rw [h]
      exact List.nodup_cons.mpr ⟨hnext hcall, hnd⟩
  have hown1 := submit_phase_owned op inp s hown
  refine ⟨single_owner_of_nodup s (subperm_nodup hown hnd),
    single_owner_of_nodup _ (subperm_nodup hown1 hnd1), ?_⟩
  intro s2 hd
  obtain ⟨n, e, rfl⟩ := decide_phase_keeps op inp _ s2 hd
  refine ⟨single_owner_of_nodup _ (subperm_nodup (show List.Subperm _ _ from hown1) hnd1), ?_⟩
  intro n j s3 hdr
  have h3 : List.Subperm (owned s3) s3.allocated := by
    refine drain_loop_owned op inp n j _ s3 ?_ hdr
    exact hown1
  have h4 := drain_loop_allocated op inp n j _ s3 hdr
  refine single_owner_of_nodup _ (subperm_nodup h3 ?_)
  rw [h4]
  exact hnd1

theorem buffers_single_owner_witness :
    single_owner read_mid ∧
    single_owner (submit_phase opts_read (waiting 2 (fun j => 1 + j)) read_mid) :=
  have h := buffers_single_owner opts_read 1 read_submits (waiting 2 (fun j => 1 + j))
    read_mid allocator_fresh_read work_loop_read_mid (by decide)
  ⟨h.1, h.2.1⟩

/-! ### start_sg3_cmd -/

theorem start_sg3_cmd_from_spec (w : Nat → SysRes) (k : Nat) :
    k < (start_sg3_cmd_from w k).2 ∧
    (∀ i, k ≤ i → i + 1 < (start_sg3_cmd_from w k).2 →
      (w i).ret < 0 ∧ (w i).errno = ENOMEM ∧ i < MAX_CONSEC_NOMEMS) ∧
    (((start_sg3_cmd_from w k).1 = 0 ∧ 0 ≤ (w ((start_sg3_cmd_from w k).2 - 1)).ret) ∨
     ((start_sg3_cmd_from w k).1 = -1 ∧ (w ((start_sg3_cmd_from w k).2 - 1)).ret < 0 ∧
        ((w ((start_sg3_cmd_from w k).2 - 1)).errno ≠ ENOMEM ∨
          MAX_CONSEC_NOMEMS ≤ (start_sg3_cmd_from w k).2 - 1))) := by
  induction k using start_sg3_cmd_from.induct w with
  | case1 k hneg hretry ih =>
    rw [start_sg3_cmd_from, if_pos hneg, if_pos hretry]
    obtain ⟨ih1, ih2, ih3⟩ := ih
    refine ⟨by omega, ?_, ih3⟩
    intro i hki hi
    rcases Nat.eq_or_lt_of_le hki with h | h
    · subst h; exact ⟨hneg, hretry.1.symm, hretry.2⟩
    · exact ih2 i (by omega) hi
  | case2 k hneg hretry =>
    rw [start_sg3_cmd_from, if_pos hneg, if_neg hretry]
    refine ⟨by simp, ?_, ?_⟩
    · intro i hki hi; simp at hi; omega
    · right
      simp only [Nat.add_sub_cancel, true_and]
      refine ⟨hneg, ?_⟩
      by_cases he : (w k).errno = ENOMEM
      · right
        have : ¬ k < MAX_CONSEC_NOMEMS := fun hk => hretry ⟨he.symm, hk⟩
        omega
      · left; exact he
  | case3 k hneg =>
    rw [start_sg3_cmd_from, if_neg hneg]
    refine ⟨by simp, ?_, ?_⟩
    · intro i hki hi; simp at hi; omega
    · left; simp only [Nat.add_sub_cancel, true_and]; omega

/-- Claim C8: for every sequence `w` of outcomes of the submission `write`,
`start_sg3_cmd` returns -1 or 0; it returns -1 exactly when some attempt
fails with an error other than ENOMEM before any attempt succeeds, or the
first 17 attempts all fail with ENOMEM; at most 17 attempts are made, and
every attempt that is followed by another one failed with ENOMEM (a failure
of any other kind is never retried). -/
theorem start_sg3_cmd_returns (w : Nat → SysRes) :
    ((start_sg3_cmd w).1 = -1 ∨ (start_sg3_cmd w).1 = 0) ∧
    ((start_sg3_cmd w).1 = -1 ↔
      ((∃ j, (w j).ret < 0 ∧ (w j).errno ≠ ENOMEM ∧ ∀ i < j, (w i).ret < 0) ∨
       (∀ i ≤ MAX_CONSEC_NOMEMS, (w i).ret < 0 ∧ (w i).errno = ENOMEM))) ∧
    (start_sg3_cmd w).2 ≤ MAX_CONSEC_NOMEMS + 1 ∧
    (∀ i, i + 1 < (start_sg3_cmd w).2 → (w i).ret < 0 ∧ (w i).errno = ENOMEM) := by
  obtain ⟨h1, h2, h3⟩ := start_sg3_cmd_from_spec w 0
  simp only [start_sg3_cmd]
  generalize start_sg3_cmd_from w 0 = r at h1 h2 h3
  obtain ⟨ret, cnt⟩ := r
  simp only at h1 h2 h3 ⊢
  obtain ⟨n, rfl⟩ : ∃ n, cnt = n + 1 := ⟨cnt - 1, by omega⟩
  simp only [Nat.add_sub_cancel] at h3
  have hn : n ≤ MAX_CONSEC_NOMEMS := by
    rcases Nat.eq_zero_or_pos n with h | h
    · omega
    · have := (h2 (n - 1) (Nat.zero_le _) (by omega)).2.2
      omega
  have hbefore : ∀ i, i < n → (w i).ret < 0 ∧ (w i).errno = ENOMEM := fun i hi =>
    ⟨(h2 i (Nat.zero_le _) (by omega)).1, (h2 i (Nat.zero_le _) (by omega)).2.1⟩
  refine ⟨?_, ?_, by omega, fun i hi => hbefore i (by omega)⟩
  · rcases h3 with h | h
    · exact Or.inr h.1
    · exact Or.inl h.1
  · constructor
    · intro hret
      rcases h3 with h | h
      · omega
      · by_cases he : (w n).errno = ENOMEM
        · right
          have hge : MAX_CONSEC_NOMEMS ≤ n := by
            rcases h.2.2 with h4 | h4
            · exact absurd he h4
            · exact h4
          intro i hi
          rcases Nat.lt_or_ge i n with hlt | hge2
          · exact hbefore i hlt
          · have hin : i = n := by omega
            subst hin
            exact ⟨h.2.1, he⟩
        · exact Or.inl ⟨n, h.2.1, he, fun i hi => (hbefore i hi).1⟩
    · intro hAB
      rcases h3 with h | h
      · exfalso
        rcases hAB with ⟨j, hj1, hj2, hj3⟩ | hB
        · rcases Nat.lt_trichotomy j n with hlt | heq | hgt
          · exact hj2 (hbefore j hlt).2
          · subst heq; omega
          · have := hj3 n hgt; omega
        · have := (hB n hn).1; omega
      · exact h.1

/-- Claim C7, refuted as stated: a worker sends one command whose submission
fails with ENOMEM three times and then succeeds; the run ends successfully
(one start, one finish) and the shared `ebusy_count` is still 0, not 3. -/
theorem three_nomem_counterexample :
    (∀ j < 3, (write_fail_then_ok 3 ENOMEM j).ret < 0 ∧
      (write_fail_then_ok 3 ENOMEM j).errno = ENOMEM) ∧
    0 ≤ (write_fail_then_ok 3 ENOMEM 3).ret ∧
    (work_thread { opts_default with num_per_thread := 1 } Shared.init three_nomem_run).map
        (fun r => (r.failed, r.sh.async_starts, r.sh.async_finishes, r.sh.ebusy_count))
      = some (false, 1, 1, 0) := by
  refine ⟨by decide, by decide, ?_⟩
  simp [work_thread, work_loop, iteration, submit_phase, with_new_id, acquire_buffer, decide_phase,
    drain_loop, exited, loop_cond, submit_cmd, start_sg3_cmd, start_sg3_cmd_from,
    three_nomem_run, quiet, waiting, write_fail_then_ok, opts_default, WState.init, Shared.init,
    wrap32, is_rw, map_assign, map_erase, map_find, choose_lba, has_ruip, finish_sg3_cmd,
    resolve_completion, work_thread_exit, free_all, ENOMEM, MAX_CONSEC_NOMEMS, MAX_Q_PER_FD,
    DEF_NUM_PER_THREAD]

/-- Claim C7, amended: if the first three `write` attempts of a submission fail
with ENOMEM and the fourth succeeds, `start_sg3_cmd` makes exactly four
attempts (three retries) and returns 0; the retries are counted nowhere: no
run of `work_thread` changes `ebusy_count`. -/
theorem three_nomem_then_success (w : Nat → SysRes)
    (hfail : ∀ j < 3, (w j).ret < 0 ∧ (w j).errno = ENOMEM) (hok : 0 ≤ (w 3).ret) :
    start_sg3_cmd w = (0, 4) ∧
    ∀ op sh ins r, work_thread op sh ins = some r → r.sh.ebusy_count = sh.ebusy_count := by
  constructor
  · have h0 := hfail 0 (by omega)
    have h1 := hfail 1 (by omega)
    have h2 := hfail 2 (by omega)
    simp only [start_sg3_cmd]
    rw [start_sg3_cmd_from, if_pos h0.1, if_pos ⟨h0.2.symm, by decide⟩,
      start_sg3_cmd_from, if_pos h1.1, if_pos ⟨h1.2.symm, by decide⟩,
      start_sg3_cmd_from, if_pos h2.1, if_pos ⟨h2.2.symm, by decide⟩,
      start_sg3_cmd_from, if_neg (not_lt.mpr hok)]
  · intro op sh ins r h
    unfold work_thread at h
    split at h
    · simp at h
    · split at h
      · simp only [Option.some.injEq] at h
        subst h
        rfl
      · simp at h

theorem three_nomem_then_success_witness :
    start_sg3_cmd (write_fail_then_ok 3 ENOMEM) = (0, 4) :=
  (three_nomem_then_success (write_fail_then_ok 3 ENOMEM) (by decide) (by decide)).1

/-! ### The drain policy (decide_phase) -/

/-- Claim C4, refuted as stated: with the default options (`-Q 2`, favour
submissions) and with `-Q 1`, in the first iteration of a worker (one command
just submitted, queue not full, more commands to inject) exactly one response
is waiting, yet the number of responses to read is set to 0, not 1. -/
theorem one_waiting_counterexample :
    (waiting 1 (fun _ => 1)).num_waiting = some 1 ∧
    (decide_phase opts_default (waiting 1 (fun _ => 1))
        (submit_phase opts_default (waiting 1 (fun _ => 1)) (WState.init 1))).map
      (fun s => (s.k, s.num_outstanding, s.num_to_read)) = some (0, 1, 0) ∧
    (decide_phase { opts_default with mqd := MQD_MEDIUM } (waiting 1 (fun _ => 1))
        (submit_phase { opts_default with mqd := MQD_MEDIUM } (waiting 1 (fun _ => 1))
          (WState.init 1))).map
      (fun s => (s.k, s.num_outstanding, s.num_to_read)) = some (0, 1, 0) := by
  refine ⟨rfl, ?_, ?_⟩ <;>
  simp [submit_phase, with_new_id, acquire_buffer, decide_phase, submit_cmd, start_sg3_cmd,
    start_sg3_cmd_from, waiting, quiet, write_ok, opts_default, WState.init, wrap32, is_rw,
    map_assign, map_erase, choose_lba, has_ruip, MAX_Q_PER_FD, DEF_NUM_PER_THREAD, Int.tdiv]

/-- Claim C4, amended: when exactly one response is waiting, the number of
responses to read is 1 for every bias if the queue is full or injection is
finished; otherwise it is 1 for MQD_LOW only and 0 for MQD_MEDIUM and
MQD_HIGH.  No error is recorded. -/
theorem one_waiting_drain_count (op : opts_t) (inp : IterIn) (s : WState)
    (h : inp.num_waiting = some 1) :
    ∃ s1, decide_phase op inp s = some s1 ∧ s1.err = s.err ∧
      s1.num_to_read =
        (if (s.num_outstanding ≥ op.maxq_per_thread ∨ s.k ≥ op.num_per_thread)
            ∨ op.mqd = MQD_LOW then 1 else 0) := by
  unfold decide_phase
  simp only [h]
  by_cases hf : s.num_outstanding ≥ op.maxq_per_thread ∨ s.k ≥ op.num_per_thread
  · simp [hf]
  · cases hm : op.mqd <;> simp [hf, hm, Int.tdiv]

theorem one_waiting_drain_count_witness :
    ∃ s1, decide_phase opts_q2 (waiting 1 (fun _ => 1)) two_in_flight = some s1 ∧
      s1.err = two_in_flight.err ∧
      s1.num_to_read =
        (if (two_in_flight.num_outstanding ≥ opts_q2.maxq_per_thread ∨
              two_in_flight.k ≥ opts_q2.num_per_thread)
            ∨ opts_q2.mqd = MQD_LOW then 1 else 0) :=
  one_waiting_drain_count opts_q2 (waiting 1 (fun _ => 1)) two_in_flight rfl

/-- Claim C5, refuted as stated: with a queue bound of 2 and ten commands to
send, the second iteration fills the queue (2 outstanding, k = 1 < 10); two
responses are waiting, yet only 1 is to be read, both with `-Q 2` (one at a
time) and with `-Q 1` (half of two). -/
theorem full_queue_counterexample :
    (waiting 2 (fun j => 1 + j)).num_waiting = some 2 ∧
    ((work_loop opts_q2 [quiet] (WState.init 1)).bind
        (fun s => decide_phase opts_q2 (waiting 2 (fun j => 1 + j))
          (submit_phase opts_q2 (waiting 2 (fun j => 1 + j)) s))).map
      (fun s => (s.k, s.num_outstanding, s.num_to_read)) = some (1, 2, 1) ∧
    ((work_loop { opts_q2 with mqd := MQD_MEDIUM } [quiet] (WState.init 1)).bind
        (fun s => decide_phase { opts_q2 with mqd := MQD_MEDIUM } (waiting 2 (fun j => 1 + j))
          (submit_phase { opts_q2 with mqd := MQD_MEDIUM } (waiting 2 (fun j => 1 + j)) s))).map
      (fun s => (s.k, s.num_outstanding, s.num_to_read)) = some (1, 2, 1) := by
  refine ⟨rfl, ?_, ?_⟩ <;>
  simp [work_loop, iteration, exited, loop_cond, drain_loop, submit_phase, with_new_id,
    acquire_buffer, decide_phase, submit_cmd, start_sg3_cmd, start_sg3_cmd_from, waiting, quiet,
    write_ok, opts_q2, opts_default, WState.init, wrap32, is_rw, map_assign, map_erase,
    choose_lba, has_ruip, MAX_Q_PER_FD, DEF_NUM_PER_THREAD, Int.tdiv]

/-- Claim C5, amended: when more than one response is waiting and the queue is
full or injection is finished, all of them are read if injection is finished
(k >= N); if the queue is full but commands remain to be injected, the count
is all of them for MQD_LOW, half of them (rounded down) for MQD_MEDIUM and 1
for MQD_HIGH. -/
theorem many_waiting_full_or_finished (op : opts_t) (inp : IterIn) (s : WState) (nw : Int)
    (h : inp.num_waiting = some nw) (hnw : 1 < nw)
    (hf : s.num_outstanding ≥ op.maxq_per_thread ∨ s.k ≥ op.num_per_thread) :
    ∃ s1, decide_phase op inp s = some s1 ∧ s1.err = s.err ∧
      s1.num_to_read =
        (if s.k ≥ op.num_per_thread then nw
         else match op.mqd with
           | MQD_LOW => nw
           | MQD_MEDIUM => nw / 2
           | MQD_HIGH => 1) := by
  have h1 : ¬ (1 = nw) := by omega
  have h2 : nw > 0 := by omega
  have h3 : Int.tdiv nw 2 = nw / 2 := Int.tdiv_eq_ediv (by omega) (by decide)
  unfold decide_phase
  simp only [h, hf, if_true, h1, if_false, h2]
  by_cases hk : s.k ≥ op.num_per_thread
  · simp [hk]
  · cases hm : op.mqd <;> simp [hk, h3]

theorem many_waiting_full_or_finished_witness :
    ∃ s1, decide_phase opts_q2 (waiting 2 (fun j => 1 + j)) two_in_flight = some s1 ∧
      s1.err = two_in_flight.err ∧
      s1.num_to_read =
        (if two_in_flight.k ≥ opts_q2.num_per_thread then 2
         else match opts_q2.mqd with
           | MQD_LOW => 2
           | MQD_MEDIUM => 2 / 2
           | MQD_HIGH => 1) :=
  many_waiting_full_or_finished opts_q2 (waiting 2 (fun j => 1 + j)) two_in_flight 2 rfl
    (by decide) (by decide)

/-- Claim C6, refuted as stated: with the default options (`-Q 2`, favour
submissions, queue bound 16) the second iteration has two commands in flight
and 998 still to inject; two responses are waiting, yet the number to read is
0, not 1. -/
theorem room_left_counterexample :
    (waiting 2 (fun j => 1 + j)).num_waiting = some 2 ∧
    ((work_loop opts_default [quiet] (WState.init 1)).bind
        (fun s => decide_phase opts_default (waiting 2 (fun j => 1 + j))
          (submit_phase opts_default (waiting 2 (fun j => 1 + j)) s))).map
      (fun s => (s.k, s.num_outstanding, s.num_to_read)) = some (1, 2, 0) := by
  refine ⟨rfl, ?_⟩
  simp [work_loop, iteration, exited, loop_cond, drain_loop, submit_phase, with_new_id,
    acquire_buffer, decide_phase, submit_cmd, start_sg3_cmd, start_sg3_cmd_from, waiting, quiet,
    write_ok, opts_default, WState.init, wrap32, is_rw, map_assign, map_erase, choose_lba,
    has_ruip, MAX_Q_PER_FD, DEF_NUM_PER_THREAD, Int.tdiv]

/-- Claim C6, amended: when more than one response is waiting, the queue is
not full and injection is not finished, the number to read is all of them for
MQD_LOW, half of them (rounded down) for MQD_MEDIUM and 0 for MQD_HIGH; with
MQD_HIGH the outcome does not depend on what the device would answer. -/
theorem many_waiting_room_left (op : opts_t) (inp : IterIn) (s : WState) (nw : Int)
    (h : inp.num_waiting = some nw) (hnw : 1 < nw)
    (hf : ¬ (s.num_outstanding ≥ op.maxq_per_thread ∨ s.k ≥ op.num_per_thread)) :
    (∃ s1, decide_phase op inp s = some s1 ∧ s1.err = s.err ∧
      s1.num_to_read =
        (match op.mqd with
           | MQD_LOW => nw
           | MQD_MEDIUM => nw / 2
           | MQD_HIGH => 0)) ∧
    (op.mqd = MQD_HIGH → ∀ inp2, decide_phase op inp2 s = decide_phase op inp s) := by
  have h2 : nw > 0 := by omega
  have h3 : Int.tdiv nw 2 = nw / 2 := Int.tdiv_eq_ediv (by omega) (by decide)
  have h4 : Int.tdiv nw 1 = nw := by
    simp [Int.tdiv_eq_ediv (show 0 ≤ nw by omega) (show (0:Int) ≤ 1 by decide)]
  constructor
  · unfold decide_phase
    simp only [h, hf, if_false, h2, if_true]
    cases hm : op.mqd <;> simp [h3, h4]
  · intro hm inp2
    unfold decide_phase
    simp [hf, hm]

theorem many_waiting_room_left_witness :
    ∃ s1, decide_phase opts_default (waiting 2 (fun j => 1 + j)) two_in_flight = some s1 ∧
      s1.err = two_in_flight.err ∧
      s1.num_to_read =
        (match opts_default.mqd with
           | MQD_LOW => 2
           | MQD_MEDIUM => 2 / 2
           | MQD_HIGH => 0) :=
  (many_waiting_room_left opts_default (waiting 2 (fun j => 1 + j)) two_in_flight 2 rfl
    (by decide) (by decide)).1

/-! ### start_sg3_cmd: the command blocks -/

theorem and_ff (x : Nat) : x &&& 0xff = x % 256 :=
  Nat.and_pow_two_sub_one_eq_mod x 8

theorem put_lba16_bytes (b0 : Nat) (lba : Nat) (h : lba < 2 ^ 64) :
    put_lba16 [b0, 0, 0, 0, 0, 0, 0, 0, 0, 0, 0, 0, 0, 1, 0, 0] lba =
      [b0, 0] ++ encode_be8 lba ++ [0, 0, 0, 1, 0, 0] := by
  unfold put_lba16 encode_be8
  simp only [and_ff, Nat.shiftRight_eq_div_pow]
  by_cases hbig : lba > 0xffffffff
  · simp only [hbig, if_true, List.set_cons_succ, List.set_cons_zero]
    simp
  · simp only [hbig, if_false, List.set_cons_succ, List.set_cons_zero]
    simp only [List.cons_append, List.nil_append, List.cons.injEq, and_true, true_and]
    refine ⟨by omega, by omega, by omega, by omega⟩

theorem decode_encode_be8 (v : Nat) (h : v < 2 ^ 64) : decode_be (encode_be8 v) = v := by
  simp only [decode_be, encode_be8, List.foldl_cons, List.foldl_nil]
  omega

/-- Claim C20: for every 64-bit LBA the command block that `start_sg3_cmd`
sends for READ(16) / WRITE(16) is the opcode 0x88 / 0x8a, a zero byte, the
8-byte big-endian encoding of the LBA in bytes 2..9 (decoding them gives the
LBA back, above 0xffffffff or not), the transfer length 1 in bytes 10..13
(big-endian) and two zero bytes. -/
theorem cdb16_layout (lba : Nat) (h : lba < 2 ^ 64) :
    start_sg3_cmd_cdb SCSI_READ16 lba = [0x88, 0] ++ encode_be8 lba ++ [0, 0, 0, 1, 0, 0] ∧
    start_sg3_cmd_cdb SCSI_WRITE16 lba = [0x8a, 0] ++ encode_be8 lba ++ [0, 0, 0, 1, 0, 0] ∧
    decode_be (((start_sg3_cmd_cdb SCSI_READ16 lba).drop 2).take 8) = lba ∧
    decode_be (((start_sg3_cmd_cdb SCSI_WRITE16 lba).drop 2).take 8) = lba ∧
    decode_be (((start_sg3_cmd_cdb SCSI_READ16 lba).drop 10).take 4) = 1 ∧
    decode_be (((start_sg3_cmd_cdb SCSI_WRITE16 lba).drop 10).take 4) = 1 := by
  have hr : start_sg3_cmd_cdb SCSI_READ16 lba =
      [0x88, 0] ++ encode_be8 lba ++ [0, 0, 0, 1, 0, 0] := put_lba16_bytes 0x88 lba h
  have hw : start_sg3_cmd_cdb SCSI_WRITE16 lba =
      [0x8a, 0] ++ encode_be8 lba ++ [0, 0, 0, 1, 0, 0] := put_lba16_bytes 0x8a lba h
  have hd := decode_encode_be8 lba h
  refine ⟨hr, hw, ?_, ?_, ?_, ?_⟩
  · rw [hr]; simpa [encode_be8] using hd
  · rw [hw]; simpa [encode_be8] using hd
  · rw [hr]; simp [encode_be8, decode_be]
  · rw [hw]; simp [encode_be8, decode_be]

theorem cdb16_layout_witness :
    start_sg3_cmd_cdb SCSI_READ16 0x123456789a =
      [0x88, 0] ++ encode_be8 0x123456789a ++ [0, 0, 0, 1, 0, 0] ∧
    decode_be (((start_sg3_cmd_cdb SCSI_READ16 0x123456789a).drop 2).take 8) = 0x123456789a :=
  have h := cdb16_layout 0x123456789a (by decide)
  ⟨h.1, h.2.2.1⟩

/-! ### Invariants that use the absence of an earlier error -/

theorem isSome_false_eq_none {α : Type} (o : Option α) (h : ¬ (o.isSome = true)) : o = none := by
  cases o with
  | none => rfl
  | some a => simp at h

theorem drain_loop_inv_ok (op : opts_t) (inp : IterIn) (P : WState → Prop)
    (hdec : ∀ s v, P s → P { s with num_to_read := v })
    (hfail : ∀ s pid eag, P s → s.err = none →
      P { s with pack_id := pid, thr_eagain_count := eag, err := some (finish_error op { s with pack_id := pid, thr_eagain_count := eag }) })
    (hres : ∀ s pid eag, P s → s.err = none →
      P (resolve_completion op { s with pack_id := pid, thr_eagain_count := eag })) :
    ∀ n j s s1, P s → s.err = none → drain_loop op inp n j s = some s1 → P s1 := by
  intro n
  induction n with
  | zero =>
    intro j s s1 hP _ h
    simp only [drain_loop, Option.some.injEq] at h
    exact h ▸ hdec s _ hP
  | succ n ih =>
    intro j s s1 hP hn h
    simp only [drain_loop] at h
    have hP1 := hdec s (s.num_to_read - 1) hP
    have hn1 : ({ s with num_to_read := s.num_to_read - 1 } : WState).err = none := hn
    split at h
    · exact absurd h (by simp)
    · rename_i ret pid eag hfin
      split at h
      · simp only [Option.some.injEq] at h
        exact h ▸ hfail _ pid eag hP1 hn1
      · split at h
        · simp only [Option.some.injEq] at h
          exact h ▸ hres _ pid eag hP1 hn1
        · rename_i he
          exact ih _ _ _ (hres _ pid eag hP1 hn1) (isSome_false_eq_none _ he) h

theorem iteration_inv_ok (op : opts_t) (inp : IterIn) (Ppre Pm Ppost : WState → Prop)
    (h1 : ∀ s, Ppre s → Pm (submit_phase op inp s))
    (h2 : ∀ s s1, Pm s → s.err = none → decide_phase op inp s = some s1 → Pm s1)
    (h3 : ∀ n j s s1, Pm s → s.err = none → drain_loop op inp n j s = some s1 → Pm s1)
    (h4 : ∀ s, Pm s → s.err.isSome = true → Ppost s)
    (h5 : ∀ s, Pm s → s.err = none →
      Ppost { s with k := if s.do_inc ≠ 0 then s.k + 1 else s.k }) :
    ∀ s s1, Ppre s → iteration op inp s = some s1 → Ppost s1 := by
  intro s s1 hP h
  simp only [iteration] at h
  have hm1 := h1 s hP
  split at h
  · rename_i he
    simp only [Option.some.injEq] at h
    exact h ▸ h4 _ hm1 he
  · rename_i he1
    split at h
    · exact absurd h (by simp)
    · rename_i s2 hd
      have hm2 := h2 _ _ hm1 (isSome_false_eq_none _ he1) hd
      split at h
      · rename_i he
        simp only [Option.some.injEq] at h
        exact h ▸ h4 _ hm2 he
      · rename_i he2
        split at h
        · exact absurd h (by simp)
        · rename_i s3 hdr
          have hm3 := h3 _ _ _ _ hm2 (isSome_false_eq_none _ he2) hdr
          split at h
          · rename_i he
            simp only [Option.some.injEq] at h
            exact h ▸ h4 _ hm3 he
          · rename_i he
            simp only [Option.some.injEq] at h
            exact h ▸ h5 _ hm3 (isSome_false_eq_none _ he)

/-! ### The wait branch of the drain policy -/

theorem poll_wait_returns (zeros : Nat) (r : Int) (rest : List Int) (err : Option WorkErr)
    (hr : r ≠ 0) : poll_wait (List.replicate zeros 0 ++ r :: rest) err = some err := by
  induction zeros with
  | zero =>
    have h0 : ¬ (0 = r) := fun h => hr h.symm
    simp [poll_wait, h0]
  | succ n ih =>
    simp only [List.replicate_succ, List.cons_append, poll_wait, if_true]
    simpa using ih

theorem submit_phase_err (op : opts_t) (inp : IterIn) (s : WState) :
    (submit_phase op inp s).err = s.err ∨
    (submit_phase op inp s).err = some WorkErr.out_of_memory ∨
    (submit_phase op inp s).err = some WorkErr.start_sg3_cmd := by
  rcases submit_phase_cases op inp s with ⟨_, he⟩ | ⟨hc, ⟨_, he⟩ | ⟨s2, lbp, ha, he⟩⟩
  · rw [he]; exact Or.inl rfl
  · rw [he]; exact Or.inr (Or.inl rfl)
  · have hf := (acquire_buffer_fields op inp _ s2 lbp ha).2.2.2.2.2.2.2
    rw [he]
    rcases submit_cmd_cases op inp s2 lbp (choose_lba op inp) with h2 | h2 <;> rw [h2]
    · exact Or.inr (Or.inr rfl)
    · exact Or.inl hf

theorem finish_error_ne_poll (op : opts_t) (s : WState) :
    finish_error op s ≠ WorkErr.poll_wait_ms := by
  unfold finish_error
  split
  · split <;> simp
  · simp

theorem work_loop_no_poll_error (op : opts_t) (ins : List IterIn) (s s1 : WState)
    (h : s.err ≠ some WorkErr.poll_wait_ms) (hs : work_loop op ins s = some s1) :
    s1.err ≠ some WorkErr.poll_wait_ms := by
  refine work_loop_inv op (fun t => t.err ≠ some WorkErr.poll_wait_ms) ?_ ins s s1 h hs
  intro inp t t1 ht _ hi
  refine iteration_inv_ok op inp (fun t => t.err ≠ some WorkErr.poll_wait_ms)
    (fun t => t.err ≠ some WorkErr.poll_wait_ms)
    (fun t => t.err ≠ some WorkErr.poll_wait_ms) ?_ ?_ ?_ ?_ ?_ t t1 ht hi
  · intro u hu
    rcases submit_phase_err op inp u with h1 | h1 | h1 <;> rw [h1]
    · exact hu
    · simp
    · simp
  · intro u u1 hu _ hd
    rcases decide_phase_err op inp u u1 hd with h1 | h1 <;> rw [h1]
    · exact hu
    · simp
  · intro n j u u1 hu hn hd
    refine drain_loop_inv_ok op inp (fun t => t.err ≠ some WorkErr.poll_wait_ms)
      (fun _ _ h => h) ?_ ?_ n j u u1 hu hn hd
    · intro v pid eag _ _
      simp only [ne_eq, Option.some.injEq]
      exact finish_error_ne_poll op _
    · intro v pid eag _ hv
      rcases resolve_completion_cases op { v with pack_id := pid, thr_eagain_count := eag }
        with ⟨lbas, ⟨_, he⟩ | ⟨lbp, _, he⟩⟩ <;> rw [he]
      · simp [hv]
      · simp [hv]
  · exact fun u hu _ => hu
  · exact fun u hu _ => hu

/-- Claim C19: take an iteration in which, after the submission step, the queue
is full or injection is finished and `ioctl(SG_GET_NUM_WAITING)` reports no
response waiting.  Whatever `poll` returns, the choice of the drain count can
only leave `err` as it was and the drain count at 0.  Once `poll` has returned
a non-zero value (a negative one included, after any number of zeros) the
branch is left with `err` untouched, and if the submission step recorded no
error the iteration ends without error having read nothing, so the worker
goes on to its next iteration.  In no run of the loop is the text
"poll(wait_ms) failed" ever recorded. -/
theorem poll_failure_never_recorded (op : opts_t) (inp : IterIn) (s0 : WState) (nw : Int)
    (hfull : (submit_phase op inp s0).num_outstanding ≥ op.maxq_per_thread ∨
      (submit_phase op inp s0).k ≥ op.num_per_thread)
    (hnw : inp.num_waiting = some nw) (hnone : nw ≤ 0) :
    (∀ s1, decide_phase op inp (submit_phase op inp s0) = some s1 →
      s1.err = (submit_phase op inp s0).err ∧ s1.num_to_read = 0) ∧
    (∀ zeros r rest, r ≠ 0 → inp.polls = List.replicate zeros 0 ++ r :: rest →
      decide_phase op inp (submit_phase op inp s0) =
        some { submit_phase op inp s0 with num_to_read := 0 } ∧
      ((submit_phase op inp s0).err = none →
        iteration op inp s0 =
          some { submit_phase op inp s0 with
                 num_to_read := -1,
                 k := if (submit_phase op inp s0).do_inc ≠ 0 then (submit_phase op inp s0).k + 1
                      else (submit_phase op inp s0).k })) ∧
    (∀ ins t uniq, work_loop op ins (WState.init uniq) = some t →
      t.err ≠ some WorkErr.poll_wait_ms) := by
  have h1 : ¬ (1 = nw) := by omega
  have h2 : ¬ (nw > 0) := by omega
  generalize hS : submit_phase op inp s0 = S at hfull ⊢
  have hdec : decide_phase op inp S =
      match poll_wait inp.polls S.err with
      | none => none
      | some e => some { S with num_to_read := 0, err := e } := by
    unfold decide_phase
    simp only [hfull, if_true, hnw, h1, if_false, h2]
  refine ⟨?_, ?_, ?_⟩
  · intro s1 hs1
    rw [hdec] at hs1
    split at hs1
    · exact absurd hs1 (by simp)
    · rename_i e hp
      simp only [Option.some.injEq] at hs1
      subst hs1
      exact ⟨poll_wait_err _ _ _ hp, rfl⟩
  · intro zeros r rest hr hpolls
    have hd : decide_phase op inp S = some { S with num_to_read := 0 } := by
      rw [hdec, hpolls, poll_wait_returns zeros r rest S.err hr]
    refine ⟨hd, ?_⟩
    intro hn
    simp only [iteration, hS, hn, Option.isSome_none, Bool.false_eq_true, if_false, hd,
      Int.toNat_zero, drain_loop, zero_sub]
  · intro ins t uniq ht
    exact work_loop_no_poll_error op ins _ t (by simp [WState.init]) ht

theorem poll_failure_never_recorded_witness :
    decide_phase opts_q2 { quiet with polls := [0, 0, -1] }
        (submit_phase opts_q2 { quiet with polls := [0, 0, -1] } queue_full_q2) =
      some { submit_phase opts_q2 { quiet with polls := [0, 0, -1] } queue_full_q2 with
             num_to_read := 0 } :=
  ((poll_failure_never_recorded opts_q2 { quiet with polls := [0, 0, -1] } queue_full_q2 0
    (by decide) rfl (by decide)).2.1 2 (-1) [] (by decide) rfl).1

/-! ### The shared id counter -/

theorem wrap32_id (x : Int) (h1 : -2147483648 ≤ x) (h2 : x < 2147483648) : wrap32 x = x := by
  unfold wrap32
  omega

theorem wrap32_add_wrap32 (x y : Int) : wrap32 (wrap32 x + y) = wrap32 (x + y) := by
  unfold wrap32
  omega

theorem issue_ids_from (who : List Nat) :
    ∀ c : Int, 0 ≤ c → c + who.length ≤ 2147483648 →
      (issue_ids who c).map Prod.snd = (List.range who.length).map (fun (i : Nat) => c + (i : Int)) := by
  induction who with
  | nil => intro c _ _; simp [issue_ids]
  | cons w rest ih =>
    intro c h0 h1
    simp only [List.length_cons, Nat.cast_add, Nat.cast_one] at h1
    simp only [issue_ids, fetch_add, List.map_cons, List.length_cons, List.range_succ_eq_map,
      List.map_map, Nat.cast_zero, add_zero, List.cons.injEq, true_and]
    cases rest with
    | nil => simp [issue_ids]
    | cons w2 rest2 =>
      simp only [List.length_cons, Nat.cast_add, Nat.cast_one] at h1
      have hw : wrap32 (c + 1) = c + 1 := wrap32_id _ (by omega) (by omega)
      rw [hw, ih (c + 1) (by omega) (by simp only [List.length_cons, Nat.cast_add, Nat.cast_one]; omega)]
      apply List.map_congr_left
      intro i _
      simp only [Function.comp, Nat.cast_succ]
      omega

theorem issue_ids_workers (who : List Nat) :
    ∀ c : Int, (issue_ids who c).map Prod.fst = who := by
  induction who with
  | nil => intro c; rfl
  | cons w rest ih => intro c; simp [issue_ids, ih]

/-- Claim C13: the shared counter starts at 1, and in every sequence of fewer
than 2^31 id allocations, whichever workers make them and in whatever order,
the i-th id issued is i; hence the ids are positive, strictly increasing in
issuance order and pairwise distinct.  A worker's submission step obtains its
id by exactly this operation on the counter as other workers have left it. -/
theorem ids_are_sequence_numbers (who : List Nat) (hlen : who.length < 2147483648) :
    Shared.init.uniq_pack_id = 1 ∧
    (issue_ids who Shared.init.uniq_pack_id).map Prod.fst = who ∧
    (issue_ids who Shared.init.uniq_pack_id).map Prod.snd =
      (List.range who.length).map (fun (i : Nat) => (i : Int) + 1) ∧
    (∀ id ∈ (issue_ids who Shared.init.uniq_pack_id).map Prod.snd, 0 < id) ∧
    ((issue_ids who Shared.init.uniq_pack_id).map Prod.snd).Pairwise (fun a b => a < b) ∧
    ((issue_ids who Shared.init.uniq_pack_id).map Prod.snd).Nodup ∧
    (∀ (inp : IterIn) (s : WState),
      (with_new_id inp s).pack_id =
        (fetch_add (wrap32 (s.uniq_pack_id + inp.other_fetch_adds)) 1).1 ∧
      (with_new_id inp s).uniq_pack_id =
        (fetch_add (wrap32 (s.uniq_pack_id + inp.other_fetch_adds)) 1).2) := by
  have hids := issue_ids_from who 1 (by omega) (by omega)
  have hform : (issue_ids who Shared.init.uniq_pack_id).map Prod.snd =
      (List.range who.length).map (fun (i : Nat) => (i : Int) + 1) := by
    rw [show Shared.init.uniq_pack_id = 1 from rfl, hids]
    apply List.map_congr_left
    intro i _
    omega
  refine ⟨rfl, issue_ids_workers who _, hform, ?_, ?_, ?_, fun inp s => ⟨rfl, rfl⟩⟩
  · intro id hid
    rw [hform] at hid
    simp only [List.mem_map, List.mem_range] at hid
    obtain ⟨i, _, rfl⟩ := hid
    omega
  · rw [hform, List.pairwise_map]
    refine (List.pairwise_lt_range _).imp ?_
    intro a b hab
    omega
  · rw [hform]
    refine (List.nodup_range _).map ?_
    intro a b hab
    simp only at hab
    omega

theorem ids_are_sequence_numbers_witness :
    (issue_ids [0, 1, 1, 0, 2] Shared.init.uniq_pack_id).map Prod.snd =
      (List.range [0, 1, 1, 0, 2].length).map (fun (i : Nat) => (i : Int) + 1) :=
  (ids_are_sequence_numbers [0, 1, 1, 0, 2] (by decide)).2.2.1

/-! ### The buffer pool seen as acquire and release -/

theorem resolve_completion_releases (op : opts_t) (s : WState) (lbp : Nat)
    (h : map_find s.pi_2_buff s.pack_id = some lbp) :
    (resolve_completion op s).free_lst = (release_buffer s lbp).free_lst := by
  rcases resolve_completion_cases op s with ⟨lbas, ⟨hn, _⟩ | ⟨lbp2, hf, he⟩⟩
  · rw [hn] at h; exact absurd h (by simp)
  · rw [hf] at h
    simp only [Option.some.injEq] at h
    subst h
    rw [he]
    rfl

theorem release_all_free_lst (bufs : List Nat) (hnz : ∀ b ∈ bufs, b ≠ 0) :
    ∀ s : WState, release_all s bufs = { s with free_lst := bufs.reverse ++ s.free_lst } := by
  induction bufs with
  | nil => intro s; simp [release_all]
  | cons b rest ih =>
    intro s
    have hb : b ≠ 0 := hnz b (List.mem_cons_self _ _)
    rw [release_all, ih (fun x hx => hnz x (List.mem_cons_of_mem _ hx))]
    simp [release_buffer, hb]

theorem acquire_buffer_from_pool (op : opts_t) (inp : IterIn) (s : WState) (pool : List Nat)
    (b : Nat) (hrw : is_rw op = true) (hfree : s.free_lst = pool ++ [b]) :
    acquire_buffer op inp s = some ({ s with free_lst := pool }, b) := by
  unfold acquire_buffer
  simp [hrw, hfree]

theorem acquire_n_from_pool (op : opts_t) (hrw : is_rw op = true) (bufs : List Nat) :
    ∀ (inps : List IterIn) (s : WState) (pool : List Nat), inps.length = bufs.length →
      s.free_lst = pool ++ bufs.reverse →
      acquire_n op inps s = some ({ s with free_lst := pool }, bufs) := by
  induction bufs with
  | nil =>
    intro inps s pool hl hfree
    have : inps = [] := List.length_eq_zero.mp hl
    subst this
    simp only [List.reverse_nil, List.append_nil] at hfree
    simp [acquire_n, ← hfree]
  | cons b rest ih =>
    intro inps s pool hl hfree
    cases inps with
    | nil => simp at hl
    | cons inp inps2 =>
      simp only [List.length_cons, add_left_inj] at hl
      have hfree2 : s.free_lst = (pool ++ rest.reverse) ++ [b] := by
        rw [hfree]; simp
      rw [acquire_n, acquire_buffer_from_pool op inp s _ b hrw hfree2]
      simp only
      rw [ih inps2 { s with free_lst := pool ++ rest.reverse } pool hl rfl]

theorem acquire_n_allocates (op : opts_t) (hrw : is_rw op = true) :
    ∀ (inps : List IterIn) (s : WState), s.free_lst = [] → (∀ inp ∈ inps, inp.heap ≠ 0) →
      acquire_n op inps s =
        some ({ s with allocated := (inps.map IterIn.heap).reverse ++ s.allocated },
              inps.map IterIn.heap) := by
  intro inps
  induction inps with
  | nil => intro s _ _; simp [acquire_n]
  | cons inp rest ih =>
    intro s hfree hnz
    have hh : inp.heap ≠ 0 := hnz inp (List.mem_cons_self _ _)
    have ha : acquire_buffer op inp s =
        some ({ s with allocated := inp.heap :: s.allocated }, inp.heap) := by
      unfold acquire_buffer
      simp [hrw, hfree, hh]
    rw [acquire_n, ha]
    simp only
    rw [ih { s with allocated := inp.heap :: s.allocated } hfree
      (fun x hx => hnz x (List.mem_cons_of_mem _ hx))]
    simp
theorem submit_phase_alloc_in_use (op : opts_t) (inp : IterIn) (s : WState)
    (hc : calls_allocator op s = true) (hh : inp.heap ≠ 0) :
    in_use (submit_phase op inp s) = s.allocated.length + 1 := by
  simp only [calls_allocator, Bool.and_eq_true, decide_eq_true_eq, List.isEmpty_iff] at hc
  obtain ⟨⟨⟨h1, h2⟩, hrw⟩, hfree⟩ := hc
  have ha : acquire_buffer op inp (with_new_id inp { s with do_inc := 0 }) =
      some ({ with_new_id inp { s with do_inc := 0 } with allocated := inp.heap :: s.allocated },
        inp.heap) := by
    unfold acquire_buffer
    simp [hrw, with_new_id, hfree, hh]
  have hs : submit_phase op inp s = submit_cmd op inp
      { with_new_id inp { s with do_inc := 0 } with allocated := inp.heap :: s.allocated }
      inp.heap (choose_lba op inp) := by
    unfold submit_phase
    simp only [h1, h2, and_self, if_true, ha]
  rw [hs]
  rcases submit_cmd_cases op inp _ inp.heap (choose_lba op inp) with h | h <;> rw [h] <;>
    simp [in_use, with_new_id, hfree]

theorem work_loop_allocated_le_peak (op : opts_t) (ins : List IterIn) :
    ∀ s s1, work_loop op ins s = some s1 →
      s1.allocated.length ≤ max s.allocated.length (peak_in_use op ins s) := by
  induction ins with
  | nil =>
    intro s s1 h
    simp only [work_loop, Option.some.injEq] at h
    subst h
    exact le_max_left _ _
  | cons inp rest ih =>
    intro s s1 h
    simp only [work_loop] at h
    split at h
    · simp only [Option.some.injEq] at h
      subst h
      exact le_max_left _ _
    · rename_i hex
      split at h
      · exact absurd h (by simp)
      · rename_i s2 hi
        have h2 := ih s2 s1 h
        have hp : peak_in_use op (inp :: rest) s =
            max (in_use s) (max (in_use (submit_phase op inp s)) (peak_in_use op rest s2)) := by
          simp only [peak_in_use, hex, hi]
          simp
        rw [hp]
        rcases iteration_allocated op inp s s2 hi with h3 | ⟨hcall, hh, h3⟩
        · rw [h3] at h2
          omega
        · have h4 := submit_phase_alloc_in_use op inp s hcall hh
          rw [h3, List.length_cons] at h2
          omega

theorem work_loop_allocated_le_q (op : opts_t) (hq : 0 ≤ op.maxq_per_thread) (uniq : Int)
    (ins : List IterIn) (s : WState) (hs : work_loop op ins (WState.init uniq) = some s) :
    (s.allocated.length : Int) ≤ op.maxq_per_thread := by
  have h := work_loop_inv op
    (fun t => pool_count op t ∧ (t.allocated.length : Int) ≤ op.maxq_per_thread) ?_ ins _ s ?_ hs
  · exact h.2
  · intro inp t t1 ⟨hp, hle⟩ hn hi
    refine ⟨iteration_pool op inp t t1 hp hi, ?_⟩
    rcases iteration_allocated op inp t t1 hi with h3 | ⟨hcall, _, h3⟩
    · rw [h3]; exact hle
    · simp only [calls_allocator, Bool.and_eq_true, decide_eq_true_eq,
        List.isEmpty_iff] at hcall
      obtain ⟨⟨⟨h1, _⟩, hrw⟩, hfree⟩ := hcall
      obtain ⟨_, _, hcnt⟩ := hp
      obtain ⟨h5, h6⟩ := hcnt hn
      have h7 := (h6 hrw).2
      rw [hfree] at h7
      rw [h3]
      simp only [List.length_cons, List.length_nil, Nat.cast_add, Nat.cast_one,
        Nat.cast_zero] at h7 ⊢
      omega
  · refine ⟨⟨by simp [WState.init], fun _ => rfl, fun _ => ⟨rfl, fun _ => ?_⟩⟩, ?_⟩
    · simp [WState.init]
    · simpa [WState.init] using hq

theorem acquire_n_nonzero (op : opts_t) (hrw : is_rw op = true) :
    ∀ (inps : List IterIn) (s s1 : WState) (bufs : List Nat), 0 ∉ s.free_lst →
      acquire_n op inps s = some (s1, bufs) → ∀ b ∈ bufs, b ≠ 0 := by
  intro inps
  induction inps with
  | nil =>
    intro s s1 bufs _ h
    simp only [acquire_n, Option.some.injEq, Prod.mk.injEq] at h
    intro b hb
    rw [← h.2] at hb
    exact absurd hb (by simp)
  | cons inp rest ih =>
    intro s s1 bufs hz h
    simp only [acquire_n] at h
    split at h
    · exact absurd h (by simp)
    · rename_i t lbp ha
      split at h
      · exact absurd h (by simp)
      · rename_i t2 bufs2 hn
        simp only [Option.some.injEq, Prod.mk.injEq] at h
        have hz2 : 0 ∉ t.free_lst ∧ lbp ≠ 0 := by
          rcases acquire_buffer_cases op inp s t lbp ha with
            ⟨h1, _, _⟩ | ⟨_, _, hne, hl, h2⟩ | ⟨_, hfree, h2⟩
          · rw [hrw] at h1; exact absurd h1 (by simp)
          · subst h2; subst hl; exact ⟨hz, hne⟩
          · subst h2
            refine ⟨fun hm => hz (mem_dropLast_of_mem hm), ?_⟩
            intro hl
            apply hz
            rw [hfree, hl]
            simp
        intro b hb
        rw [← h.2] at hb
        rcases List.mem_cons.mp hb with hb | hb
        · rw [hb]; exact hz2.2
        · exact ih t t2 bufs2 hz2.1 hn b hb

theorem acquire_n_length (op : opts_t) :
    ∀ (inps : List IterIn) (s s1 : WState) (bufs : List Nat),
      acquire_n op inps s = some (s1, bufs) → bufs.length = inps.length := by
  intro inps
  induction inps with
  | nil =>
    intro s s1 bufs h
    simp only [acquire_n, Option.some.injEq, Prod.mk.injEq] at h
    rw [← h.2]
    rfl
  | cons inp rest ih =>
    intro s s1 bufs h
    simp only [acquire_n] at h
    split at h
    · exact absurd h (by simp)
    · rename_i t lbp ha
      split at h
      · exact absurd h (by simp)
      · rename_i t2 bufs2 hn
        simp only [Option.some.injEq, Prod.mk.injEq] at h
        rw [← h.2, List.length_cons, List.length_cons, ih t t2 bufs2 hn]

theorem acquire_n_no_alloc (op : opts_t) :
    ∀ (inps : List IterIn) (s : WState), (is_rw op = true → inps.length ≤ s.free_lst.length) →
      ∃ s2 bufs2, acquire_n op inps s = some (s2, bufs2) ∧ bufs2.length = inps.length ∧
        s2.allocated = s.allocated := by
  intro inps
  induction inps with
  | nil => intro s _; exact ⟨s, [], rfl, rfl, rfl⟩
  | cons inp rest ih =>
    intro s hlen
    cases hrw : is_rw op with
    | false =>
      have ha : acquire_buffer op inp s = some (s, 0) := by
        unfold acquire_buffer
        simp [hrw]
      obtain ⟨s2, bufs2, h1, h2, h3⟩ := ih s (fun h => by rw [hrw] at h; exact absurd h (by simp))
      exact ⟨s2, 0 :: bufs2, by simp [acquire_n, ha, h1], by simp [h2], h3⟩
    | true =>
      have hl := hlen hrw
      have hne : s.free_lst ≠ [] := by
        intro h
        rw [h] at hl
        simp at hl
      have ha := acquire_buffer_from_pool op inp s s.free_lst.dropLast
        (s.free_lst.getLast hne) hrw (List.dropLast_append_getLast hne).symm
      obtain ⟨s2, bufs2, h1, h2, h3⟩ := ih { s with free_lst := s.free_lst.dropLast } (by
        intro _
        simp only [List.length_dropLast]
        simp only [List.length_cons] at hl
        omega)
      exact ⟨s2, s.free_lst.getLast hne :: bufs2, by simp [acquire_n, ha, h1], by simp [h2], h3⟩

/-- Claim C11: in a run of the loop from its initial state with a queue bound
that is not negative, (1) an iteration obtains a block from the allocator
only if the free list is empty when the iteration starts, and then exactly
one; (2) the number of blocks obtained from the allocator is at most the
largest number of blocks that were at one time acquired and not yet released
(counted at the head of each iteration and after each submission step);
(3) it is at most the queue bound `maxq_per_thread`; and (4) after any
sequence of acquisitions whose buffers are then all released, as many
acquisitions again succeed without a call of the allocator. -/
theorem pool_reuse (op : opts_t) (hq : 0 ≤ op.maxq_per_thread) (uniq : Int)
    (ins : List IterIn) (s : WState) (hs : work_loop op ins (WState.init uniq) = some s) :
    (∀ inp t t1, iteration op inp t = some t1 → t1.allocated ≠ t.allocated →
      t.free_lst = [] ∧ t1.allocated = inp.heap :: t.allocated) ∧
    s.allocated.length ≤ peak_in_use op ins (WState.init uniq) ∧
    (s.allocated.length : Int) ≤ op.maxq_per_thread ∧
    (∀ inps1 inps2 t t1 bufs, 0 ∉ t.free_lst → inps2.length = inps1.length →
      acquire_n op inps1 t = some (t1, bufs) →
      ∃ t2 bufs2, acquire_n op inps2 (release_all t1 bufs) = some (t2, bufs2) ∧
        bufs2.length = inps1.length ∧ t2.allocated = t1.allocated) := by
  refine ⟨?_, ?_, work_loop_allocated_le_q op hq uniq ins s hs, ?_⟩
  · intro inp t t1 hi hne
    rcases iteration_allocated op inp t t1 hi with h | ⟨hcall, _, h⟩
    · exact absurd h hne
    · simp only [calls_allocator, Bool.and_eq_true, List.isEmpty_iff] at hcall
      exact ⟨hcall.2, h⟩
  · have h := work_loop_allocated_le_peak op ins _ s hs
    simpa [WState.init] using h
  · intro inps1 inps2 t t1 bufs hz hlen ha
    have hl := acquire_n_length op inps1 t t1 bufs ha
    have h2 : is_rw op = true → inps2.length ≤ (release_all t1 bufs).free_lst.length := by
      intro hrw
      rw [release_all_free_lst bufs (acquire_n_nonzero op hrw inps1 t t1 bufs hz ha)]
      simp only [List.length_append, List.length_reverse]
      omega
    obtain ⟨t2, bufs2, h3, h4, h5⟩ := acquire_n_no_alloc op inps2 (release_all t1 bufs) h2
    refine ⟨t2, bufs2, h3, by omega, ?_⟩
    rw [h5]
    cases hrw : is_rw op with
    | true =>
      rw [release_all_free_lst bufs (acquire_n_nonzero op hrw inps1 t t1 bufs hz ha)]
    | false =>
      have hrel : ∀ (l : List Nat) (u : WState), (release_all u l).allocated = u.allocated := by
        intro l
        induction l with
        | nil => intro u; rfl
        | cons b rest ih => intro u; rw [release_all, ih]; rfl
      exact hrel bufs t1

theorem pool_reuse_witness :
    ([8192, 4096] : List Nat).length ≤ peak_in_use opts_read read_submits (WState.init 1) ∧
    ((([8192, 4096] : List Nat).length : Nat) : Int) ≤ 16 :=
  have h := pool_reuse opts_read (by decide) 1 read_submits read_mid work_loop_read_mid
  ⟨h.2.1, h.2.2.1⟩

/-- Claim C12, refuted as stated: a worker with a queue of two submits the ids
1 and 2 with the blocks 4096 and 8192 and then reads both responses, id 1
first, so that 8192 is the block released last and sits at the front of the
free list `[8192, 4096]`.  The next submission (id 3) is given 4096, the block
released first, and 8192 stays in the free list. -/
theorem fifo_counterexample :
    (work_loop opts_fifo (fifo_run.take 2) (WState.init 1)).map (fun t => t.free_lst)
      = some [8192, 4096] ∧
    (work_loop opts_fifo fifo_run (WState.init 1)).map
        (fun t => (t.pi_2_buff, t.free_lst, t.allocated))
      = some ([(3, 4096)], [8192], [8192, 4096]) := by
  constructor <;>
  simp [work_loop, iteration, submit_phase, with_new_id, acquire_buffer,
    decide_phase, drain_loop, exited, loop_cond, submit_cmd, start_sg3_cmd, start_sg3_cmd_from,
    fifo_run, quiet, waiting, write_ok, opts_fifo, opts_default,
    WState.init, wrap32, is_rw, map_assign, map_erase, map_find, choose_lba,
    has_ruip, finish_sg3_cmd, resolve_completion, MAX_Q_PER_FD, DEF_NUM_PER_THREAD]

/-- Claim C12, amended: a released buffer is pushed to the front of the free
list, and whenever the free list is non-empty the next acquisition hands out
the buffer at its back, which is the one released earliest among those in the
list.  Hence the buffers come back first in, first out: after the buffers
`bufs` are released in this order, acquisitions hand out the former content of
the free list from its back and then `bufs` in the order of their release. -/
theorem pool_is_fifo (op : opts_t) (inp : IterIn) (s : WState) (hrw : is_rw op = true) :
    (∀ lbp, map_find s.pi_2_buff s.pack_id = some lbp → lbp ≠ 0 →
      (resolve_completion op s).free_lst = lbp :: s.free_lst) ∧
    (∀ pool b, s.free_lst = pool ++ [b] →
      acquire_buffer op inp s = some ({ s with free_lst := pool }, b)) ∧
    (∀ bufs inps, (∀ b ∈ bufs, b ≠ 0) → inps.length = s.free_lst.length + bufs.length →
      acquire_n op inps (release_all s bufs) =
        some ({ s with free_lst := [] }, s.free_lst.reverse ++ bufs)) := by
  refine ⟨?_, ?_, ?_⟩
  · intro lbp hf hne
    rw [resolve_completion_releases op s lbp hf]
    simp [release_buffer, hne]
  · intro pool b hfree
    exact acquire_buffer_from_pool op inp s pool b hrw hfree
  · intro bufs inps hnz hlen
    rw [release_all_free_lst bufs hnz]
    rw [acquire_n_from_pool op hrw (s.free_lst.reverse ++ bufs) inps _ [] (by simpa using hlen)
      (by simp)]

theorem pool_is_fifo_witness :
    acquire_n opts_read [quiet, quiet] (release_all read_mid [4096, 8192]) =
      some ({ read_mid with free_lst := [] }, read_mid.free_lst.reverse ++ [4096, 8192]) :=
  (pool_is_fifo opts_read quiet read_mid (by decide)).2.2 [4096, 8192] [quiet, quiet]
    (by decide) (by decide)

/-! ### The correlation table and the ids in flight -/

theorem map_erase_keys {α : Type} (m : List (Int × α)) (key : Int) :
    (map_erase m key).map Prod.fst = (m.map Prod.fst).filter (fun k => decide (k ≠ key)) := by
  induction m with
  | nil => rfl
  | cons a rest ih =>
    obtain ⟨k, v⟩ := a
    by_cases hk : k = key
    · simp [map_erase, hk, ih]
    · simp [map_erase, hk, ih]

theorem map_erase_of_not_mem {α : Type} (m : List (Int × α)) (key : Int)
    (h : key ∉ m.map Prod.fst) : map_erase m key = m := by
  induction m with
  | nil => rfl
  | cons a rest ih =>
    obtain ⟨k, v⟩ := a
    simp only [List.map_cons, List.mem_cons, not_or] at h
    have hk : ¬ k = key := fun e => h.1 e.symm
    simp only [map_erase, hk, if_false, ih h.2]

theorem map_find_key_mem {α : Type} (m : List (Int × α)) (key : Int) (v : α)
    (h : map_find m key = some v) : key ∈ m.map Prod.fst :=
  List.mem_map.mpr ⟨(key, v), map_find_mem m key v h, rfl⟩

theorem nodup_filter_ne_length (l : List Int) (a : Int) (hn : l.Nodup) (ha : a ∈ l) :
    (l.filter (fun k => decide (k ≠ a))).length + 1 = l.length := by
  induction l with
  | nil => exact absurd ha (by simp)
  | cons x xs ih =>
    obtain ⟨hx, hxs⟩ := List.nodup_cons.mp hn
    by_cases hxa : x = a
    · subst hxa
      have hall : xs.filter (fun k => decide (k ≠ x)) = xs := by
        apply List.filter_eq_self.mpr
        intro b hb
        simp only [ne_eq, decide_eq_true_eq]
        intro hbx
        exact hx (hbx ▸ hb)
      rw [List.filter_cons_of_neg (by simp), hall, List.length_cons]
    · have ha2 : a ∈ xs := by
        rcases List.mem_cons.mp ha with h | h
        · exact absurd h.symm hxa
        · exact h
      have h3 := ih hxs ha2
      rw [List.filter_cons_of_pos (by simpa using hxa), List.length_cons, List.length_cons, h3]

theorem submit_phase_table (op : opts_t) (inp : IterIn) (s : WState) (sub done : List Int)
    (h : table_inv sub done s) (hn : s.err = none)
    (hnd : (sub ++ iteration_issued op inp s).Nodup) :
    table_inv (sub ++ iteration_issued op inp s) done (submit_phase op inp s) := by
  obtain ⟨hk, hmem, hdone, hlen, hno⟩ := h hn
  rcases submit_phase_cases op inp s with ⟨hc, he⟩ | ⟨hc, ⟨_, he⟩ | ⟨s2, lbp, ha, he⟩⟩
  · rw [he]
    simp only [iteration_issued, hc, if_false, List.append_nil]
    intro _
    exact ⟨hk, hmem, hdone, hlen, hno⟩
  · rw [he]
    intro hn2
    simp at hn2
  · obtain ⟨f1, f2, f3, f4, f5, f6, f7, f8⟩ := acquire_buffer_fields op inp _ s2 lbp ha
    simp only [with_new_id] at f1 f2 f3 f4 f5 f6 f7 f8
    have hiss : iteration_issued op inp s =
        [wrap32 (s.uniq_pack_id + inp.other_fetch_adds)] := by
      simp only [iteration_issued, hc, and_self, if_true, with_new_id]
    rw [hiss] at hnd ⊢
    have hp : wrap32 (s.uniq_pack_id + inp.other_fetch_adds) ∉ sub := by
      intro hin
      have := List.disjoint_of_nodup_append hnd hin
      simp at this
    rw [he]
    rcases submit_cmd_cases op inp s2 lbp (choose_lba op inp) with h2 | h2 <;> rw [h2]
    · intro hn2
      simp at hn2
    · intro _
      have hnk : wrap32 (s.uniq_pack_id + inp.other_fetch_adds) ∉ s.pi_2_buff.map Prod.fst :=
        fun hin => hp ((hmem _).mp hin).1
      simp only [table_ids, f7, f4, f2, f5, f6, map_assign, map_erase_of_not_mem _ _ hnk,
        List.map_cons, List.length_cons]
      refine ⟨List.nodup_cons.mpr ⟨hnk, hk⟩, ?_, ?_, ?_, ?_⟩
      · intro id
        simp only [List.mem_cons, List.mem_append, List.not_mem_nil, or_false]
        constructor
        · rintro (h3 | h3)
          · exact ⟨Or.inr h3, fun hd => hp (h3 ▸ hdone id hd)⟩
          · exact ⟨Or.inl ((hmem id).mp h3).1, ((hmem id).mp h3).2⟩
        · rintro ⟨h3 | h3, h4⟩
          · exact Or.inr ((hmem id).mpr ⟨h3, h4⟩)
          · exact Or.inl h3
      · intro id hd
        exact List.mem_append_left _ (hdone id hd)
      · push_cast
        omega
      · omega

theorem resolve_completion_table (op : opts_t) (s : WState) (pid : Int) (eag : Nat)
    (sub done : List Int) (h : table_inv sub done s) (hn : s.err = none) :
    table_inv sub (done ++ [pid])
      (resolve_completion op { s with pack_id := pid, thr_eagain_count := eag }) := by
  obtain ⟨hk, hmem, hdone, hlen, hno⟩ := h hn
  rcases resolve_completion_cases op { s with pack_id := pid, thr_eagain_count := eag } with
    ⟨lbas, ⟨_, he⟩ | ⟨lbp, hf, he⟩⟩ <;> rw [he]
  · intro hn2
    simp [hn] at hn2
  · intro _
    have hin : pid ∈ s.pi_2_buff.map Prod.fst := map_find_key_mem _ _ _ hf
    have hl := nodup_filter_ne_length _ pid hk hin
    have hl2 : (map_erase s.pi_2_buff pid).length + 1 = s.pi_2_buff.length := by
      have h5 := congrArg List.length (map_erase_keys s.pi_2_buff pid)
      simp only [List.length_map] at h5
      rw [h5]
      simpa [table_ids] using hl
    simp only [table_ids, map_erase_keys]
    refine ⟨hk.filter _, ?_, ?_, ?_, ?_⟩
    · intro id
      simp only [List.mem_filter, decide_eq_true_eq, List.mem_append, List.mem_singleton,
        not_or]
      constructor
      · rintro ⟨h3, h4⟩
        exact ⟨((hmem id).mp h3).1, ((hmem id).mp h3).2, h4⟩
      · rintro ⟨h3, h4, h5⟩
        exact ⟨(hmem id).mpr ⟨h3, h4⟩, h5⟩
    · intro id hd
      rcases List.mem_append.mp hd with h3 | h3
      · exact hdone id h3
      · rw [List.mem_singleton.mp h3]
        exact ((hmem pid).mp hin).1
    · omega
    · omega

theorem drain_loop_table (op : opts_t) (inp : IterIn) (sub : List Int) :
    ∀ n j s s1 done, table_inv sub done s → s.err = none →
      drain_loop op inp n j s = some s1 →
      table_inv sub (done ++ drain_ids op inp n j s) s1 := by
  intro n
  induction n with
  | zero =>
    intro j s s1 done hP _ h
    simp only [drain_loop, Option.some.injEq] at h
    subst h
    simpa [drain_ids] using hP
  | succ n ih =>
    intro j s s1 done hP hn h
    simp only [drain_loop] at h
    split at h
    · exact absurd h (by simp)
    · rename_i ret pid eag hfin
      split at h
      · simp only [Option.some.injEq] at h
        subst h
        intro hn2
        simp at hn2
      · rename_i hret
        have hres := resolve_completion_table op { s with num_to_read := s.num_to_read - 1 }
          pid eag sub done hP hn
        split at h
        · rename_i he
          simp only [Option.some.injEq] at h
          subst h
          intro hn2
          rw [hn2] at he
          simp at he
        · rename_i he
          have h2 := ih _ _ _ _ hres (isSome_false_eq_none _ he) h
          simp only [drain_ids, hfin, hret, if_false, he]
          simpa [List.append_assoc] using h2

theorem iteration_table (op : opts_t) (inp : IterIn) (s s1 : WState) (sub done : List Int)
    (h : table_inv sub done s) (hn : s.err = none)
    (hnd : (sub ++ iteration_issued op inp s).Nodup)
    (hi : iteration op inp s = some s1) :
    table_inv (sub ++ iteration_issued op inp s) (done ++ iteration_completed op inp s) s1 := by
  have hm1 := submit_phase_table op inp s sub done h hn hnd
  have hvac : ∀ (t : WState) (l1 l2 : List Int), t.err.isSome = true → table_inv l1 l2 t := by
    intro t l1 l2 he hn2
    rw [hn2] at he
    simp at he
  simp only [iteration] at hi
  split at hi
  · rename_i he
    simp only [Option.some.injEq] at hi
    exact hi ▸ hvac _ _ _ he
  · rename_i he1
    split at hi
    · exact absurd hi (by simp)
    · rename_i s2 hd
      obtain ⟨n, e, hs2⟩ := decide_phase_keeps op inp _ s2 hd
      split at hi
      · rename_i he
        simp only [Option.some.injEq] at hi
        exact hi ▸ hvac _ _ _ he
      · rename_i he2
        have hm2 : table_inv (sub ++ iteration_issued op inp s) done s2 := by
          intro _
          have h3 := hm1 (isSome_false_eq_none _ he1)
          rw [hs2]
          exact h3
        split at hi
        · exact absurd hi (by simp)
        · rename_i s3 hdr
          have hm3 := drain_loop_table op inp _ _ _ _ _ done hm2 (isSome_false_eq_none _ he2) hdr
          have hcomp : iteration_completed op inp s = drain_ids op inp s2.num_to_read.toNat 0 s2 := by
            simp only [iteration_completed, he1, hd, he2]
            simp
          rw [hcomp]
          split at hi
          · rename_i he
            simp only [Option.some.injEq] at hi
            exact hi ▸ hvac _ _ _ he
          · rename_i he
            simp only [Option.some.injEq] at hi
            subst hi
            intro _
            exact hm3 (isSome_false_eq_none _ he)

theorem work_loop_table (op : opts_t) (ins : List IterIn) :
    ∀ s s1 sub done, table_inv sub done s → (sub ++ issued_ids op ins s).Nodup →
      work_loop op ins s = some s1 →
      table_inv (sub ++ issued_ids op ins s) (done ++ completed_ids op ins s) s1 := by
  induction ins with
  | nil =>
    intro s s1 sub done hP _ h
    simp only [work_loop, Option.some.injEq] at h
    subst h
    simpa [issued_ids, completed_ids] using hP
  | cons inp rest ih =>
    intro s s1 sub done hP hnd h
    simp only [work_loop] at h
    split at h
    · rename_i hex
      simp only [Option.some.injEq] at h
      subst h
      simpa [issued_ids, completed_ids, hex] using hP
    · rename_i hex
      split at h
      · exact absurd h (by simp)
      · rename_i s2 hi
        have hnone : s.err = none := by
          cases hs : s.err with
          | none => rfl
          | some e => simp [exited, hs] at hex
        have hiss : issued_ids op (inp :: rest) s =
            iteration_issued op inp s ++ issued_ids op rest s2 := by
          simp only [issued_ids, hex, hi]
          simp
        have hcom : completed_ids op (inp :: rest) s =
            iteration_completed op inp s ++ completed_ids op rest s2 := by
          simp only [completed_ids, hex, hi]
          simp
        rw [hiss, ← List.append_assoc] at hnd ⊢
        rw [hcom, ← List.append_assoc]
        exact ih s2 s1 _ _
          (iteration_table op inp s s2 sub done hP hnone (List.Nodup.of_append_left hnd) hi)
          hnd h

/-- Claim C18: take a run of the loop from its initial state in which the ids
the worker obtained from the shared counter are pairwise distinct.  At the
head of the loop, as long as no error is recorded (so at the start of every
iteration), the number of entries of `pi_2_buff` equals `num_outstanding`,
which equals `thr_async_starts - thr_async_finishes`; the table holds no id
twice, and an id is in the table exactly if the worker obtained (and
submitted) it and has not read its response. -/
theorem table_matches_outstanding (op : opts_t) (uniq : Int) (ins : List IterIn) (s : WState)
    (hs : work_loop op ins (WState.init uniq) = some s)
    (hdist : (issued_ids op ins (WState.init uniq)).Nodup)
    (hn : s.err = none) :
    (s.pi_2_buff.length : Int) = s.num_outstanding ∧
    s.num_outstanding = s.thr_async_starts - s.thr_async_finishes ∧
    (table_ids s).Nodup ∧
    (∀ id, id ∈ table_ids s ↔
      (id ∈ issued_ids op ins (WState.init uniq) ∧
       id ∉ completed_ids op ins (WState.init uniq))) := by
  have h0 : table_inv [] [] (WState.init uniq) := by
    intro _
    simp [table_ids, WState.init]
  have h := work_loop_table op ins _ s [] [] h0 (by simpa using hdist) hs hn
  simp only [List.nil_append] at h
  exact ⟨h.2.2.2.1, h.2.2.2.2, h.1, h.2.1⟩

theorem issued_ids_read :
    issued_ids opts_read read_submits (WState.init 1) = [1, 2] := by
  simp [issued_ids, iteration_issued, iteration, submit_phase, with_new_id, acquire_buffer,
    decide_phase, drain_loop, exited, loop_cond, submit_cmd, start_sg3_cmd, start_sg3_cmd_from,
    read_submits, quiet, write_ok, opts_read, opts_default, WState.init, wrap32, is_rw,
    map_assign, map_erase, choose_lba, has_ruip, poll_wait, MAX_Q_PER_FD,
    DEF_NUM_PER_THREAD]

theorem table_matches_outstanding_witness :
    (read_mid.pi_2_buff.length : Int) = read_mid.num_outstanding ∧
    read_mid.num_outstanding = read_mid.thr_async_starts - read_mid.thr_async_finishes :=
  have h := table_matches_outstanding opts_read 1 read_submits read_mid work_loop_read_mid
    (by rw [issued_ids_read]; decide) rfl
  ⟨h.1, h.2.1⟩

/-! ### main: starting and joining the workers -/

theorem iteration_issued_count (op : opts_t) (inp : IterIn) (s s1 : WState)
    (hi : iteration op inp s = some s1) (hn : s1.err = none) :
    s1.thr_async_starts = s.thr_async_starts + (iteration_issued op inp s).length := by
  have h := iteration_inv_ok op inp (fun t => t = s)
    (fun t => t.err = none →
      t.thr_async_starts = s.thr_async_starts + (iteration_issued op inp s).length)
    (fun t => t.err = none →
      t.thr_async_starts = s.thr_async_starts + (iteration_issued op inp s).length)
    ?_ ?_ ?_ ?_ ?_ s s1 rfl hi
  · exact h hn
  · intro t ht
    subst ht
    rcases submit_phase_cases op inp t with ⟨hc, he⟩ | ⟨hc, ⟨_, he⟩ | ⟨s2, lbp, ha, he⟩⟩
    · rw [he]
      intro _
      simp [iteration_issued, hc]
    · rw [he]
      intro h2
      simp at h2
    · obtain ⟨f1, f2, f3, f4, f5, f6, f7, f8⟩ := acquire_buffer_fields op inp _ s2 lbp ha
      simp only [with_new_id] at f1 f2 f3 f4 f5 f6 f7 f8
      rw [he]
      rcases submit_cmd_cases op inp s2 lbp (choose_lba op inp) with h2 | h2 <;> rw [h2]
      · intro h3
        simp at h3
      · intro _
        simp [iteration_issued, hc, f5]
  · intro t t1 ht htn hd
    obtain ⟨n, e, rfl⟩ := decide_phase_keeps op inp t t1 hd
    intro _
    exact ht htn
  · intro n j t t1 ht htn hd
    refine drain_loop_inv_ok op inp
      (fun u => u.err = none →
        u.thr_async_starts = s.thr_async_starts + (iteration_issued op inp s).length)
      (fun _ _ h => h) ?_ ?_ n j t t1 ht htn hd
    · intro u pid eag _ _ h2
      simp at h2
    · intro u pid eag hu hun _
      rcases resolve_completion_cases op { u with pack_id := pid, thr_eagain_count := eag }
        with ⟨lbas, ⟨_, he⟩ | ⟨lbp, _, he⟩⟩ <;> rw [he] <;> exact hu hun
  · exact fun t ht _ => ht
  · intro t ht htn _
    exact ht htn

theorem work_loop_issued_count (op : opts_t) (ins : List IterIn) :
    ∀ s s1, work_loop op ins s = some s1 → s1.err = none →
      s1.thr_async_starts = s.thr_async_starts + (issued_ids op ins s).length := by
  induction ins with
  | nil =>
    intro s s1 h _
    simp only [work_loop, Option.some.injEq] at h
    subst h
    simp [issued_ids]
  | cons inp rest ih =>
    intro s s1 h hn
    simp only [work_loop] at h
    split at h
    · rename_i hex
      simp only [Option.some.injEq] at h
      subst h
      simp [issued_ids, hex]
    · rename_i hex
      split at h
      · exact absurd h (by simp)
      · rename_i s2 hi
        have hiss : issued_ids op (inp :: rest) s =
            iteration_issued op inp s ++ issued_ids op rest s2 := by
          simp only [issued_ids, hex, hi]
          simp
        have h2 := ih s2 s1 h hn
        have hn2 : s2.err = none := by
          cases he : s2.err with
          | none => rfl
          | some e =>
            have hex2 : exited op s2 = true := by simp [exited, he]
            rw [work_loop_exited op s2 hex2 rest] at h
            simp only [Option.some.injEq] at h
            rw [← h, he] at hn
            exact absurd hn (by simp)
        have h3 := iteration_issued_count op inp s s2 hi hn2
        rw [hiss, List.length_append]
        push_cast
        omega

theorem successful_worker_ids (op : opts_t) (ins : List IterIn) (r : WorkResult)
    (hr : work_thread op Shared.init ins = some r) (hok : r.failed = false) :
    ((issued_ids op ins (WState.init Shared.init.uniq_pack_id)).length : Int) =
      r.final.thr_async_finishes ∧
    r.final.thr_async_starts = r.final.thr_async_finishes := by
  obtain ⟨s, hs, hex, rfl⟩ := work_thread_final op Shared.init ins r hr
  simp only [work_thread_exit, Bool.or_eq_false_iff, decide_eq_false_iff_not] at hok ⊢
  have herr : s.err = none := by
    cases he : s.err with
    | none => rfl
    | some e => simp [he] at hok
  have hcount := work_loop_issued_count op ins _ s hs herr
  have hpool := (work_loop_pool op ins _ s hs).2.2 herr
  simp only [exited, herr, Option.isSome_none, Bool.false_or, Bool.not_eq_true', loop_cond,
    Bool.or_eq_false_iff, decide_eq_false_iff_not, ne_eq, not_not] at hex
  have h0 : (WState.init Shared.init.uniq_pack_id).thr_async_starts = 0 := rfl
  rw [h0] at hcount
  constructor <;> omega

theorem join_worker_cases (op : opts_t) (sh sh1 : Shared) (env : ThreadEnv) (f : Bool)
    (h : join_worker op sh env = some (sh1, f)) :
    (env.sg_fd < 0 ∧ sh1 = sh ∧ f = true ∧ ids_taken op env = 0) ∨
    (∃ r, work_thread op Shared.init env.ins = some r ∧ f = r.failed ∧
      ids_taken op env = (issued_ids op env.ins (WState.init Shared.init.uniq_pack_id)).length ∧
      sh1.async_starts = wrap32 (sh.async_starts + r.final.thr_async_starts) ∧
      sh1.async_finishes = wrap32 (sh.async_finishes + r.final.thr_async_finishes) ∧
      sh1.uniq_pack_id = wrap32 (sh.uniq_pack_id + ids_taken op env)) := by
  unfold join_worker at h
  split at h
  · rename_i hfd
    simp only [Option.some.injEq, Prod.mk.injEq] at h
    exact Or.inl ⟨hfd, h.1.symm, h.2.symm, by simp [ids_taken, hfd]⟩
  · rename_i hfd
    split at h
    · exact absurd h (by simp)
    · rename_i r hr
      simp only [Option.some.injEq, Prod.mk.injEq] at h
      refine Or.inr ⟨r, hr, h.2.symm, by simp [ids_taken, hfd], ?_, ?_, ?_⟩ <;>
        rw [← h.1]

theorem join_all_ids (op : opts_t) (envs : List ThreadEnv) :
    ∀ sh sh1 fs, join_all op envs sh = some (sh1, fs) →
      wrap32 (sh1.uniq_pack_id - 1) =
        wrap32 (sh.uniq_pack_id - 1 + ((envs.map (ids_taken op)).sum : Nat)) ∧
      fs.length = envs.length := by
  induction envs with
  | nil =>
    intro sh sh1 fs h
    simp only [join_all, Option.some.injEq, Prod.mk.injEq] at h
    rw [← h.1, ← h.2]
    simp
  | cons env rest ih =>
    intro sh sh1 fs h
    simp only [join_all] at h
    split at h
    · exact absurd h (by simp)
    · rename_i sh2 f hj
      split at h
      · exact absurd h (by simp)
      · rename_i sh3 fs2 hrest
        simp only [Option.some.injEq, Prod.mk.injEq] at h
        obtain ⟨h1, h2⟩ := ih sh2 sh3 fs2 hrest
        rw [← h.1, ← h.2]
        refine ⟨?_, by simp [h2]⟩
        rw [h1]
        simp only [List.map_cons, List.sum_cons, Nat.cast_add]
        rcases join_worker_cases op sh sh2 env f hj with ⟨_, h3, _, h4⟩ | ⟨r, _, _, _, _, _, h3⟩
        · rw [h3, h4]
          simp
        · rw [h3]
          simp only [wrap32]
          omega

theorem join_all_success (op : opts_t) (envs : List ThreadEnv) :
    ∀ sh sh1 fs, join_all op envs sh = some (sh1, fs) → (∀ f ∈ fs, f = false) →
      wrap32 (sh1.uniq_pack_id - 1 - sh1.async_finishes) =
        wrap32 (sh.uniq_pack_id - 1 - sh.async_finishes) ∧
      wrap32 (sh1.async_starts - sh1.async_finishes) =
        wrap32 (sh.async_starts - sh.async_finishes) ∧
      (wrap32 sh.async_finishes = sh.async_finishes →
        wrap32 sh1.async_finishes = sh1.async_finishes) ∧
      (wrap32 sh.async_starts = sh.async_starts →
        wrap32 sh1.async_starts = sh1.async_starts) := by
  induction envs with
  | nil =>
    intro sh sh1 fs h _
    simp only [join_all, Option.some.injEq, Prod.mk.injEq] at h
    rw [← h.1]
    exact ⟨rfl, rfl, id, id⟩
  | cons env rest ih =>
    intro sh sh1 fs h hok
    simp only [join_all] at h
    split at h
    · exact absurd h (by simp)
    · rename_i sh2 f hj
      split at h
      · exact absurd h (by simp)
      · rename_i sh3 fs2 hrest
        simp only [Option.some.injEq, Prod.mk.injEq] at h
        rw [← h.2] at hok
        obtain ⟨h1, h2, h3, h4⟩ := ih sh2 sh3 fs2 hrest
          (fun x hx => hok x (List.mem_cons_of_mem _ hx))
        have hf : f = false := hok f (List.mem_cons_self _ _)
        rw [← h.1, h1, h2]
        rcases join_worker_cases op sh sh2 env f hj with
          ⟨_, _, h5, _⟩ | ⟨r, hr, hfr, hids, hs, hfin, hu⟩
        · rw [hf] at h5
          exact absurd h5 (by simp)
        · obtain ⟨h6, h7⟩ := successful_worker_ids op env.ins r hr (hfr ▸ hf)
          rw [← hids] at h6
          refine ⟨?_, ?_, ?_, ?_⟩
          · rw [hu, hfin]
            simp only [wrap32]
            omega
          · rw [hs, hfin]
            simp only [wrap32]
            omega
          · intro _
            apply h3
            rw [hfin]
            simp only [wrap32]
            omega
          · intro _
            apply h4
            rw [hs]
            simp only [wrap32]
            omega

theorem join_all_returns (op : opts_t) (envs : List ThreadEnv)
    (h : ∀ env ∈ envs, env.sg_fd < 0 ∨ (work_thread op Shared.init env.ins).isSome = true) :
    ∀ sh, (join_all op envs sh).isSome = true := by
  induction envs with
  | nil => intro sh; rfl
  | cons env rest ih =>
    intro sh
    have hw : ∃ sh1 f, join_worker op sh env = some (sh1, f) := by
      unfold join_worker
      rcases h env (List.mem_cons_self _ _) with h1 | h1
      · exact ⟨sh, true, by simp [h1]⟩
      · by_cases hfd : env.sg_fd < 0
        · exact ⟨sh, true, by simp [hfd]⟩
        · obtain ⟨r, hr⟩ := Option.isSome_iff_exists.mp h1
          simp only [hfd, if_false, hr]
          exact ⟨_, _, rfl⟩
    obtain ⟨sh1, f, hj⟩ := hw
    have h2 := ih (fun x hx => h x (List.mem_cons_of_mem _ hx)) sh1
    obtain ⟨p, hp⟩ := Option.isSome_iff_exists.mp h2
    simp [join_all, hj, hp]

theorem main_run_failing_workers :
    main_run opts_read failing_workers true 5000 = some failing_report := by
  simp [failing_report, main_run, join_all, join_worker, ids_taken, failing_workers, issued_ids,
    iteration_issued, work_thread, work_loop, iteration, submit_phase, with_new_id,
    acquire_buffer, decide_phase, drain_loop, exited, loop_cond, submit_cmd, start_sg3_cmd,
    start_sg3_cmd_from, leak_run, read_submits, quiet, write_ok, opts_read, opts_default,
    WState.init, Shared.init, wrap32, is_rw, map_assign, map_erase, map_find, choose_lba,
    has_ruip, work_thread_exit, free_all, MAX_Q_PER_FD, DEF_NUM_PER_THREAD]

theorem main_run_one_good_worker :
    main_run opts_read one_good_worker true 5000 = some good_report := by
  simp [good_report, main_run, join_all, join_worker, ids_taken, one_good_worker, issued_ids,
    iteration_issued, work_thread, work_loop, iteration, submit_phase, with_new_id,
    acquire_buffer, decide_phase, drain_loop, exited, loop_cond, submit_cmd, start_sg3_cmd,
    start_sg3_cmd_from, read_run, read_submits, quiet, waiting, write_ok, opts_read,
    opts_default, WState.init, Shared.init, wrap32, is_rw, map_assign, map_erase, map_find,
    choose_lba, has_ruip, finish_sg3_cmd, resolve_completion, work_thread_exit, free_all,
    MAX_Q_PER_FD, DEF_NUM_PER_THREAD]

/-- Claim C14, refuted as stated: two workers are started; the first cannot
open its device, the second stops on a failed `ioctl(SG_GET_NUM_WAITING)`
with two commands in flight.  Both print an error, yet `main` returns 0. -/
theorem failed_workers_counterexample :
    (main_run opts_read failing_workers true 5000).map (fun r => (r.exit_status, r.failed))
      = some (0, [true, true]) := by
  rw [main_run_failing_workers]
  rfl

/-- Claim C14, amended: once the workers have been started and no exception
is thrown, `main` returns as soon as every worker has returned, and the value
it returns is 0 whatever the outcome of the workers (one flag per worker
tells whether it printed an error; none of them enters the exit status). -/
theorem exit_status_after_start (op : opts_t) (envs : List ThreadEnv) (clock_ok : Bool)
    (elapsed_us : Int)
    (hret : ∀ env ∈ envs, env.sg_fd < 0 ∨ (work_thread op Shared.init env.ins).isSome = true) :
    ∃ r, main_run op envs clock_ok elapsed_us = some r ∧ r.exit_status = 0 ∧
      r.failed.length = envs.length := by
  obtain ⟨p, hp⟩ := Option.isSome_iff_exists.mp (join_all_returns op envs hret Shared.init)
  obtain ⟨sh, fs⟩ := p
  have hm : main_run op envs clock_ok elapsed_us =
      some { exit_status := 0
             time_line :=
               if wrap32 (sh.uniq_pack_id - 1) > 0 ∧ clock_ok = true ∧ elapsed_us > 1 then
                 some (wrap32 (sh.uniq_pack_id - 1))
               else none
             n := wrap32 (sh.uniq_pack_id - 1)
             sh := sh
             failed := fs } := by
    simp only [main_run, hp]
  exact ⟨_, hm, rfl, (join_all_ids op envs _ sh fs hp).2⟩

theorem exit_status_after_start_witness :
    ∃ r, main_run opts_read failing_workers true 5000 = some r ∧ r.exit_status = 0 ∧
      r.failed.length = failing_workers.length :=
  exit_status_after_start opts_read failing_workers true 5000 (by
    intro env henv
    simp only [failing_workers, List.mem_cons, List.mem_singleton, List.not_mem_nil,
      or_false] at henv
    rcases henv with h | h
    · left; rw [h]; decide
    · right
      rw [h]
      simp [work_thread, work_loop, iteration, submit_phase, with_new_id,
        acquire_buffer, decide_phase, drain_loop, exited, loop_cond, submit_cmd, start_sg3_cmd,
        start_sg3_cmd_from, leak_run, read_submits, quiet, write_ok, opts_read, opts_default,
        WState.init, Shared.init, wrap32, is_rw, map_assign, map_erase, map_find, choose_lba,
        has_ruip, work_thread_exit, free_all, MAX_Q_PER_FD, DEF_NUM_PER_THREAD])

/-- Claim C15, refuted as stated: a worker submits two READ(16) commands and
then stops on a failed `ioctl(SG_GET_NUM_WAITING)` before any response is
read (another worker cannot open its device).  `main` prints "Time to
complete 2 commands" while `async_finishes` is 0. -/
theorem unfinished_count_counterexample :
    (main_run opts_read failing_workers true 5000).map
        (fun r => (r.time_line, r.sh.async_finishes, r.sh.async_starts))
      = some (some 2, 0, 2) := by
  rw [main_run_failing_workers]
  rfl

/-- Claim C15, amended: after all workers have joined, the number that `main`
prints in "Time to complete %d commands" and divides by the elapsed time is
`n = uniq_pack_id - 1`, the number of ids handed out by the shared counter to
all workers, that is the number of submissions they attempted (as a 32 bit
`int`).  When every worker succeeded it equals the total of completed
commands `async_finishes`, and `async_starts` as well. -/
theorem reported_count (op : opts_t) (envs : List ThreadEnv) (clock_ok : Bool)
    (elapsed_us : Int) (r : MainReport)
    (h : main_run op envs clock_ok elapsed_us = some r) :
    (∀ x, r.time_line = some x → x = r.n) ∧
    r.n = wrap32 (r.sh.uniq_pack_id - 1) ∧
    r.n = wrap32 (((envs.map (ids_taken op)).sum : Nat)) ∧
    ((∀ f ∈ r.failed, f = false) →
      r.n = r.sh.async_finishes ∧ r.n = r.sh.async_starts) := by
  unfold main_run at h
  split at h
  · exact absurd h (by simp)
  · rename_i sh fs hj
    simp only [Option.some.injEq] at h
    subst h
    obtain ⟨h1, _⟩ := join_all_ids op envs _ sh fs hj
    refine ⟨?_, rfl, ?_, ?_⟩
    · intro x hx
      simp only at hx
      split at hx
      · simp only [Option.some.injEq] at hx
        exact hx.symm
      · exact absurd hx (by simp)
    · simp only
      rw [h1]
      simp [Shared.init]
    · intro hok
      obtain ⟨h2, h3, h4, h5⟩ := join_all_success op envs _ sh fs hj hok
      have h6 := h4 (by simp [Shared.init, wrap32])
      have h7 := h5 (by simp [Shared.init, wrap32])
      simp only [Shared.init, wrap32] at h2 h3
      simp only [wrap32] at h6 h7 ⊢
      constructor <;> omega

theorem reported_count_witness :
    good_report.n = wrap32 (((one_good_worker.map (ids_taken opts_read)).sum : Nat)) ∧
    good_report.n = good_report.sh.async_finishes :=
  have h := reported_count opts_read one_good_worker true 5000 good_report
    main_run_one_good_worker
  ⟨h.2.2.1, (h.2.2.2 (by decide)).1⟩

/-! ### main: the checks made before the workers are started -/

theorem memcmp_eq_zero : ∀ (n : Nat) (a b : List Nat),
    memcmp a b n = 0 ↔ (a.take n = b.take n ∧ n ≤ a.length ∧ n ≤ b.length) := by
  intro n
  induction n with
  | zero => intro a b; simp [memcmp]
  | succ n ih =>
    intro a b
    cases a with
    | nil => simp [memcmp]
    | cons x xs =>
      cases b with
      | nil => simp [memcmp]
      | cons y ys =>
        by_cases hxy : x = y
        · simp [memcmp, hxy, ih xs ys]
        · by_cases hlt : x < y
          · simp [memcmp, hxy, hlt]
          · simp [memcmp, hxy, hlt]

theorem do_inquiry_prod_id_ret (p : ProbeRes) (b b2 : List Nat) :
    (do_inquiry_prod_id p b).1 = (do_inquiry_prod_id p b2).1 := by
  unfold do_inquiry_prod_id
  split
  · rfl
  · split
    · rfl
    · split <;> rfl

theorem do_inquiry_prod_id_ok (p : ProbeRes) (b : List Nat)
    (h : (do_inquiry_prod_id p b).1 = 0) :
    (do_inquiry_prod_id p b).2 = product_id p ++ 0 :: b.drop 17 := by
  unfold do_inquiry_prod_id at h ⊢
  split
  · rename_i h1; simp [h1] at h
  · rename_i h1
    split
    · rename_i h2; simp [h1, h2] at h
    · rename_i h2
      split
      · rfl
      · rfl
      · rename_i c hc
        simp [h1, h2, hc] at h

theorem product_id_length (p : ProbeRes) : (product_id p).length = 16 := by
  simp [product_id]

theorem memcmp_product_id (p : ProbeRes) (b : List Nat)
    (h : (do_inquiry_prod_id p b).1 = 0) :
    memcmp scsi_debug_str (do_inquiry_prod_id p b).2 10 = 0 ↔
      (product_id p).take 10 = scsi_debug_str := by
  rw [do_inquiry_prod_id_ok p b h, memcmp_eq_zero]
  have hl := product_id_length p
  rw [List.take_append_of_le_length (by omega)]
  constructor
  · rintro ⟨h1, _, _⟩
    rw [← h1]
    rfl
  · intro h1
    refine ⟨?_, by simp [scsi_debug_str], ?_⟩
    · rw [h1]; rfl
    · simp only [List.length_append, hl]
      omega

theorem check_product_id_ok (d : DevEnv) (st st1 : CheckState)
    (h : check_product_id 0 d st = Except.ok st1) :
    (do_inquiry_prod_id d.inq st.b).1 = 0 ∧ (product_id d.inq).take 10 = scsi_debug_str ∧
      st1.hi_lbas = st.hi_lbas := by
  unfold check_product_id at h
  simp only [if_true] at h
  split at h
  · exact absurd h (by simp)
  · rename_i h1
    have h1 : (do_inquiry_prod_id d.inq st.b).1 = 0 := by simpa using h1
    split at h
    · exact absurd h (by simp)
    · rename_i h2
      have h2 : memcmp scsi_debug_str (do_inquiry_prod_id d.inq st.b).2 10 = 0 := by
        by_contra hne
        exact h2 (fun e => hne e.symm)
      simp only [Except.ok.injEq] at h
      refine ⟨h1, (memcmp_product_id d.inq st.b h1).mp h2, ?_⟩
      rw [← h]

theorem check_product_id_refuses (d : DevEnv) (st : CheckState) :
    check_product_id 0 d st = Except.error 2 ↔
      ((do_inquiry_prod_id d.inq st.b).1 = 0 ∧ (product_id d.inq).take 10 ≠ scsi_debug_str) := by
  unfold check_product_id
  simp only [if_true]
  by_cases h1 : (do_inquiry_prod_id d.inq st.b).1 = 0
  · have hm := memcmp_product_id d.inq st.b h1
    by_cases h2 : memcmp scsi_debug_str (do_inquiry_prod_id d.inq st.b).2 10 = 0
    · have h3 : ¬ (0 ≠ memcmp scsi_debug_str (do_inquiry_prod_id d.inq st.b).2 10) :=
        fun hne => hne h2.symm
      simp [h1, h3, hm.mp h2]
    · have h3 : 0 ≠ memcmp scsi_debug_str (do_inquiry_prod_id d.inq st.b).2 10 :=
        fun e => h2 e.symm
      have h4 : (product_id d.inq).take 10 ≠ scsi_debug_str := fun e => h2 (hm.mpr e)
      simp [h1, h3, h4]
  · simp [h1]

theorem check_capacity_cases (op : opts_t) (d : DevEnv) (st : CheckState) :
    check_capacity op d st = Except.error 1 ∨
      ∃ st1, check_capacity op d st = Except.ok st1 ∧ st1.b = st.b := by
  unfold check_capacity
  split
  · split
    · exact Or.inr ⟨_, rfl, rfl⟩
    · exact Or.inl rfl
  · exact Or.inr ⟨_, rfl, rfl⟩

theorem check_device_ok (op : opts_t) (d : DevEnv) (st st1 : CheckState)
    (h : check_device op 0 d st = Except.ok st1) :
    ¬ d.stat_ret < 0 ∧ d.is_chr = true ∧ (do_inquiry_prod_id d.inq st.b).1 = 0 ∧
      (product_id d.inq).take 10 = scsi_debug_str := by
  unfold check_device at h
  split at h
  · exact absurd h (by simp)
  · rename_i hs
    split at h
    · exact absurd h (by simp)
    · rename_i hc
      split at h
      · exact absurd h (by simp)
      · rename_i st2 hp
        obtain ⟨h1, h2, _⟩ := check_product_id_ok d st st2 hp
        exact ⟨hs, by simpa using hc, h1, h2⟩

theorem check_device_refuses (op : opts_t) (d : DevEnv) (st : CheckState) :
    check_device op 0 d st = Except.error 2 ↔
      (¬ d.stat_ret < 0 ∧ d.is_chr = true ∧ (do_inquiry_prod_id d.inq st.b).1 = 0 ∧
        (product_id d.inq).take 10 ≠ scsi_debug_str) := by
  unfold check_device
  by_cases hs : d.stat_ret < 0
  · simp [hs]
  · by_cases hc : d.is_chr = true
    · simp only [hs, if_false, hc, Bool.not_true, Bool.false_eq_true, not_false_eq_true,
        true_and]
      rw [← check_product_id_refuses]
      cases hp : check_product_id 0 d st with
      | error r => simp
      | ok st2 =>
        simp only
        rcases check_capacity_cases op d st2 with h | ⟨st3, h, _⟩ <;> rw [h] <;> simp
    · simp [hs, hc]

theorem check_devices_ok (op : opts_t) (devs : List DevEnv) :
    ∀ st st1, check_devices op 0 devs st = Except.ok st1 →
      ∀ d ∈ devs, (∀ b, (do_inquiry_prod_id d.inq b).1 = 0) ∧
        (product_id d.inq).take 10 = scsi_debug_str := by
  induction devs with
  | nil => intro st st1 _ d hd; exact absurd hd (by simp)
  | cons d0 rest ih =>
    intro st st1 h d hd
    simp only [check_devices] at h
    split at h
    · exact absurd h (by simp)
    · rename_i st2 hdev
      rcases List.mem_cons.mp hd with hd | hd
      · obtain ⟨_, _, h3, h4⟩ := check_device_ok op d0 st st2 hdev
        rw [hd]
        exact ⟨fun b => (do_inquiry_prod_id_ret d0.inq b st.b).trans h3, h4⟩
      · exact ih st2 st1 h d hd

theorem check_product_id_forced (force : Int) (hf : force ≠ 0) (d : DevEnv) (st : CheckState) :
    check_product_id force d st = Except.ok st := by
  simp [check_product_id, hf]

theorem check_devices_forced (op : opts_t) (force : Int) (hf : force ≠ 0)
    (f : DevEnv → ProbeRes) (devs : List DevEnv) :
    ∀ st, check_devices op force (devs.map (fun d => { d with inq := f d })) st =
      check_devices op force devs st := by
  induction devs with
  | nil => intro st; rfl
  | cons d rest ih =>
    intro st
    have hd : check_device op force { d with inq := f d } st = check_device op force d st := by
      simp only [check_device, check_product_id_forced force hf, check_capacity]
    simp only [List.map_cons, check_devices, hd]
    cases check_device op force d st with
    | error r => rfl
    | ok st1 => exact ih st1

theorem explicit_range_bounds (op : opts_t) (force : Int) (devs : List DevEnv) (b0 : List Nat)
    (st : CheckState) (h : main_checks op force devs b0 = Except.ok st)
    (hr : has_ruip op = true) (hhi : op.hi_lba < UINT_MAX) (id n : Nat) :
    ruip_bounds op st.hi_lbas id n = some (op.lba, op.hi_lba) ∧ op.lba ≤ op.hi_lba := by
  unfold main_checks at h
  split at h
  · exact absurd h (by simp)
  · split at h
    · exact absurd h (by simp)
    · rename_i hrange
      have hne : op.hi_lba ≠ 0 := by
        simp only [has_ruip, Bool.and_eq_true, decide_eq_true_eq] at hr
        exact hr.2
      have hle : op.lba ≤ op.hi_lba := by
        by_contra hgt
        exact hrange ⟨hne, by omega⟩
      have hmax : ¬ (UINT_MAX = op.hi_lba) := by omega
      simp only [UINT_MAX] at hhi
      have hmod : op.lba % 4294967296 = op.lba := Nat.mod_eq_of_lt (by omega)
      exact ⟨by simp [ruip_bounds, hr, hmax, hmod], hle⟩

/-- Claim C16, evaluated at the failing input `sg_tst_async -R -l 20000,-1` on
one scsi_debug disk whose READ CAPACITY(10) reports the last LBA 16383: `main`
accepts the configuration and stores 16383 in `hi_lbas`, and the worker
constructs its `Rand_uint` with `lo = 20000` and `hi = 16383`, a range whose
lower end lies above its upper end. -/
theorem range_beyond_device_end :
    main_checks opts_range 0 [dev_scsi_debug] [] =
      Except.ok { b := b_scsi_debug, hi_lbas := [16383] } ∧
    is_rw opts_range = true ∧
    ruip_bounds opts_range [16383] 0 1 = some (20000, 16383) ∧
    ¬ ((20000 : Nat) ≤ 16383) := by
  refine ⟨rfl, rfl, rfl, by decide⟩

/-! ### main: the safety check -/

theorem inquired_all (op : opts_t) (devs : List DevEnv) :
    ∀ st st1, check_devices op 0 devs st = Except.ok st1 → inquired op 0 devs st = devs := by
  induction devs with
  | nil => intro st st1 _; rfl
  | cons d0 rest ih =>
    intro st st1 h
    simp only [check_devices] at h
    split at h
    · exact absurd h (by simp)
    · rename_i st2 hdev
      obtain ⟨h1, h2, _, _⟩ := check_device_ok op d0 st st2 hdev
      simp only [inquired, h1, if_false, h2, Bool.not_true, Bool.false_eq_true, if_true, hdev,
        ih st2 st1 h]
      rfl

theorem inquired_wrong_id (op : opts_t) (devs : List DevEnv) :
    ∀ st pre d post b, inquired op 0 devs st = pre ++ d :: post →
      (do_inquiry_prod_id d.inq b).1 = 0 → (product_id d.inq).take 10 ≠ scsi_debug_str →
      check_devices op 0 devs st = Except.error 2 ∧ post = [] ∧
        (∃ rest, devs = pre ++ d :: rest) ∧
        ∀ d2 ∈ pre, (∀ b2, (do_inquiry_prod_id d2.inq b2).1 = 0) ∧
          (product_id d2.inq).take 10 = scsi_debug_str := by
  induction devs with
  | nil =>
    intro st pre d post b h _ _
    simp [inquired] at h
  | cons d0 rest ih =>
    intro st pre d post b h hok hbad
    simp only [inquired] at h
    split at h
    · exact absurd h (by simp)
    · rename_i hs
      split at h
      · exact absurd h (by simp)
      · rename_i hc
        have hc : d0.is_chr = true := by simpa using hc
        simp only [if_true, List.singleton_append] at h
        cases pre with
        | nil =>
          simp only [List.nil_append, List.cons.injEq] at h
          obtain ⟨hd, hpost⟩ := h
          subst hd
          have href := (check_device_refuses op d0 st).mpr
            ⟨hs, hc, (do_inquiry_prod_id_ret d0.inq st.b b).trans hok, hbad⟩
          rw [href] at hpost
          refine ⟨by simp only [check_devices, href], hpost.symm, ⟨rest, rfl⟩, ?_⟩
          intro d2 hd2
          exact absurd hd2 (by simp)
        | cons p pre2 =>
          simp only [List.cons_append, List.cons.injEq] at h
          obtain ⟨hp, hrest⟩ := h
          subst hp
          cases hdev : check_device op 0 d0 st with
          | error r =>
            rw [hdev] at hrest
            exact absurd hrest (by simp)
          | ok st2 =>
            rw [hdev] at hrest
            obtain ⟨h1, h2, ⟨rest2, h3⟩, h4⟩ := ih st2 pre2 d post b hrest hok hbad
            obtain ⟨_, _, h5, h6⟩ := check_device_ok op d0 st st2 hdev
            refine ⟨by simp only [check_devices, hdev, h1], h2, ⟨rest2, by rw [h3]; rfl⟩, ?_⟩
            intro d2 hd2
            rcases List.mem_cons.mp hd2 with hd2 | hd2
            · rw [hd2]
              exact ⟨fun b2 => (do_inquiry_prod_id_ret d0.inq b2 st.b).trans h5, h6⟩
            · exact h4 d2 hd2

theorem inquired_of_refusal (op : opts_t) (devs : List DevEnv) :
    ∀ st, check_devices op 0 devs st = Except.error 2 →
      ∃ pre d, inquired op 0 devs st = pre ++ [d] ∧
        (∀ b, (do_inquiry_prod_id d.inq b).1 = 0) ∧
        (product_id d.inq).take 10 ≠ scsi_debug_str := by
  induction devs with
  | nil =>
    intro st h
    simp [check_devices] at h
  | cons d0 rest ih =>
    intro st h
    simp only [check_devices] at h
    split at h
    · rename_i r hdev
      simp only [Except.error.injEq] at h
      subst h
      obtain ⟨h1, h2, h3, h4⟩ := (check_device_refuses op d0 st).mp hdev
      refine ⟨[], d0, ?_, fun b => (do_inquiry_prod_id_ret d0.inq b st.b).trans h3, h4⟩
      simp only [inquired, h1, if_false, h2, Bool.not_true, Bool.false_eq_true, if_true, hdev]
      rfl
    · rename_i st2 hdev
      obtain ⟨h1, h2, _, _⟩ := check_device_ok op d0 st st2 hdev
      obtain ⟨pre, d, h3, h4⟩ := ih st2 h
      refine ⟨d0 :: pre, d, ?_, h4⟩
      simp only [inquired, h1, if_false, h2, Bool.not_true, Bool.false_eq_true, if_true, hdev, h3]
      rfl

theorem inquired_forced (op : opts_t) (force : Int) (hf : force ≠ 0) (devs : List DevEnv) :
    ∀ st, inquired op force devs st = [] := by
  induction devs with
  | nil => intro st; rfl
  | cons d0 rest ih =>
    intro st
    simp only [inquired, hf, if_false, List.nil_append]
    split
    · rfl
    · split
      · rfl
      · split
        · rfl
        · exact ih _

/-- Claim C17: the safety check made when `-f` is not given.  (1) The workers
are started only if `main` has sent an INQUIRY to every named device and, for
every one of them, the INQUIRY succeeded and the product id begins with the 10
characters "scsi_debug".  (2) When a device to which `main` sends its INQUIRY
answers it successfully with a product id that does not begin with
"scsi_debug", `main` returns 2; that device is the last one asked, it stands
in the command line after the devices asked before it, and each of those
answered with a product id beginning with "scsi_debug": it is the first
device whose INQUIRY succeeds with another product id.  `main` returns 2 in
no other way.  (3) With `-f` no INQUIRY is sent and the outcome does not
depend on what the devices would answer to one. -/
theorem safety_check (op : opts_t) (devs : List DevEnv) (b0 : List Nat) :
    (∀ st, main_checks op 0 devs b0 = Except.ok st →
      main_inquired op 0 devs b0 = devs ∧
      ∀ d ∈ devs, (∀ b, (do_inquiry_prod_id d.inq b).1 = 0) ∧
        (product_id d.inq).take 10 = scsi_debug_str) ∧
    (∀ pre d post b, main_inquired op 0 devs b0 = pre ++ d :: post →
      (do_inquiry_prod_id d.inq b).1 = 0 → (product_id d.inq).take 10 ≠ scsi_debug_str →
      main_checks op 0 devs b0 = Except.error 2 ∧ post = [] ∧
        (∃ rest, devs = pre ++ d :: rest) ∧
        ∀ d2 ∈ pre, (∀ b2, (do_inquiry_prod_id d2.inq b2).1 = 0) ∧
          (product_id d2.inq).take 10 = scsi_debug_str) ∧
    (main_checks op 0 devs b0 = Except.error 2 →
      ∃ pre d, main_inquired op 0 devs b0 = pre ++ [d] ∧
        (∀ b, (do_inquiry_prod_id d.inq b).1 = 0) ∧
        (product_id d.inq).take 10 ≠ scsi_debug_str) ∧
    (∀ (force : Int) (f : DevEnv → ProbeRes), force ≠ 0 →
      main_inquired op force devs b0 = [] ∧
      main_checks op force (devs.map (fun d => { d with inq := f d })) b0 =
        main_checks op force devs b0) := by
  refine ⟨?_, ?_, ?_, ?_⟩
  · intro st h
    unfold main_checks at h
    unfold main_inquired
    split at h
    · exact absurd h (by simp)
    · rename_i hlen
      split at h
      · exact absurd h (by simp)
      · rename_i hr
        rw [if_neg hlen, if_neg hr]
        exact ⟨inquired_all op devs _ st h, check_devices_ok op devs _ st h⟩
  · intro pre d post b h hok hbad
    unfold main_inquired at h
    unfold main_checks
    split at h
    · exact absurd h (by simp)
    · rename_i hlen
      split at h
      · exact absurd h (by simp)
      · rename_i hr
        rw [if_neg hlen, if_neg hr]
        exact inquired_wrong_id op devs _ pre d post b h hok hbad
  · intro h
    unfold main_checks at h
    unfold main_inquired
    split at h
    · exact absurd h (by simp)
    · rename_i hlen
      split at h
      · exact absurd h (by simp)
      · rename_i hr
        rw [if_neg hlen, if_neg hr]
        exact inquired_of_refusal op devs _ h
  · intro force f hf
    constructor
    · unfold main_inquired
      split
      · rfl
      · split
        · rfl
        · exact inquired_forced op force hf devs _
    · unfold main_checks
      simp only [List.length_map]
      split
      · rfl
      · split
        · rfl
        · exact check_devices_forced op force hf f devs _

theorem safety_check_witness :
    main_checks opts_default 0 [dev_scsi_debug, dev_other_disk] [] = Except.error 2 :=
  ((safety_check opts_default [dev_scsi_debug, dev_other_disk] []).2.1
    [dev_scsi_debug] dev_other_disk [] [] rfl rfl (by decide)).1

end SgTstAsync
